import Mathlib

/-! # Pouch resource-lifecycle core: container state, quota identifiers, snapshot sync

A shallow embedding of parts of the pouch daemon together with theorems about them:

* `daemon/mgr/container_state.go`: the status setters, the status predicates and the
  start-validation gate;
* `storage/quota/prjquota.go`: the quota-id allocator `GetNextQuotaID`, the attribute reader
  `GetQuotaIDInFileAttr` and `setQuotaID`;
* `daemon/mgr/snapshot.go`: the snapshot store, one pass of `SnapshotsSyncer.Sync` and the
  parsing of the disk-usage probe;
* `storage/quota/prjquota.go` again: `CheckMountpoint` and `EnforceQuota`;
* `daemon/mgr/spec_mount.go`: the order `sortMounts` puts the mounts in, and
  `mergeContainerMount`;
* `daemon/mgr/fix_quota.go`: `fixQuotaProcess` and the three repair operations;
* `hookplugins/containerplugin/utils.go`: `UniqueStringSlice` and `addEnvironment`;
* `hookplugins/containerplugin/odps_hook.go`: `getRoutesFromStr` with its pattern.

Conventions. Go values of type `uint32` are natural numbers below `2 ^ 32` and every `uint32`
operation that can overflow is written with an explicit `% 2 ^ 32`. Go `error` values are terms of
`GoError`, a nil error is `none`. Everything the code obtains from outside the process (the
clock, external commands, the containerd client) is an explicit argument.
-/

namespace Pouch

/-! ## Errors -/

/-- Go error values as far as the embedded code builds or inspects them: the sentinels of
`pkg/errtypes`, message errors (`fmt.Errorf`, `errors.Errorf`), message errors whose text prints
another error with `%v` (`errorfv`, which does not wrap it) and wrapped errors (`errors.Wrapf` /
`errors.Wrap` of a non-nil cause). -/
inductive GoError where
  | ErrNotModified : GoError
  | ErrNotfound : GoError
  | ErrPreCheckFailed : GoError
  | errorf (msg : String) : GoError
  | errorfv (msg : String) (printed : GoError) : GoError
  | wrapf (cause : GoError) (msg : String) : GoError
  deriving DecidableEq, Repr

namespace GoError

/-- The root of a chain of wrapped errors, as `errors.Cause` of `github.com/pkg/errors`. -/
def Cause : GoError → GoError
  | wrapf c _ => Cause c
  | e => e

/-- Modelled from the spec: `errtypes.IsNotModified` (package `pkg/errtypes` is not among the
sources): the error's cause is the not-modified sentinel. -/
def IsNotModified (e : GoError) : Bool := decide (e.Cause = ErrNotModified)

/-- Modelled from the spec: `errtypes.IsNotfound` (package `pkg/errtypes` is not among the
sources): the error's cause is the not-found sentinel. -/
def IsNotfound (e : GoError) : Bool := decide (e.Cause = ErrNotfound)

/-- Modelled from the spec: `errtypes.IsPreCheckFailed` (package `pkg/errtypes` is not among the
sources): the error's cause is the precondition-failed sentinel. -/
def IsPreCheckFailed (e : GoError) : Bool := decide (e.Cause = ErrPreCheckFailed)

end GoError

/-- The Go call `errors.Wrapf(err, msg)`: nil stays nil, anything else is wrapped. -/
def Wrapf (err : Option GoError) (msg : String) : Option GoError :=
  match err with
  | none => none
  | some e => some (GoError.wrapf e msg)

/-! ## Container state (`daemon/mgr/container_state.go`) -/

/-- The Go type `types.Status` is a named string type. -/
abbrev Status := String

/-- Modelled from the spec: a status constant of `apis/types` (not among the sources); the
proofs use only that the six constants are pairwise different. -/
def StatusCreated : Status := "created"
/-- Modelled from the spec: a status constant of `apis/types` (not among the sources); the
proofs use only that the six constants are pairwise different. -/
def StatusRunning : Status := "running"
/-- Modelled from the spec: a status constant of `apis/types` (not among the sources); the
proofs use only that the six constants are pairwise different. -/
def StatusPaused : Status := "paused"
/-- Modelled from the spec: a status constant of `apis/types` (not among the sources); the
proofs use only that the six constants are pairwise different. -/
def StatusRestarting : Status := "restarting"
/-- Modelled from the spec: a status constant of `apis/types` (not among the sources); the
proofs use only that the six constants are pairwise different. -/
def StatusExited : Status := "exited"
/-- Modelled from the spec: a status constant of `apis/types` (not among the sources); the
proofs use only that the six constants are pairwise different. -/
def StatusDead : Status := "dead"

/-- The fields of `types.ContainerState` that `container_state.go` reads or writes. -/
structure ContainerState where
  Status : Status
  Running : Bool
  Paused : Bool
  Restarting : Bool
  Exited : Bool
  Dead : Bool
  Pid : Int
  ExitCode : Int
  StartedAt : String
  FinishedAt : String
  Error : String
  OOMKilled : Bool
  deriving DecidableEq, Repr

/-- The fields of `types.ContainerConfig` that the quota repair reads: the quota id, the table
from path pattern to size and the labels (Go maps, given by their entries in the order in which
the map is ranged over); and the switch `DisableNetworkFiles` that the mount merge reads. -/
structure ContainerConfig where
  QuotaID : String := ""
  DiskQuota : List (String × String) := []
  Labels : List (String × String) := []
  DisableNetworkFiles : Bool := false
  deriving DecidableEq, Repr

/-- The fields of `types.MountPoint` that this development reads; `Typ` is its field `Type`. -/
structure MountPoint where
  Source : String := ""
  Destination : String := ""
  Driver : String := ""
  Typ : String := ""
  RW : Bool := false
  Propagation : String := ""
  deriving DecidableEq, Repr

/-- A container: its identity, its state, what the quota repair reads of it (the
configuration, the map `Snapshotter.Data` and the mounts), and the three network file paths
that the mount merge writes and reads. -/
structure Container where
  ID : String
  State : ContainerState
  Config : ContainerConfig := {}
  SnapshotterData : List (String × String) := []
  Mounts : List MountPoint := []
  HostnamePath : String := ""
  HostsPath : String := ""
  ResolvConfPath : String := ""
  deriving DecidableEq, Repr

namespace Container

/-- The Go method `IsRunning`. -/
def IsRunning (c : Container) : Bool :=
  decide (c.State.Status = StatusRunning) && c.State.Running

/-- The Go method `IsPaused`. -/
def IsPaused (c : Container) : Bool :=
  decide (c.State.Status = StatusPaused) && c.State.Paused

/-- The Go method `IsRunningOrPaused`. -/
def IsRunningOrPaused (c : Container) : Bool :=
  c.IsRunning || c.IsPaused

/-- The Go method `IsExited`. -/
def IsExited (c : Container) : Bool :=
  decide (c.State.Status = StatusExited) && c.State.Exited

/-- The Go method `IsRestarting`. -/
def IsRestarting (c : Container) : Bool :=
  decide (c.State.Status = StatusRestarting) && c.State.Restarting

/-- The Go method `IsCreated`. -/
def IsCreated (c : Container) : Bool :=
  decide (c.State.Status = StatusCreated)

/-- The Go method `IsDead`. -/
def IsDead (c : Container) : Bool :=
  decide (c.State.Status = StatusDead) && c.State.Dead

/-- The map literal `statusFlags` of `setStatusFlags`, as its list of entries. -/
def statusFlagsInit : List (Status × Bool) :=
  [(StatusDead, false), (StatusRunning, false), (StatusPaused, false),
   (StatusRestarting, false), (StatusExited, false)]

/-- The guarded update of `setStatusFlags`: when `status` is a key of the map its entry becomes
true, otherwise the map stays as it is. -/
def statusFlagsFor (status : Status) : List (Status × Bool) :=
  if (statusFlagsInit.map Prod.fst).contains status then
    statusFlagsInit.map fun kv => if kv.1 = status then (kv.1, true) else kv
  else statusFlagsInit

/-- The body of the range loop of `setStatusFlags`: the switch on the key. -/
def assignFlag (st : ContainerState) (kv : Status × Bool) : ContainerState :=
  if kv.1 = StatusDead then { st with Dead := kv.2 }
  else if kv.1 = StatusPaused then { st with Paused := kv.2 }
  else if kv.1 = StatusRunning then { st with Running := kv.2 }
  else if kv.1 = StatusRestarting then { st with Restarting := kv.2 }
  else if kv.1 = StatusExited then { st with Exited := kv.2 }
  else st

/-- The Go method `setStatusFlags`: store the status, then copy every map entry into its flag.
The entries are visited in the order of the literal; `setStatusFlags_any_order` shows that the
order is immaterial. -/
def setStatusFlags (c : Container) (status : Status) : Container :=
  { c with State := (statusFlagsFor status).foldl assignFlag { c.State with Status := status } }

/-- The Go method `SetStatus`. -/
def SetStatus (c : Container) (s : Status) : Container :=
  c.setStatusFlags s

/-- The Go method `GetStatus`. -/
def GetStatus (c : Container) : Status := c.State.Status

/-- The Go method `SetStatusRunning`; `now` is `time.Now().UTC().Format(utils.TimeLayout)`. -/
def SetStatusRunning (c : Container) (now : String) (pid : Int) : Container :=
  setStatusFlags
    { c with State := { c.State with StartedAt := now, Pid := pid, ExitCode := 0 } }
    StatusRunning

/-- The Go method `SetStatusRestarting`. -/
def SetStatusRestarting (c : Container) : Container :=
  c.setStatusFlags StatusRestarting

/-- The Go method `SetStatusExited`; `now` is the formatted current time. -/
def SetStatusExited (c : Container) (now : String) (exitCode : Int) (errMsg : String) :
    Container :=
  setStatusFlags
    { c with State :=
        { c.State with FinishedAt := now, Pid := 0, ExitCode := exitCode, Error := errMsg } }
    StatusExited

/-- The Go method `SetStatusPaused`. -/
def SetStatusPaused (c : Container) : Container :=
  c.setStatusFlags StatusPaused

/-- The Go method `SetStatusUnpaused`. -/
def SetStatusUnpaused (c : Container) : Container :=
  c.setStatusFlags StatusRunning

/-- The Go method `SetStatusDead`. -/
def SetStatusDead (c : Container) : Container :=
  c.setStatusFlags StatusDead

/-- The Go method `SetStatusOOM`. -/
def SetStatusOOM (c : Container) : Container :=
  { c with State := { c.State with OOMKilled := true, Error := "OOMKilled" } }

/-- The Go method `validateStartContainerStatus`; `none` is the nil error. -/
def validateStartContainerStatus (c : Container) : Option GoError :=
  if c.IsPaused then
    some (.errorf ("cannot start a paused container " ++ c.ID ++ ", try unpause instead"))
  else if c.IsRunning then
    some (.wrapf .ErrNotModified ("container " ++ c.ID ++ " already started"))
  else if c.IsRestarting then
    some (.errorf ("can not start a restarting container " ++ c.ID))
  else if c.IsDead then
    some (.errorf ("cannot start a dead container " ++ c.ID))
  else none

/-- The Go method `validateStopContainerStatue`. -/
def validateStopContainerStatue (_c : Container) : Option GoError := none

end Container

/-- The status-setting operations of a container, with their arguments (`now` is the formatted
clock reading the operation takes). -/
inductive StatusOp where
  | SetStatus (s : Status)
  | SetStatusRunning (now : String) (pid : Int)
  | SetStatusRestarting
  | SetStatusExited (now : String) (exitCode : Int) (errMsg : String)
  | SetStatusPaused
  | SetStatusUnpaused
  | SetStatusDead
  deriving DecidableEq, Repr

/-- Run one status-setting operation. -/
def StatusOp.apply (c : Container) : StatusOp → Container
  | .SetStatus s => c.SetStatus s
  | .SetStatusRunning now pid => c.SetStatusRunning now pid
  | .SetStatusRestarting => c.SetStatusRestarting
  | .SetStatusExited now exitCode errMsg => c.SetStatusExited now exitCode errMsg
  | .SetStatusPaused => c.SetStatusPaused
  | .SetStatusUnpaused => c.SetStatusUnpaused
  | .SetStatusDead => c.SetStatusDead

/-- Run a sequence of status-setting operations, first to last. -/
def runStatusOps (c : Container) (ops : List StatusOp) : Container :=
  ops.foldl StatusOp.apply c

/-- Each of the five flags is true exactly when `Status` has the corresponding value. -/
def FlagsSynced (st : ContainerState) : Prop :=
  (st.Running = true ↔ st.Status = StatusRunning) ∧
  (st.Paused = true ↔ st.Status = StatusPaused) ∧
  (st.Restarting = true ↔ st.Status = StatusRestarting) ∧
  (st.Exited = true ↔ st.Status = StatusExited) ∧
  (st.Dead = true ↔ st.Status = StatusDead)

instance (st : ContainerState) : Decidable (FlagsSynced st) := by
  unfold FlagsSynced; infer_instance

/-- The number of status flags that are set. -/
def flagCount (st : ContainerState) : Nat :=
  st.Running.toNat + st.Paused.toNat + st.Restarting.toNat + st.Exited.toNat + st.Dead.toNat

/-- The flag that belongs to the container's status is set, for the three statuses the start
gate reports on (nothing is asked of the other flags). -/
def OwnFlagSet (st : ContainerState) : Prop :=
  (st.Status = StatusPaused → st.Paused = true) ∧
  (st.Status = StatusRunning → st.Running = true) ∧
  (st.Status = StatusDead → st.Dead = true)

instance (st : ContainerState) : Decidable (OwnFlagSet st) := by
  unfold OwnFlagSet; infer_instance

/-- A container in the zero state of `types.ContainerState` apart from the given status. -/
def containerWithStatus (id : String) (s : Status) : Container :=
  { ID := id
    State :=
      { Status := s, Running := false, Paused := false, Restarting := false, Exited := false,
        Dead := false, Pid := 0, ExitCode := 0, StartedAt := "", FinishedAt := "", Error := "",
        OOMKilled := false } }

/-- A container whose status is paused while its `Paused` flag is not set: the state a metadata
file holding `"Status": "paused"` without the flag decodes to. -/
def pausedWithoutFlag : Container := containerWithStatus "c1" StatusPaused

/-! ## Project quota driver (`storage/quota/prjquota.go`) -/

/-- The allocator fields of the Go struct `PrjQuotaDriver`: the key set of the map `quotaIDs`
and `lastID`, both of type `uint32`. The mutex is the caller's business: one call runs at a
time. -/
structure PrjQuotaDriver where
  quotaIDs : List Nat
  lastID : Nat
  deriving DecidableEq, Repr

/-- What `loadQuotaIDs` (in `quota.go`, not among the sources) hands back: the map, the last id
and the error. -/
structure LoadResult where
  quotaIDs : List Nat
  lastID : Nat
  err : Option GoError
  deriving DecidableEq, Repr

/-- The `for` loop of `GetNextQuotaID`, entered with the current `id`. One unit of `fuel` pays
for one iteration; `none` means the fuel ran out before the loop reached its `break`. The
increment is the `uint32` one. -/
def nextQuotaIDLoop (QuotaMinID : Nat) (quotaIDs : List Nat) : Nat → Nat → Option Nat
  | 0, _ => none
  | fuel + 1, id =>
    let id1 := if id < QuotaMinID then QuotaMinID else id
    let id2 := (id1 + 1) % 2 ^ 32
    if id2 ∈ quotaIDs then nextQuotaIDLoop QuotaMinID quotaIDs fuel id2 else some id2

/-- The Go method `GetNextQuotaID`. `QuotaMinID` is the constant of that name (declared in
`quota.go`), `load` is what the call `loadQuotaIDs("-Pan")` returns if it is made. The result is
the returned pair and the driver afterwards, or `none` when the loop outlives the fuel. -/
def GetNextQuotaID (QuotaMinID : Nat) (load : LoadResult) (fuel : Nat) (quota : PrjQuotaDriver) :
    Option ((Nat × Option GoError) × PrjQuotaDriver) :=
  let loaded : PrjQuotaDriver :=
    if quota.lastID = 0 then { quotaIDs := load.quotaIDs, lastID := load.lastID } else quota
  match (if quota.lastID = 0 then load.err else none) with
  | some err => some ((0, some (.wrapf err "failed to load quota list")), loaded)
  | none =>
    match nextQuotaIDLoop QuotaMinID loaded.quotaIDs fuel loaded.lastID with
    | none => none
    | some id => some ((id, none), { quotaIDs := loaded.quotaIDs.insert id, lastID := id })

/-- Consecutive calls of `GetNextQuotaID` on one driver, all of them successful: the ids they
return, in call order, and the driver afterwards. The result is `none` when a call returns an
error or outlives the fuel. -/
def GetNextQuotaIDTimes (QuotaMinID : Nat) (load : LoadResult) (fuel : Nat) :
    Nat → PrjQuotaDriver → Option (List Nat × PrjQuotaDriver)
  | 0, quota => some ([], quota)
  | n + 1, quota =>
    match GetNextQuotaID QuotaMinID load fuel quota with
    | some ((id, none), quota1) =>
      match GetNextQuotaIDTimes QuotaMinID load fuel n quota1 with
      | some (ids, quota2) => some (id :: ids, quota2)
      | none => none
    | _ => none

/-! ### Stamping a directory with a quota id -/

/-- The four results of `exec.Run`. -/
structure ExecResult where
  exit : Int
  stdout : String
  stderr : String
  err : Option GoError
  deriving DecidableEq, Repr

/-- The Go struct `MountInfo`. -/
structure MountInfo where
  MountPoint : String
  DeviceID : Nat
  FsType : String
  deriving DecidableEq, Repr

/-- Everything the quota driver obtains from outside the process. `Run history cmd` is the
result of `exec.Run(0, cmd...)` when the commands of `history` have been run before it;
`CheckRegularFile` and `loadQuotaIDs` stand for the functions of those names in `quota.go`
(not among the sources); `pathDir` is `path.Dir` of the Go library; `getDevID` stands for the
function of that name in `quota.go` (the device id of a path, and the error) and `ReadFile` for
`ioutil.ReadFile` (the content, and the error). -/
structure Host where
  Run : List (List String) → List String → ExecResult
  CheckRegularFile : String → Bool × Option GoError
  loadQuotaIDs : String → LoadResult
  pathDir : String → String
  getDevID : String → Nat × Option GoError := fun _ => (0, none)
  ReadFile : String → String × Option GoError := fun _ => ("", none)

/-- The mutable part of a run of the driver: the allocator and the external commands run so
far, oldest first. -/
structure QuotaWorld where
  driver : PrjQuotaDriver
  cmds : List (List String)
  deriving DecidableEq, Repr

/-- Modelled from the spec: the filesystem name constant `xfsFS` of `quota.go` (not among the
sources). -/
def xfsFS : String := "xfs"

/-- Run an external command: the result comes from the host, the command joins the log. -/
def execRun (host : Host) (w : QuotaWorld) (cmd : List String) : ExecResult × QuotaWorld :=
  (host.Run w.cmds cmd, { w with cmds := w.cmds ++ [cmd] })

/-- Pieces of a character list between occurrences of `sep`. -/
def splitChars (sep : Char) : List Char → List (List Char)
  | [] => [[]]
  | c :: cs =>
    if c = sep then [] :: splitChars sep cs
    else
      match splitChars sep cs with
      | [] => [[c]]
      | piece :: pieces => (c :: piece) :: pieces

/-- The Go call `strings.Split(s, sep)` for a one-character separator. -/
def stringsSplit (s : String) (sep : Char) : List String :=
  (splitChars sep s.data).map String.mk

/-- Where the digit loop of `strconv.ParseUint` (base 10, 64 bits) stands. -/
inductive DigitScan where
  | value (n : Nat)
  | syntaxError
  | rangeError
  deriving DecidableEq, Repr

/-- One character of the digit loop of `strconv.ParseUint`: a non-digit is a syntax error, a
value that no longer fits 64 bits a range error, and either ends the scan. -/
def DigitScan.step (st : DigitScan) (c : Char) : DigitScan :=
  match st with
  | .value n =>
    if c.isDigit then
      (if 10 * n + (c.toNat - 48) < 2 ^ 64 then .value (10 * n + (c.toNat - 48)) else .rangeError)
    else .syntaxError
  | st => st

/-- The value `strconv.Atoi` returns on a 64-bit platform (its error is dropped by the
caller): `0` on a syntax error, the nearest `int` bound on a range error. -/
def atoiValue (s : String) : Int :=
  let (neg, digits) :=
    match s.data with
    | '-' :: cs => (true, cs)
    | '+' :: cs => (false, cs)
    | cs => (false, cs)
  if digits = [] then 0
  else
    match digits.foldl DigitScan.step (.value 0) with
    | .syntaxError => 0
    | .rangeError => if neg then - (2 ^ 63 : Int) else (2 ^ 63 - 1 : Int)
    | .value n =>
      if neg then (if n ≤ 2 ^ 63 then - (n : Int) else - (2 ^ 63 : Int))
      else (if n < 2 ^ 63 then (n : Int) else (2 ^ 63 - 1 : Int))

/-- The Go conversion `uint32(x)` of an `int`. -/
def toUint32 (x : Int) : Nat := (x % 2 ^ 32).toNat

/-- The search loop of `GetQuotaIDInFileAttr` over the lines of the `lsattr` output. -/
def findQuotaIDInLines (dir : String) : List String → Nat
  | [] => 0
  | line :: lines =>
    let parts := stringsSplit line ' '
    if parts.length > 2 ∧ parts.get? 2 = some dir then
      toUint32 (atoiValue (parts.headD ""))
    else findQuotaIDInLines dir lines

/-- The Go method `GetQuotaIDInFileAttr`: the id in the `lsattr -p` listing of the parent, `0`
on any failure. -/
def GetQuotaIDInFileAttr (host : Host) (w : QuotaWorld) (dir : String) : Nat × QuotaWorld :=
  let parent := host.pathDir dir
  let (res, w1) := execRun host w ["lsattr", "-p", parent]
  match res.err with
  | some _ => (0, w1)
  | none => (findQuotaIDInLines dir (stringsSplit res.stdout '\n'), w1)

/-- Lines 110-125 of `setQuotaID`: stamp `dir` with `id` through `chattr` (the filesystem is
not xfs) or `xfs_quota` (xfs) and return `id` with the wrapped error of the command. -/
def setQuotaIDStamp (host : Host) (w : QuotaWorld) (dir : String) (id : Nat)
    (mountInfo : MountInfo) : (Nat × Option GoError) × QuotaWorld :=
  let strid := toString id
  if mountInfo.FsType ≠ xfsFS then
    let (res, w1) := execRun host w ["chattr", "-p", strid, "+P", dir]
    ((id, Wrapf res.err ("failed to chattr, dir: (" ++ dir ++ "), quota id: (" ++ strid ++
      "), stdout: (" ++ res.stdout ++ "), stderr: (" ++ res.stderr ++ "), exit: (" ++
      toString res.exit ++ ")")), w1)
  else
    let cmd := "project -s -p " ++ dir ++ " " ++ strid
    let (res, w1) := execRun host w ["xfs_quota", "-x", "-c", cmd]
    ((id, Wrapf res.err ("failed to xfs_quota, dir: (" ++ dir ++ "), quota id: (" ++ strid ++
      "), stdout: (" ++ res.stdout ++ "), stderr: (" ++ res.stderr ++ "), exit: (" ++
      toString res.exit ++ ")")), w1)

/-- The Go method `setQuotaID` (`mountInfo` is the non-nil pointer its caller passes). The
result is the returned pair and the world afterwards; `none` only when the call of
`GetNextQuotaID` outlives the fuel. -/
def setQuotaID (QuotaMinID : Nat) (host : Host) (fuel : Nat) (w : QuotaWorld) (dir : String)
    (qid : Nat) (mountInfo : MountInfo) : Option ((Nat × Option GoError) × QuotaWorld) :=
  let (isRegular, err) := host.CheckRegularFile dir
  if err.isSome || !isRegular then
    some ((0, some (.errorf ("file(" ++ dir ++ ") is not regular file"))), w)
  else if qid = 0 then
    let (id, w1) := GetQuotaIDInFileAttr host w dir
    if id > 0 then some ((id, none), w1)
    else
      match GetNextQuotaID QuotaMinID (host.loadQuotaIDs "-Pan") fuel w1.driver with
      | none => none
      | some ((_, some err), driver) =>
        some ((0, some (.wrapf err ("failed to get file: (" ++ dir ++ ") quota id"))),
          { w1 with driver := driver })
      | some ((id, none), driver) =>
        some (setQuotaIDStamp host { w1 with driver := driver } dir id mountInfo)
  else some (setQuotaIDStamp host w dir qid mountInfo)

/-- A host for examples: `lsattr -p` lists `/data/app` under project `16777256`, every command
succeeds, every path is a regular file, and no quota ids are in use. -/
def exampleHost : Host where
  Run := fun _ cmd =>
    if cmd.head? = some "lsattr" then
      { exit := 0, stdout := "16777256 --------------e---P /data/app\n", stderr := "",
        err := none }
    else { exit := 0, stdout := "", stderr := "", err := none }
  CheckRegularFile := fun _ => (true, none)
  loadQuotaIDs := fun _ => { quotaIDs := [], lastID := 16777216, err := none }
  pathDir := fun _ => "/data"

/-! ## Snapshot store and syncer (`daemon/mgr/snapshot.go`) -/

/-- The type `snapshots.Kind` of containerd. -/
inductive Kind where
  | KindUnknown
  | KindView
  | KindActive
  | KindCommitted
  deriving DecidableEq, Repr

/-- The Go struct `Snapshot`; `Size`, `Inodes`, `UsagePercent` are `uint64`, `Timestamp` is
`int64`. -/
structure Snapshot where
  Key : String
  Kind : Kind
  Size : Nat
  Inodes : Nat
  UsagePercent : Nat
  Timestamp : Int
  deriving DecidableEq, Repr

/-- The Go struct `SnapshotStore`: the map `snapshots` as the list of its key/value entries.
The lock is the caller's business: one operation runs at a time. -/
structure SnapshotStore where
  snapshots : List (String × Snapshot)
  deriving DecidableEq, Repr

namespace SnapshotStore

/-- The Go function `NewSnapshotStore`. -/
def NewSnapshotStore : SnapshotStore := { snapshots := [] }

/-- The Go method `Add`: the map assignment `s.snapshots[sn.Key] = sn`. -/
def Add (s : SnapshotStore) (sn : Snapshot) : SnapshotStore :=
  { snapshots := (sn.Key, sn) :: s.snapshots.filter fun kv => kv.1 ≠ sn.Key }

/-- The Go method `Get`. -/
def Get (s : SnapshotStore) (key : String) : Except GoError Snapshot :=
  match s.snapshots.find? fun kv => kv.1 = key with
  | some kv => .ok kv.2
  | none => .error (.wrapf .ErrNotfound ("snapshot " ++ key))

/-- The Go method `Delete`. -/
def Delete (s : SnapshotStore) (key : String) : SnapshotStore :=
  { snapshots := s.snapshots.filter fun kv => kv.1 ≠ key }

/-- The keys of the map. -/
def keys (s : SnapshotStore) : List String := s.snapshots.map Prod.fst

/-- The shape of a Go map filled through `Add` only: no key twice, and every value filed under
its own `Key`. -/
def WellFormed (s : SnapshotStore) : Prop :=
  s.keys.Nodup ∧ ∀ kv ∈ s.snapshots, kv.2.Key = kv.1

instance (s : SnapshotStore) : Decidable s.WellFormed := by
  unfold WellFormed; infer_instance

end SnapshotStore

/-- The Go method `List` (in the order of the entry list; Go leaves the order open). -/
def SnapshotStore.List (s : SnapshotStore) : List Snapshot :=
  s.snapshots.map Prod.snd

/-- The fields of `snapshots.Info` that `Sync` reads. -/
structure Info where
  Name : String
  Kind : Kind
  deriving DecidableEq, Repr

/-- The type `snapshots.Usage` of containerd; both fields are `int64`. -/
structure Usage where
  Size : Int
  Inodes : Int
  deriving DecidableEq, Repr

/-- A call `Sync` makes to measure usage. -/
inductive ProbeCall where
  | GetSnapshotUsage (key : String)
  | ContainerPID (key : String)
  | ContainerStatus (key : String)
  | doDiskUsageByNsenter (pid : Int)
  deriving DecidableEq, Repr

/-- Everything one pass of `Sync` obtains from outside. `start` is the clock reading at the top
of the pass and `now i` the reading taken while the `i`-th catalog entry is processed;
`WalkSnapshot` is what the catalog walk leaves behind (the entries handed to the callback and
the error); the remaining fields are the answers of the client, and of the method
`doDiskUsageByNsenter` (the `nsenter ... df` command and the parsing of its output), while
the `i`-th entry is processed. -/
structure SyncEnv where
  start : Int
  now : Nat → Int
  WalkSnapshot : List Info × Option GoError
  CurrentSnapshotterName : String
  GetSnapshotUsage : Nat → String → Except GoError Usage
  ContainerPID : Nat → String → Except GoError Int
  ContainerStatus : Nat → String → Except GoError String
  doDiskUsageByNsenter : Nat → Int → Except GoError (Usage × Nat)

/-- The constant `containerd.Running`. -/
def containerdRunning : String := "running"

/-- The Go conversion `uint64(x)` of an `int64`. -/
def toUint64 (x : Int) : Nat := (x % 2 ^ 64).toNat

/-- The Go method `FetchActiveOverlaySnapshotDiskUsage`, with the calls it makes. -/
def FetchActiveOverlaySnapshotDiskUsage (env : SyncEnv) (i : Nat) (key : String) :
    Except GoError (Usage × Nat) × List ProbeCall :=
  match env.ContainerPID i key with
  | .error err => (.error err, [.ContainerPID key])
  | .ok pid =>
    match env.ContainerStatus i key with
    | .error err => (.error err, [.ContainerPID key, .ContainerStatus key])
    | .ok status =>
      if status ≠ containerdRunning then
        (.error (.wrapf .ErrPreCheckFailed ("container(" ++ key ++ ") is not running")),
          [.ContainerPID key, .ContainerStatus key])
      else
        (env.doDiskUsageByNsenter i pid,
          [.ContainerPID key, .ContainerStatus key, .doDiskUsageByNsenter pid])

/-- Lines 147-171 of `Sync`: measure the usage of a new or active snapshot. The result is
`error` on both `continue` paths (the swallowed not-found / precondition errors of the
in-namespace probe, and any other error), otherwise the usage and the used percent. -/
def fetchUsage (env : SyncEnv) (i : Nat) (info : Info) :
    Except GoError (Usage × Nat) × List ProbeCall :=
  if env.CurrentSnapshotterName = "overlayfs" ∨ env.CurrentSnapshotterName = "overlay1fs" then
    if info.Kind = .KindActive then
      match FetchActiveOverlaySnapshotDiskUsage env i info.Name with
      | (.error err, calls) =>
        if err.IsNotfound || err.IsPreCheckFailed then (.error err, calls)
        else (.error err, calls)
      | (.ok res, calls) => (.ok res, calls)
    else
      match env.GetSnapshotUsage i info.Name with
      | .error err => (.error err, [.GetSnapshotUsage info.Name])
      | .ok usage => (.ok (usage, 0), [.GetSnapshotUsage info.Name])
  else
    match env.GetSnapshotUsage i info.Name with
    | .error err => (.error err, [.GetSnapshotUsage info.Name])
    | .ok usage => (.ok (usage, 0), [.GetSnapshotUsage info.Name])

/-- The state a pass of `Sync` works on: the store and the usage calls made so far. -/
structure SyncState where
  store : SnapshotStore
  calls : List ProbeCall
  deriving DecidableEq, Repr

/-- The stored snapshot whose timestamp alone is refreshed for `info` (lines 131-139 of
`Sync`): the one `Get` finds, when it has the catalog's kind and that kind is not active. -/
def refreshOnly (store : SnapshotStore) (info : Info) : Option Snapshot :=
  match store.Get info.Name with
  | .ok sn => if sn.Kind = info.Kind ∧ sn.Kind ≠ .KindActive then some sn else none
  | .error _ => none

/-- The body of the first loop of `Sync` for the `i`-th catalog entry. -/
def syncEntry (env : SyncEnv) (i : Nat) (st : SyncState) (info : Info) : SyncState :=
  match refreshOnly st.store info with
  | some sn => { st with store := st.store.Add { sn with Timestamp := env.now i } }
  | none =>
    match fetchUsage env i info with
    | (.error _, calls) => { st with calls := st.calls ++ calls }
    | (.ok (usage, usedPercent), calls) =>
      { store := st.store.Add
          { Key := info.Name, Kind := info.Kind, Timestamp := env.now i,
            Size := toUint64 usage.Size, Inodes := toUint64 usage.Inodes,
            UsagePercent := usedPercent }
        calls := st.calls ++ calls }

/-- The first loop of `Sync`, from the `i`-th catalog entry on. -/
def syncLoop (env : SyncEnv) : Nat → List Info → SyncState → SyncState
  | _, [], st => st
  | i, info :: infos, st => syncLoop env (i + 1) infos (syncEntry env i st info)

/-- The second loop of `Sync`, over a listing of the store: delete what was not updated after
`start`. -/
def evictLoop (start : Int) : List Snapshot → SnapshotStore → SnapshotStore
  | [], store => store
  | sn :: sns, store =>
    if sn.Timestamp > start then evictLoop start sns store
    else evictLoop start sns (store.Delete sn.Key)

/-- The Go method `Sync`: the returned error, the store afterwards and the usage calls made. -/
def Sync (env : SyncEnv) (store : SnapshotStore) : Option GoError × SyncState :=
  match env.WalkSnapshot with
  | (_, some err) =>
    (some (.errorfv "failed to walk all snapshots: %v" err), { store := store, calls := [] })
  | (infos, none) =>
    let st := syncLoop env 0 infos { store := store, calls := [] }
    (none, { st with store := evictLoop env.start st.store.List st.store })

/-- A pass for examples: the catalog holds the active snapshot `k1`, the backend is overlayfs
and the container of `k1` is gone (`ContainerPID` answers not-found); the pass starts at `100`
and every later clock reading is `200`. -/
def exampleSyncEnv : SyncEnv where
  start := 100
  now := fun _ => 200
  WalkSnapshot := ([⟨"k1", .KindActive⟩], none)
  CurrentSnapshotterName := "overlayfs"
  GetSnapshotUsage := fun _ _ => .ok ⟨4096, 3⟩
  ContainerPID := fun _ key => .error (.wrapf .ErrNotfound ("container " ++ key))
  ContainerStatus := fun _ _ => .ok "running"
  doDiskUsageByNsenter := fun _ _ => .ok (⟨4096, 0⟩, 42)

/-- A store for examples: the active snapshot `k1` and the committed snapshot `k2`, both
stamped `50`. -/
def exampleStore : SnapshotStore :=
  { snapshots :=
      [("k1", ⟨"k1", .KindActive, 1024, 2, 10, 50⟩),
       ("k2", ⟨"k2", .KindCommitted, 2048, 5, 0, 50⟩)] }

/-- The entry `info` is refreshed when it is processed as the `i`-th entry against `store`:
the stored snapshot of that name has the catalog's kind and that kind is not active (only the
timestamp is renewed), or the usage measurement succeeds. -/
def Refreshed (store : SnapshotStore) (env : SyncEnv) (i : Nat) (info : Info) : Prop :=
  (∃ sn, store.Get info.Name = .ok sn ∧ sn.Kind = info.Kind ∧ sn.Kind ≠ .KindActive) ∨
  ∃ u, (fetchUsage env i info).1 = .ok u

/-- The example pass with the container of `k1` alive: `ContainerPID` answers `4242`, the
container is running and the probe reports 4096 bytes used, 42 percent. -/
def exampleSyncEnvRunning : SyncEnv :=
  { exampleSyncEnv with ContainerPID := fun _ _ => .ok 4242 }

/-! ### The disk-usage probe (`doDiskUsageByNsenter` in `daemon/mgr/snapshot.go`) -/

/-- The Go library predicate `unicode.IsSpace`. -/
def isSpace (c : Char) : Bool :=
  let n := c.toNat
  (9 ≤ n && n ≤ 13) || n == 32 || n == 0x85 || n == 0xA0 || n == 0x1680 ||
    (0x2000 ≤ n && n ≤ 0x200A) || n == 0x2028 || n == 0x2029 || n == 0x202F || n == 0x205F ||
    n == 0x3000

/-- The Go library function `strings.TrimSpace`. -/
def stringsTrimSpace (s : String) : String :=
  String.mk ((s.data.dropWhile isSpace).reverse.dropWhile isSpace).reverse

/-- The scan of `strings.Fields`: `cur` holds the characters of the field being read, last one
first. -/
def fieldsScan : List Char → List Char → List String
  | [], cur => if cur = [] then [] else [String.mk cur.reverse]
  | c :: cs, cur =>
    if isSpace c then
      (if cur = [] then fieldsScan cs [] else String.mk cur.reverse :: fieldsScan cs [])
    else fieldsScan cs (c :: cur)

/-- The Go library function `strings.Fields`: the maximal runs of non-space characters. -/
def stringsFields (s : String) : List String := fieldsScan s.data []

/-- The Go library function `strings.ToLower` on the letters `A` to `Z`. No other character
has its lower case among the characters of `used` and `use%`, so the two header lookups of the
probe give what they give in Go. -/
def stringsToLower (s : String) : String := String.mk (s.data.map Char.toLower)

/-- The Go library function `strings.Contains`. -/
def stringsContains (s substr : String) : Bool :=
  s.data.tails.any fun tail => substr.data.isPrefixOf tail

/-- The assignment `m[k] = v` on a Go map with string keys, the map given by its entries. -/
def goMapSet {β : Type} (m : List (String × β)) (k : String) (v : β) : List (String × β) :=
  (k, v) :: m.filter fun kv => kv.1 ≠ k

/-- The lookup `v, ok := m[k]` on a Go map with string keys. -/
def goMapGet {β : Type} (m : List (String × β)) (k : String) : Option β :=
  (m.find? fun kv => kv.1 = k).map Prod.snd

/-- The loop that fills `hash4Idx`: every header field, lower-cased, is mapped to its index;
`idx` is the index of the first field of the list. -/
def headerIndexFrom (idx : Nat) (m : List (String × Nat)) : List String → List (String × Nat)
  | [] => m
  | key :: keys => headerIndexFrom (idx + 1) (goMapSet m (stringsToLower key) idx) keys

/-- The Go library function `strconv.Atoi` on a 64-bit platform: the value, or `none` when it
returns an error (syntax or range). -/
def Atoi (s : String) : Option Int :=
  let (neg, digits) :=
    match s.data with
    | '-' :: cs => (true, cs)
    | '+' :: cs => (false, cs)
    | cs => (false, cs)
  if digits = [] then none
  else
    match digits.foldl DigitScan.step (.value 0) with
    | .syntaxError => none
    | .rangeError => none
    | .value n =>
      if neg then (if n ≤ 2 ^ 63 then some (- (n : Int)) else none)
      else (if n < 2 ^ 63 then some (n : Int) else none)

/-- The UTF-8 encoding of a character, one number per byte. -/
def utf8Bytes (c : Char) : List Nat :=
  let n := c.toNat
  if n < 0x80 then [n]
  else if n < 0x800 then [0xC0 + n / 64, 0x80 + n % 64]
  else if n < 0x10000 then [0xE0 + n / 4096, 0x80 + n / 64 % 64, 0x80 + n % 64]
  else [0xF0 + n / 262144, 0x80 + n / 4096 % 64, 0x80 + n / 64 % 64, 0x80 + n % 64]

/-- The Go slice expression `s[:len(s)-1]` on a non-empty string: all bytes but the last. The
result is given byte by byte, the byte `b` as the character of code `b`; on ASCII text it is
the text without its last character. -/
def dropLastByte (s : String) : String :=
  String.mk ((s.data.flatMap utf8Bytes).dropLast.map Char.ofNat)

/-- The Go arithmetic on `int64`: the result of an operation, reduced to 64 bits. -/
def wrapInt64 (x : Int) : Int := (x + 2 ^ 63) % 2 ^ 64 - 2 ^ 63

/-- How the parsing part of `doDiskUsageByNsenter` can end: with the usage and the used
percent, with an error, or in the run-time failure of an index expression that is out of
range. -/
inductive DfOutcome where
  | result (usage : Usage) (usedPercent : Nat)
  | error (err : GoError)
  | indexOutOfRange
  deriving DecidableEq, Repr

/-- The outcome is a returned error. -/
def DfOutcome.isError : DfOutcome → Bool
  | .error _ => true
  | _ => false

/-- Lines 229-279 of `doDiskUsageByNsenter`: the parsing of the output `res` of `df -k /`.
(The texts of the two `strconv` errors are left out of the messages.) -/
def parseDfOutput (res : String) : DfOutcome :=
  let output := stringsTrimSpace res
  match stringsSplit output '\n' with
  | [line0, line1] =>
    let header := stringsTrimSpace line0
    if header = "" then .error (.errorf ("df return no header:\n" ++ output))
    else
      let hash4Idx := headerIndexFrom 0 [] (stringsFields header)
      match goMapGet hash4Idx "used" with
      | none => .error (.errorf ("df return header without used colum:\n" ++ output))
      | some usedIdx =>
        match goMapGet hash4Idx "use%" with
        | none => .error (.errorf ("df return header without used% colum:\n" ++ output))
        | some usedPercentIdx =>
          let data := stringsTrimSpace line1
          let values := stringsFields data
          match values.get? usedIdx with
          | none => .indexOutOfRange
          | some usedField =>
            match Atoi usedField with
            | none => .error (.errorf ("failed to parse df return data: \n" ++ output))
            | some usedValue =>
              match values.get? usedPercentIdx with
              | none => .indexOutOfRange
              | some percentValue =>
                match Atoi (dropLastByte percentValue) with
                | none =>
                  .error (.errorf ("failed to parse df return used percent data: \n" ++ output))
                | some usedPercentValue =>
                  if usedPercentValue < 0 ∨ usedPercentValue > 100 then
                    .error (.errorf ("invalid percent data: <nil>\n" ++ output))
                  else
                    .result { Size := wrapInt64 (usedValue * 1024), Inodes := 0 }
                      usedPercentValue.toNat
  | _ => .error (.errorf ("df should return header and data:\n " ++ output))

/-- The Go method `doDiskUsageByNsenter` once the `nsenter ... df -k /` command has returned
the combined output `res` and the error `err` (given by its text). -/
def doDiskUsageByNsenter (res : String) (err : Option String) : DfOutcome :=
  match err with
  | some text =>
    if stringsContains res "No such file or directory" ||
        stringsContains text "No such file or directory" then
      .error (.wrapf .ErrNotfound ("failed to exec nsenter: " ++ text ++ "\n" ++ res))
    else .error (.wrapf (.errorf text) ("failed to exec df: " ++ res))
  | none => parseDfOutput res

/-! ## Project quota driver: mountpoints (`CheckMountpoint`, `EnforceQuota`) -/

/-- Modelled from the spec: the path constant `procMountFile` of `quota.go` (not among the
sources), the live mount table. -/
def procMountFile : String := "/proc/mounts"

/-- Modelled from the spec: the filesystem name constant `ext3FS` of `quota.go` (not among the
sources). -/
def ext3FS : String := "ext3"

/-- Modelled from the spec: the filesystem name constant `ext4FS` of `quota.go` (not among the
sources). -/
def ext4FS : String := "ext4"

/-- The Go expression `len(s)`: the number of bytes of the string. -/
def goLen (s : String) : Nat := (s.data.flatMap utf8Bytes).length

/-- The three result variables of `CheckMountpoint`. -/
structure MountSelection where
  enableQuota : Bool
  mountPoint : String
  fsType : String
  deriving DecidableEq, Repr

/-- The mountpoint field `parts[1]` of a line of the mount table. -/
def lineMountPoint (line : String) : String := (stringsSplit line ' ').getD 1 ""

/-- The filesystem type field `parts[2]` of a line of the mount table. -/
def lineFsType (line : String) : String := (stringsSplit line ' ').getD 2 ""

/-- The option field `parts[3]` of a line of the mount table. -/
def lineOptions (line : String) : String := (stringsSplit line ' ').getD 3 ""

/-- The option list of the line contains `prjquota` (the inner loop of `CheckMountpoint`). -/
def lineHasPrjquota (line : String) : Bool :=
  (stringsSplit (lineOptions line) ',').contains "prjquota"

/-- The body of the loop of `CheckMountpoint` for one line of the mount table. -/
def checkMountLine (host : Host) (devID : Nat) (st : MountSelection) (line : String) :
    MountSelection :=
  if (stringsSplit line ' ').length ≠ 6 then st
  else if lineFsType line ≠ xfsFS ∧ lineFsType line ≠ ext3FS ∧ lineFsType line ≠ ext4FS then st
  else if devID ≠ (host.getDevID (lineMountPoint line)).1 then st
  else if st.mountPoint ≠ "" ∧ goLen st.mountPoint < goLen (lineMountPoint line) then st
  else
    { mountPoint := lineMountPoint line
      fsType := lineFsType line
      enableQuota := if lineHasPrjquota line then true else st.enableQuota }

/-- The Go method `CheckMountpoint`: mountpoint, quota-enabled flag and filesystem type. -/
def CheckMountpoint (host : Host) (devID : Nat) : String × Bool × String :=
  match host.ReadFile procMountFile with
  | (_, some _) => ("", false, "")
  | (output, none) =>
    let st := (stringsSplit output '\n').foldl (checkMountLine host devID)
      { enableQuota := false, mountPoint := "", fsType := "" }
    (st.mountPoint, st.enableQuota, st.fsType)

/-- Lines 62-83 of `EnforceQuota`: turn quota accounting on with `quotaon` unless the
filesystem is xfs, and return. `err` is the function's variable of that name, which holds the
nil error of `getDevID` when these lines are reached. -/
def enforceQuotaOn (host : Host) (w : QuotaWorld) (devID : Nat) (mountPoint fsType : String)
    (err : Option GoError) : (Option MountInfo × Option GoError) × QuotaWorld :=
  if fsType ≠ xfsFS then
    let (res, w1) := execRun host w ["quotaon", "-P", mountPoint]
    match res.err with
    | some _err2 =>
      if stringsContains res.stderr " File exists" then
        ((some { MountPoint := mountPoint, DeviceID := devID, FsType := fsType }, none), w1)
      else
        ((some { MountPoint := "", DeviceID := devID, FsType := fsType },
          Wrapf err ("failed to quota on, mountpoint: (" ++ mountPoint ++ "), stdout: (" ++
            res.stdout ++ "), stderr: (" ++ res.stderr ++ "), exit: (" ++ toString res.exit ++
            ")")), w1)
    | none => ((some { MountPoint := mountPoint, DeviceID := devID, FsType := fsType }, err), w1)
  else ((some { MountPoint := mountPoint, DeviceID := devID, FsType := fsType }, err), w)

/-- The Go method `EnforceQuota`: the returned `*MountInfo` (`none` is nil) and error, and the
world afterwards. -/
def EnforceQuota (host : Host) (w : QuotaWorld) (dir : String) :
    (Option MountInfo × Option GoError) × QuotaWorld :=
  let (devID, err) := host.getDevID dir
  match err with
  | some e =>
    ((none, some (.wrapf e ("failed to get device id for directory: (" ++ dir ++ ")"))), w)
  | none =>
    let (mountPoint, hasQuota, fsType) := CheckMountpoint host devID
    if mountPoint = "" then
      ((none, some (.errorf
        ("mountPoint not found for the device on which dir (" ++ dir ++ ") lies"))), w)
    else if !hasQuota then
      let (res, w1) := execRun host w ["mount", "-o", "remount,prjquota", mountPoint]
      match res.err with
      | some e =>
        ((none, some (.wrapf e ("failed to remount prjquota, mountpoint: (" ++ mountPoint ++
          "), stdout: (" ++ res.stdout ++ "), stderr: (" ++ res.stderr ++ "), exit: (" ++
          toString res.exit ++ ")"))), w1)
      | none => enforceQuotaOn host w1 devID mountPoint fsType err
    else enforceQuotaOn host w devID mountPoint fsType err

/-- A host for examples: every path lies on device `2049`, the mount table is `table`, and the
command `quotaon` fails with the text `stderr` on its error stream while every other command
succeeds. -/
def mountHost (table : String) (stderr : String) : Host where
  Run := fun _ cmd =>
    if cmd.head? = some "quotaon" then
      { exit := 1, stdout := "", stderr := stderr, err := some (.errorf "exit status 1") }
    else { exit := 0, stdout := "", stderr := "", err := none }
  CheckRegularFile := fun _ => (true, none)
  loadQuotaIDs := fun _ => { quotaIDs := [], lastID := 16777216, err := none }
  pathDir := fun _ => "/"
  getDevID := fun _ => (2049, none)
  ReadFile := fun _ => (table, none)

/-- The Go struct `specs.Mount`; `Typ` is its field `Type`. -/
structure Mount where
  Destination : String
  Typ : String
  Source : String
  Options : List String
  deriving DecidableEq, Repr

/-- One path element of `filepath.Clean`, against the elements kept so far (last one first):
empty and `.` elements are dropped, `..` removes the element before it, is dropped at the root
of a rooted path and is kept at the start of a relative one. -/
def cleanStep (rooted : Bool) (kept : List String) (elem : String) : List String :=
  if elem = "" ∨ elem = "." then kept
  else if elem = ".." then
    match kept with
    | [] => if rooted then [] else [".."]
    | top :: rest => if top = ".." then ".." :: kept else rest
  else elem :: kept

/-- The Go library function `filepath.Clean` (Unix paths): the shortest path naming the same
file by purely lexical processing. -/
def filepathClean (path : String) : String :=
  let rooted := path.data.head? = some '/'
  let kept := (stringsSplit path '/').foldl (cleanStep rooted) []
  let body := String.intercalate "/" kept.reverse
  if rooted then "/" ++ body else if body = "" then "." else body

/-- Lexicographic comparison of two character lists by code point. -/
def charsLess : List Char → List Char → Bool
  | [], [] => false
  | [], _ :: _ => true
  | _ :: _, [] => false
  | a :: as, b :: bs =>
    if a.toNat < b.toNat then true
    else if b.toNat < a.toNat then false
    else charsLess as bs

/-- The Go comparison `s < t` of two strings (bytewise, which on UTF-8 text is the order by
code point). -/
def stringLess (s t : String) : Bool := charsLess s.data t.data

/-- The Go method `mounts.Less`, on two mounts instead of two indices. -/
def mountsLess (a b : Mount) : Bool :=
  stringLess (filepathClean a.Destination) (filepathClean b.Destination)

/-- One element of a stable insertion sort: `x`, which stood behind all of `sorted`, is moved
forward past every element it is less than. -/
def stableInsert (x : Mount) : List Mount → List Mount
  | [] => [x]
  | y :: ys => if mountsLess x y then x :: y :: ys else y :: stableInsert x ys

/-- The Go call `sort.Stable(mounts(m))`, as the stable insertion sort (the ordering is a
strict weak one, for which every stable sort returns the same list). -/
def sortStable (m : List Mount) : List Mount :=
  m.foldl (fun sorted x => stableInsert x sorted) []

/-- The Go function `sortMounts`. -/
def sortMounts (m : List Mount) : List Mount := sortStable m

/-- The destination `child` lies strictly below the destination `parent`: its clean path is
the clean path of `parent` followed by further elements (after a `/`, unless `parent` is the
root). For absolute destinations, which is what a mount has, this says that the elements of
the parent's clean path are a proper initial segment of those of the child's. -/
def ProperDescendant (child parent : String) : Prop :=
  ∃ rest : List Char, rest ≠ [] ∧
    (filepathClean child).data = (filepathClean parent).data ++ rest ∧
    (filepathClean parent = "/" ∨ rest.head? = some '/')

/-! ## Quota repair (`daemon/mgr/fix_quota.go`) -/

/-- The three target ids of `types.UpdateConfig` that `fixQuotaProcess` reads (`int64`). -/
structure UpdateConfig where
  FixQuotaContainer : Int
  FixQuotaRootfs : Int
  FixQuotaVolumes : Int
  deriving DecidableEq, Repr

/-- A call the repair layer makes: to one of its three operations, or to the quota package
(`SetFileAttrRecursive` is started with `go`; the entry records that it was started). -/
inductive RepairCall where
  | FixContainerQuota (fixedQuota : Int)
  | FixContainerRootfsQuota (fixedQuota : Int)
  | FixContainerVolumesQuota (fixedQuota : Int)
  | GetQuotaIDInFileAttr (dir : String)
  | SetDiskQuota (dir size : String) (quotaID : Nat)
  | SetFileAttrRecursive (dir : String) (quotaID : Nat)
  deriving DecidableEq, Repr

/-- Everything the repair layer obtains from outside `fix_quota.go`. `regexpCompiles exp`
says whether `regexp.Compile(exp)` succeeds and `FindString exp s` is the leftmost match of the
compiled pattern in `s` (the Go library); `SetDiskQuota` and `GetQuotaIDInFileAttr` are the
functions of package `quota`, answering after the calls of `history`;
`getDiskQuotaMountPoints` is the manager method of that name (not among the sources);
`statIsDir path` says whether `os.Stat(path)` succeeds on a directory. -/
structure RepairHost where
  regexpCompiles : String → Bool
  FindString : String → String → String
  SetDiskQuota : List RepairCall → String → String → Nat → Option GoError
  GetQuotaIDInFileAttr : List RepairCall → String → Nat
  getDiskQuotaMountPoints : Container → Bool → List MountPoint × Option GoError
  statIsDir : String → Bool

/-- The Go function `parseDiskQuota`: the entries of the map whose pattern compiles, in the
order in which the map is ranged over, each as its pattern and its limit size. -/
def parseDiskQuota (host : RepairHost) (quota : List (String × String)) :
    List (String × String) :=
  quota.filter fun entry => host.regexpCompiles entry.1

/-- The size loop of the repair operations: the limit size of the first pattern that matches
the whole of `dest`, the empty string when there is none. -/
def matchSize (host : RepairHost) (dest : String) : List (String × String) → String
  | [] => ""
  | re :: dqre => if host.FindString re.1 dest = dest then re.2 else matchSize host dest dqre

/-- The body of the loop of `FixContainerQuota` for one mount point; `calls` are the calls made
so far. -/
def fixMount (host : RepairHost) (c : Container) (dqre : List (String × String)) (qid : Nat)
    (calls : List RepairCall) (m : MountPoint) : List RepairCall :=
  let dest := m.Destination
  let matched := dqre.any fun re => host.FindString re.1 dest = dest
  let src := if matched then m.Source else ""
  let size := matchSize host dest dqre
  if src = "" ∨ size = "" then calls
  else if dest = "/" then
    let upper := (goMapGet c.SnapshotterData "UpperDir").getD ""
    if upper = "" then calls
    else
      let _err := host.SetDiskQuota calls upper size qid
      calls ++ [.SetDiskQuota upper size qid, .SetFileAttrRecursive upper qid]
  else
    let _err := host.SetDiskQuota calls src size qid
    calls ++ [.SetDiskQuota src size qid, .SetFileAttrRecursive src qid]

/-- The Go method `FixContainerQuota`: the returned error and the calls made. (The map and the
error printed by two of the messages are left out of their texts.) -/
def FixContainerQuota (host : RepairHost) (c : Container) (fixedQuota : Int) :
    Option GoError × List RepairCall :=
  if fixedQuota ≠ -1 then
    (some (.errorf "only support fix container quota with origin quota"), [])
  else
    let dqre := parseDiskQuota host c.Config.DiskQuota
    if dqre.length > 1 then
      (some (.errorf "failed to fix container quota with DiskQuota"), [])
    else
      match Atoi c.Config.QuotaID with
      | none =>
        (some (.errorf "failed to fix container quota cause cannot get quota id from config"),
          [])
      | some quotaid =>
        if quotaid = 0 then
          (some (.errorf "failed to fix container quota cause cannot get quota id from config"),
            [])
        else
          let qid := toUint32 quotaid
          match host.getDiskQuotaMountPoints c false with
          | (_, some err) =>
            (some (.errorfv "failed to fix container quota cause cannot get mountpoints %s" err),
              [])
          | (allMounts, none) => (none, allMounts.foldl (fixMount host c dqre qid) [])

/-- The Go method `FixContainerRootfsQuota`: the returned error and the calls made.
`QuotaMinID` is the constant of package `quota` behind `minQuota`. -/
def FixContainerRootfsQuota (QuotaMinID : Nat) (host : RepairHost) (c : Container)
    (fixedQuota : Int) : Option GoError × List RepairCall :=
  if fixedQuota ≠ -1 ∧ fixedQuota < (QuotaMinID : Int) then
    (some (.errorf ("failed to fix rootfs quota with id " ++ toString fixedQuota)), [])
  else
    let dqre := parseDiskQuota host c.Config.DiskQuota
    let size := matchSize host "/" dqre
    if size = "" then
      (some (.errorf "failed to fix container quota, can not get quota limit"), [])
    else
      let labelQid := atoiValue c.Config.QuotaID
      let upper := (goMapGet c.SnapshotterData "UpperDir").getD ""
      if labelQid = 0 ∧ upper = "" then
        (some (.errorf ("failed to fix container rootfs quota id, quota id get from label " ++
          "is 0 and upper directory not have quotaid")), [])
      else
        let existQid : Int := host.GetQuotaIDInFileAttr [] upper
        if labelQid ≠ 0 ∧ existQid ≠ 0 ∧ existQid ≠ labelQid ∧ fixedQuota = -1 then
          (some (.errorf ("failed to fix container rootfs quota id, quota id get from label(" ++
            toString labelQid ++ ") and directory(" ++ toString existQid ++
            ") not equal, please specified quota id with --fix-quota-rootfs")),
            [.GetQuotaIDInFileAttr upper])
        else
          let qid0 := if fixedQuota = -1 then labelQid else fixedQuota
          let qid := if qid0 = 0 then existQid else qid0
          if qid = 0 then
            (some (.errorf ("failed to fix container rootfs quota id, can not get from " ++
              "fixedQuota passed, label, directory, better to specified quota id with " ++
              "--fix-quota-rootfs")), [.GetQuotaIDInFileAttr upper])
          else
            let _err := host.SetDiskQuota [.GetQuotaIDInFileAttr upper] upper size (toUint32 qid)
            (none, [.GetQuotaIDInFileAttr upper, .SetDiskQuota upper size (toUint32 qid),
              .SetFileAttrRecursive upper (toUint32 qid)])

/-- The first loop of `FixContainerVolumesQuota`: the map from clean destination to source of
the local-driver mounts whose source is a directory. -/
def volumeMountPoints (host : RepairHost) (mounts : List MountPoint) : List (String × String) :=
  mounts.foldl
    (fun mountPoints m =>
      if m.Driver ≠ "local" then mountPoints
      else if m.Source = "" then mountPoints
      else if !host.statIsDir m.Source then mountPoints
      else goMapSet mountPoints (filepathClean m.Destination) m.Source)
    []

/-- The Go method `FixContainerVolumesQuota`: the returned error and the calls made (the map
`mountPoints` is ranged over in the order of its entry list). -/
def FixContainerVolumesQuota (QuotaMinID : Nat) (host : RepairHost) (c : Container)
    (fixedQuota : Int) : Option GoError × List RepairCall :=
  if fixedQuota ≠ -1 ∧ fixedQuota < (QuotaMinID : Int) then
    (some (.errorf ("failed to fix rootfs quota with id " ++ toString fixedQuota)), [])
  else
    let mountPoints := volumeMountPoints host c.Mounts
    if mountPoints.length = 0 then (none, [])
    else
      let dqre := parseDiskQuota host c.Config.DiskQuota
      if dqre.length > 1 then
        (some (.errorf "failed to fix container quota with DiskQuota"), [])
      else
        let size := matchSize host "/" dqre
        if size = "" then
          (some (.errorf "failed to fix container quota, can not get quota limit"), [])
        else
          let labelQid := atoiValue c.Config.QuotaID
          let qid := if fixedQuota = -1 then labelQid else fixedQuota
          if qid = 0 then
            (some (.errorf ("failed to fix container volume quota id, can not get from " ++
              "fixedQuota passed, label, better to specified quota id with " ++
              "--fix-quota-rootfs")), [])
          else
            (none, mountPoints.foldl
              (fun calls entry =>
                let _err := host.SetDiskQuota calls entry.2 size (toUint32 qid)
                calls ++ [.SetDiskQuota entry.2 size (toUint32 qid),
                  .SetFileAttrRecursive entry.2 (toUint32 qid)])
              [])

/-- The Go method `fixQuotaProcess`: the returned error and the calls made, the call of the
chosen repair operation first. -/
def fixQuotaProcess (QuotaMinID : Nat) (host : RepairHost) (c : Container)
    (config : UpdateConfig) : Option GoError × List RepairCall :=
  let minQuota : Int := QuotaMinID
  if config.FixQuotaContainer ≠ 0 ∧ config.FixQuotaContainer ≠ -1 ∧
      config.FixQuotaContainer < minQuota then
    (some (.errorf ("can not fix quota with id " ++ toString config.FixQuotaContainer)), [])
  else if config.FixQuotaRootfs ≠ 0 ∧ config.FixQuotaRootfs ≠ -1 ∧
      config.FixQuotaRootfs < minQuota then
    (some (.errorf ("can not fix quota with id " ++ toString config.FixQuotaRootfs)), [])
  else if config.FixQuotaVolumes ≠ 0 ∧ config.FixQuotaVolumes ≠ -1 ∧
      config.FixQuotaVolumes < minQuota then
    (some (.errorf ("can not fix quota with id " ++ toString config.FixQuotaVolumes)), [])
  else
    match goMapGet c.Config.Labels "DiskQuota" with
    | none => (some (.errorf "failed to fix quota, label DiskQuota not set"), [])
    | some diskQuota =>
      if diskQuota = "" then (some (.errorf "failed to fix quota, label DiskQuota not set"), [])
      else if config.FixQuotaContainer ≠ 0 then
        let r := FixContainerQuota host c config.FixQuotaContainer
        (r.1, .FixContainerQuota config.FixQuotaContainer :: r.2)
      else if config.FixQuotaRootfs ≠ 0 then
        let r := FixContainerRootfsQuota QuotaMinID host c config.FixQuotaRootfs
        (r.1, .FixContainerRootfsQuota config.FixQuotaRootfs :: r.2)
      else if config.FixQuotaVolumes ≠ 0 then
        let r := FixContainerVolumesQuota QuotaMinID host c config.FixQuotaVolumes
        (r.1, .FixContainerVolumesQuota config.FixQuotaVolumes :: r.2)
      else (none, [])

/-- The three repair operations. -/
inductive RepairOp where
  | container
  | rootfs
  | volumes
  deriving DecidableEq, Repr

/-- Run one of the three repair operations. -/
def RepairOp.run (QuotaMinID : Nat) (host : RepairHost) (c : Container) (fixedQuota : Int) :
    RepairOp → Option GoError × List RepairCall
  | .container => FixContainerQuota host c fixedQuota
  | .rootfs => FixContainerRootfsQuota QuotaMinID host c fixedQuota
  | .volumes => FixContainerVolumesQuota QuotaMinID host c fixedQuota

/-- A repair host for examples: every pattern compiles, `.*` matches the whole of any input and
any other pattern matches itself only; the id stamped on every directory is `stamped`;
`SetDiskQuota` answers `setErr`. -/
def exampleRepairHost (stamped : Nat) (setErr : Option GoError) : RepairHost where
  regexpCompiles := fun _ => true
  FindString := fun exp s => if exp = ".*" then s else if exp = s then s else ""
  SetDiskQuota := fun _ _ _ _ => setErr
  GetQuotaIDInFileAttr := fun _ _ => stamped
  getDiskQuotaMountPoints := fun c _ => (c.Mounts, none)
  statIsDir := fun _ => true

/-- A container for examples: quota id `quotaID` in its configuration, the size table
`diskQuota`, the label `DiskQuota` set, and the upper directory `upper` (none when empty). -/
def repairContainer (quotaID : String) (diskQuota : List (String × String)) (upper : String) :
    Container :=
  { ID := "c1"
    State := (containerWithStatus "c1" StatusRunning).State
    Config := { QuotaID := quotaID, DiskQuota := diskQuota, Labels := [("DiskQuota", "10g")] }
    SnapshotterData := if upper = "" then [] else [("UpperDir", upper)]
    Mounts := [{ Source := "/data/vol1", Destination := "/vol1", Driver := "local" }] }

/-! ### Sequences of store operations -/

/-- The two writing operations of the store, with their arguments. -/
inductive StoreOp where
  | Add (sn : Snapshot)
  | Delete (key : String)
  deriving DecidableEq, Repr

/-- Run one writing operation. -/
def StoreOp.apply (s : SnapshotStore) : StoreOp → SnapshotStore
  | .Add sn => s.Add sn
  | .Delete key => s.Delete key

/-- Run a sequence of writing operations, first to last. -/
def runStoreOps (s : SnapshotStore) (ops : List StoreOp) : SnapshotStore :=
  ops.foldl StoreOp.apply s

/-- The operation is an `Add` of a snapshot with key `k` or a `Delete` of `k`. -/
def StoreOp.touches (k : String) : StoreOp → Bool
  | .Add sn => decide (sn.Key = k)
  | .Delete key => decide (key = k)

/-- The call asks about key `k`: the usage query for `k`, or one of the two container lookups
with which the in-namespace probe for `k` begins (the probe itself is logged by pid). -/
def ProbeCall.forKey (k : String) : ProbeCall → Bool
  | .GetSnapshotUsage key => decide (key = k)
  | .ContainerPID key => decide (key = k)
  | .ContainerStatus key => decide (key = k)
  | .doDiskUsageByNsenter _ => false

/-- A pass for examples whose clock stands still: the catalog holds the committed snapshot
`k2`, and the reading taken for it equals the reading taken at the start of the pass. -/
def exampleSyncEnvStill : SyncEnv :=
  { exampleSyncEnv with now := fun _ => 100, WalkSnapshot := ([⟨"k2", .KindCommitted⟩], none) }

/-- A pass for examples over the catalog of the committed snapshot `k2` and the active
snapshot `k1`, whose container is alive. -/
def exampleSyncEnvBoth : SyncEnv :=
  { exampleSyncEnvRunning with
    WalkSnapshot := ([⟨"k2", .KindCommitted⟩, ⟨"k1", .KindActive⟩], none) }

/-! ## Container plugin helpers (`hookplugins/containerplugin/utils.go`) -/

/-- The first loop of `UniqueStringSlice`: the map `h` after `h[s[i]] = struct{}{}` for every
index of `s`, as its list of entries. -/
def uniqueKeySet (s : List String) : List (String × Unit) :=
  s.foldl (fun h x => goMapSet h x ()) []

/-- The Go function `UniqueStringSlice`: the keys of `h`, appended while the map is ranged
over. The model ranges in the order of the entry list; Go leaves the order open, so what is
proved of the result is proved of each of its reorderings. -/
def UniqueStringSlice (s : List String) : List String :=
  (uniqueKeySet s).foldl (fun res kv => res ++ [kv.1]) []

/-- The Go function `addEnvironment`. -/
def addEnvironment (image id runtime : String) (env : List String) : List String :=
  let res := env.foldl
    (fun res v =>
      if stringsContains v "pouch_container_image=" ||
          stringsContains v "pouch_container_id=" ||
          stringsContains v "ali_runtime_type" then res
      else res ++ [v])
    []
  let pouchContainerImage := "pouch_container_image=" ++ image
  let res := res ++ [pouchContainerImage]
  let pouchContainerID := "pouch_container_id=" ++ id
  res ++ [pouchContainerID, "ali_runtime_type=" ++ runtime]

/-! ### Merging the container's mounts (`mergeContainerMount` in `daemon/mgr/spec_mount.go`) -/

/-- The Go constant `RPrivatePropagationMode`. -/
def RPrivatePropagationMode : String := "rprivate"
/-- The Go constant `RSharedPropagationMode`. -/
def RSharedPropagationMode : String := "rshared"
/-- The Go constant `SharedPropagationMode`. -/
def SharedPropagationMode : String := "shared"
/-- The Go constant `RSlavePropagationMode`. -/
def RSlavePropagationMode : String := "rslave"
/-- The Go constant `SlavePropagationMode`. -/
def SlavePropagationMode : String := "slave"

/-- The Go function `trySetupNetworkMount`: whether the mount is one of the three network
files, and the container afterwards. -/
def trySetupNetworkMount (mount : MountPoint) (c : Container) : Bool × Container :=
  if mount.Destination = "/etc/hostname" then (true, { c with HostnamePath := mount.Source })
  else if mount.Destination = "/etc/hosts" then (true, { c with HostsPath := mount.Source })
  else if mount.Destination = "/etc/resolv.conf" then
    (true, { c with ResolvConfPath := mount.Source })
  else (false, c)

/-- The Go function `generateNetworkMounts`; `statOK path` says whether `os.Stat(path)`
succeeds. -/
def generateNetworkMounts (statOK : String → Bool) (c : Container) : List Mount :=
  [(c.HostnamePath, "/etc/hostname"), (c.HostsPath, "/etc/hosts"),
    (c.ResolvConfPath, "/etc/resolv.conf")].foldl
    (fun mounts bind =>
      if bind.1 ≠ "" then
        if statOK bind.1 then
          mounts ++ [{ Source := bind.1, Destination := bind.2, Typ := "bind",
                       Options := ["rbind", "rprivate"] }]
        else mounts
      else mounts)
    []

/-- What the loop of `mergeContainerMount` works on: the mount list, the container and the
field `s.Linux.RootfsPropagation` of the spec. -/
structure MergeState where
  mounts : List Mount
  c : Container
  RootfsPropagation : String
  deriving DecidableEq, Repr

/-- The body of the loop of `mergeContainerMount` for the mount point `mp`: the error it
returns with, or the state it continues with. -/
def mergeMountPoint (st : MergeState) (mp : MountPoint) : Except GoError MergeState :=
  match trySetupNetworkMount mp st.c with
  | (true, c) => .ok { st with c := c }
  | (false, c) =>
    if st.mounts.any (fun sm => sm.Destination = mp.Destination) then
      .error (.errorf ("duplicate mount point: " ++ mp.Destination))
    else
      let pg := mp.Propagation
      let rootfspg := st.RootfsPropagation
      let rootfs :=
        if pg = SharedPropagationMode ∨ pg = RSharedPropagationMode then
          if rootfspg ≠ SharedPropagationMode ∧ rootfspg ≠ RSharedPropagationMode then
            SharedPropagationMode
          else rootfspg
        else if pg = SlavePropagationMode ∨ pg = RSlavePropagationMode then
          if rootfspg ≠ SharedPropagationMode ∧ rootfspg ≠ RSharedPropagationMode ∧
              rootfspg ≠ SlavePropagationMode ∧ rootfspg ≠ RSlavePropagationMode then
            RSlavePropagationMode
          else rootfspg
        else rootfspg
      let typed := mp.Typ = "ext4" ∨ mp.Typ = "ext3" ∨ mp.Typ = "xfs"
      let mountType := if typed then mp.Typ else "bind"
      let opts : List String := if typed then [] else ["rbind"]
      let opts := if !mp.RW then opts ++ ["ro"] else opts
      let pg := if pg = "" then RPrivatePropagationMode else pg
      let opts := opts ++ [pg]
      .ok { mounts := st.mounts ++
              [{ Source := mp.Source, Destination := mp.Destination, Typ := mountType,
                 Options := opts }]
            c := c
            RootfsPropagation := rootfs }

/-- The loop of `mergeContainerMount`: the error it returns with, if any, and the state it has
reached then. -/
def mergeLoop : List MountPoint → MergeState → Option GoError × MergeState
  | [], st => (none, st)
  | mp :: mps, st =>
    match mergeMountPoint st mp with
    | .error err => (some err, st)
    | .ok st1 => mergeLoop mps st1

/-- The Go function `mergeContainerMount`: the returned list or error, and the container and
the rootfs propagation of the spec (whose `Linux` section is present) as the call leaves
them. -/
def mergeContainerMount (statOK : String → Bool) (mounts : List Mount) (c : Container)
    (rootfsPropagation : String) : Except GoError (List Mount) × Container × String :=
  match mergeLoop c.Mounts { mounts := mounts, c := c, RootfsPropagation := rootfsPropagation }
    with
  | (some err, st) => (.error err, st.c, st.RootfsPropagation)
  | (none, st) =>
    if !st.c.Config.DisableNetworkFiles then
      (.ok (st.mounts ++ generateNetworkMounts statOK st.c), st.c, st.RootfsPropagation)
    else (.ok st.mounts, st.c, st.RootfsPropagation)

/-- The destination is one of the three network files that `trySetupNetworkMount` takes. -/
def isNetworkFile (dest : String) : Bool :=
  dest = "/etc/hostname" || dest = "/etc/hosts" || dest = "/etc/resolv.conf"

/-- Some mount point of `mps` that is not a network file has the destination of an entry of
`mounts` or of an earlier mount point of `mps` that is not a network file either. -/
def HasDuplicateDestination (mounts : List Mount) (mps : List MountPoint) : Prop :=
  ∃ pre mp post, mps = pre ++ mp :: post ∧ isNetworkFile mp.Destination = false ∧
    (mp.Destination ∈ mounts.map Mount.Destination ∨
      ∃ mp1 ∈ pre, isNetworkFile mp1.Destination = false ∧ mp1.Destination = mp.Destination)

/-! ## The route list of the ODPS hook (`hookplugins/containerplugin/odps_hook.go`) -/

/-- A pattern of the Go library `regexp`, as a backtracking matcher: the texts that can remain
after a match at the start of the input, in the order in which the library prefers them. -/
abbrev Matcher := List Char → List (List Char)

/-- The character lies between `lo` and `hi`: the class `[lo-hi]`. -/
def charIn (lo hi : Char) (c : Char) : Bool :=
  decide (lo.toNat ≤ c.toNat) && decide (c.toNat ≤ hi.toNat)

/-- The class `\s` of the library: tab, newline, form feed, carriage return and space. -/
def reSpace (c : Char) : Bool :=
  c = '\t' || c = '\n' || c = '\x0c' || c = '\r' || c = ' '

/-- The class `\d` of the library. -/
def reDigit (c : Char) : Bool := charIn '0' '9' c

/-- A pattern of one character of a class. -/
def reClass (p : Char → Bool) : Matcher
  | [] => []
  | c :: l => if p c then [l] else []

/-- A pattern of one literal character. -/
def reChar (c : Char) : Matcher := reClass fun d => d = c

/-- A literal text. -/
def reLit (s : String) : Matcher :=
  fun l => if s.data.isPrefixOf l then [l.drop s.data.length] else []

/-- Concatenation of two patterns. -/
def reSeq (a b : Matcher) : Matcher := fun l => (a l).flatMap b

/-- Alternation `a|b`: the left alternative is preferred. -/
def reAlt (a b : Matcher) : Matcher := fun l => a l ++ b l

/-- The greedy option `a?`. -/
def reOpt (a : Matcher) : Matcher := fun l => a l ++ [l]

/-- At most `n` greedy repetitions of `a`. -/
def reStarFuel (a : Matcher) : Nat → Matcher
  | 0, l => [l]
  | n + 1, l => (a l).flatMap (reStarFuel a n) ++ [l]

/-- The greedy repetition `a*` of a pattern that matches no empty text: a repetition consumes
at least one character, so there are no more repetitions than characters. -/
def reStar (a : Matcher) : Matcher := fun l => reStarFuel a l.length l

/-- The greedy repetition `a+`. -/
def rePlus (a : Matcher) : Matcher := reSeq a (reStar a)

/-- The pattern `2[0-4]\d|25[0-5]|[01]?\d\d?` of `odpsRegStr`. -/
def octetPattern : Matcher :=
  reAlt (reSeq (reChar '2') (reSeq (reClass (charIn '0' '4')) (reClass reDigit)))
    (reAlt (reSeq (reChar '2') (reSeq (reChar '5') (reClass (charIn '0' '5'))))
      (reSeq (reOpt (reClass (charIn '0' '1'))) (reSeq (reClass reDigit)
        (reOpt (reClass reDigit)))))

/-- The pattern `"((2[0-4]\d|25[0-5]|[01]?\d\d?)\.){3}(2[0-4]\d|25[0-5]|[01]?\d\d?)/\d+"` of
`odpsRegStr`: a quoted entry. -/
def entryPattern : Matcher :=
  reSeq (reChar '"')
    (reSeq (reSeq octetPattern (reChar '.'))
      (reSeq (reSeq octetPattern (reChar '.'))
        (reSeq (reSeq octetPattern (reChar '.'))
          (reSeq octetPattern
            (reSeq (reChar '/') (reSeq (rePlus (reClass reDigit)) (reChar '"')))))))

/-- The pattern `(entry\s*,?\s*)+` of `odpsRegStr`. -/
def entriesPattern : Matcher :=
  rePlus (reSeq entryPattern
    (reSeq (reStar (reClass reSpace)) (reSeq (reOpt (reChar ',')) (reStar (reClass reSpace)))))

/-- The part of `odpsRegStr` before its closing bracket: `routes\s*=\s*\[\s*(entry\s*,?\s*)+\s*`.
-/
def odpsRegBody : Matcher :=
  reSeq (reLit "routes")
    (reSeq (reStar (reClass reSpace))
      (reSeq (reChar '=')
        (reSeq (reStar (reClass reSpace))
          (reSeq (reChar '[')
            (reSeq (reStar (reClass reSpace))
              (reSeq entriesPattern (reStar (reClass reSpace))))))))

/-- The pattern `odpsRegStr`. -/
def odpsRegStr : Matcher := reSeq odpsRegBody (reChar ']')

/-- The text of the leftmost match of the pattern in the input, `none` when there is no match:
element `0` of what `FindStringSubmatch` returns, which is `nil` without a match. -/
def FindStringSubmatch (re : Matcher) : List Char → Option (List Char)
  | [] =>
    match re [] with
    | [] => none
    | _ :: _ => some []
  | c :: l =>
    match re (c :: l) with
    | [] => FindStringSubmatch re l
    | r :: _ => some ((c :: l).take ((c :: l).length - r.length))

/-- The Go library function `strings.Index` for a one-character text: the index of its first
occurrence, `-1` when there is none. The texts searched here hold one-byte characters only, so
the character index is the byte index. -/
def stringsIndex (s : List Char) (c : Char) : Int :=
  if c ∈ s then (s.takeWhile fun d => d ≠ c).length else -1

/-- The Go library function `strings.Trim`: strip the leading and trailing characters that
occur in `cutset`. -/
def stringsTrim (s : String) (cutset : String) : String :=
  String.mk ((s.data.dropWhile fun c => cutset.data.contains c).reverse.dropWhile
    fun c => cutset.data.contains c).reverse

/-- How a call of `getRoutesFromStr` ends: with the routes, with an error, or in the run-time
panic of a slice expression whose bounds are out of order. -/
inductive RoutesOutcome where
  | result (routes : List String)
  | error (err : GoError)
  | sliceOutOfRange
  deriving DecidableEq, Repr

/-- The Go function `getRoutesFromStr`. (The second error text leaves out the printed match.)
-/
def getRoutesFromStr (input : String) : RoutesOutcome :=
  match FindStringSubmatch odpsRegStr input.data with
  | none => .error (.errorf "failed to match regexp")
  | some s0 =>
    let leftArrayPattern := stringsIndex s0 '['
    let rightArrayPattern := stringsIndex s0 ']'
    if leftArrayPattern < 0 ∨ rightArrayPattern < 0 then
      .error (.errorf "failed to found [ ] in ")
    else if rightArrayPattern < leftArrayPattern + 1 then .sliceOutOfRange
    else
      let routesStr := String.mk
        ((s0.drop (leftArrayPattern + 1).toNat).take
          (rightArrayPattern - (leftArrayPattern + 1)).toNat)
      let routes := stringsSplit (stringsTrimSpace routesStr) ','
      .result (routes.map fun r => stringsTrim (stringsTrimSpace r) "\"")


/-- A decimal octet: one to three digits whose value is at most 255. -/
def isOctet (o : List Char) : Bool :=
  decide (1 ≤ o.length) && decide (o.length ≤ 3) && o.all reDigit &&
    decide (o.foldl (fun acc c => acc * 10 + (c.toNat - 48)) 0 ≤ 255)

/-- The parts of a route entry `<ipv4>/<n>`: the four octets and the prefix length. -/
structure Route where
  o1 : List Char
  o2 : List Char
  o3 : List Char
  o4 : List Char
  n : List Char
  deriving DecidableEq, Repr

/-- The text of a route entry. -/
def Route.text (r : Route) : List Char :=
  r.o1 ++ '.' :: (r.o2 ++ '.' :: (r.o3 ++ '.' :: (r.o4 ++ '/' :: r.n)))

/-- The entry is an IPv4 address of four decimal octets with a prefix length of one or more
digits. -/
def Route.valid (r : Route) : Bool :=
  isOctet r.o1 && isOctet r.o2 && isOctet r.o3 && isOctet r.o4 && !r.n.isEmpty &&
    r.n.all reDigit

/-- An entry in its quotes. -/
def quoted (e : List Char) : List Char := '"' :: (e ++ ['"'])

/-- A routes assignment laid out as `routes = [ "e", "e", "e" ]` inside a text: `pre` and `post`
are the text around the assignment, `w1`, `w2`, `w3` the runs of blanks after the word, after
the equals sign and after the opening bracket, `init` the entries that a comma follows, each
with the blanks before and after its comma, `last` the last entry and `wEnd` the blanks before
the closing bracket. -/
structure RoutesLayout where
  pre : List Char
  w1 : List Char
  w2 : List Char
  w3 : List Char
  init : List (Route × List Char × List Char)
  last : Route
  wEnd : List Char
  post : List Char
  deriving DecidableEq, Repr

namespace RoutesLayout

/-- The entries that a comma follows, with their commas and blanks. -/
def initText (init : List (Route × List Char × List Char)) : List Char :=
  init.flatMap fun item => quoted item.1.text ++ (item.2.1 ++ ',' :: item.2.2)

/-- The text between the brackets, without the blanks at its two ends. -/
def listText (x : RoutesLayout) : List Char := initText x.init ++ quoted x.last.text

/-- The assignment, from the word `routes` to the closing bracket. -/
def assignment (x : RoutesLayout) : List Char :=
  "routes".data ++ (x.w1 ++ '=' :: (x.w2 ++ '[' :: (x.w3 ++ (x.listText ++ (x.wEnd ++ [']'])))))

/-- The whole text. -/
def text (x : RoutesLayout) : List Char := x.pre ++ (x.assignment ++ x.post)

/-- The entries of the assignment, in their order. -/
def entries (x : RoutesLayout) : List String :=
  x.init.map (fun item => String.mk item.1.text) ++ [String.mk x.last.text]

/-- Every run of blanks consists of characters of the class `\s`, and every entry is an IPv4
address with a prefix length. -/
def WellFormed (x : RoutesLayout) : Prop :=
  (∀ c ∈ x.w1, reSpace c = true) ∧ (∀ c ∈ x.w2, reSpace c = true) ∧
  (∀ c ∈ x.w3, reSpace c = true) ∧ (∀ c ∈ x.wEnd, reSpace c = true) ∧
  (∀ item ∈ x.init, item.1.valid = true ∧ (∀ c ∈ item.2.1, reSpace c = true) ∧
    ∀ c ∈ item.2.2, reSpace c = true) ∧
  x.last.valid = true

instance (x : RoutesLayout) : Decidable x.WellFormed := by
  unfold WellFormed; infer_instance

/-- The pattern has no match that starts in the text before the assignment. -/
def Leftmost (x : RoutesLayout) : Prop :=
  ∀ s ∈ x.pre.tails, s ≠ [] → odpsRegStr (s ++ (x.assignment ++ x.post)) = []

instance (x : RoutesLayout) : Decidable x.Leftmost := by
  unfold Leftmost; infer_instance

end RoutesLayout

/-- Every match of the pattern consumes characters with property `P` only. -/
def Consumes (m : Matcher) (P : Char → Prop) : Prop :=
  ∀ l r, r ∈ m l → ∃ w, l = w ++ r ∧ ∀ c ∈ w, P c

/-- A layout for examples: two entries after one line of other text. -/
def exampleRoutesLayout : RoutesLayout where
  pre := "x = 1\n".data
  w1 := " ".data
  w2 := " ".data
  w3 := "\n  ".data
  init := [(⟨"10".data, "0".data, "0".data, "0".data, "8".data⟩, " ".data, "\n  ".data)]
  last := ⟨"192".data, "168".data, "1".data, "255".data, "24".data⟩
  wEnd := "\n".data
  post := "\nclass".data

/-! ### Theorems on the container state -/

/-- Copying the untouched map literal clears all five flags. -/
theorem foldl_statusFlagsInit (st : ContainerState) :
    Container.statusFlagsInit.foldl Container.assignFlag st =
      { st with Running := false, Paused := false, Restarting := false, Exited := false,
                Dead := false } := rfl

/-- A status that is not a key of the map leaves the map literal as it is. -/
theorem statusFlagsFor_of_not_key (s : Status) (h1 : s ≠ StatusDead) (h2 : s ≠ StatusRunning)
    (h3 : s ≠ StatusPaused) (h4 : s ≠ StatusRestarting) (h5 : s ≠ StatusExited) :
    Container.statusFlagsFor s = Container.statusFlagsInit := by
  have hc : (Container.statusFlagsInit.map Prod.fst).contains s = false := by
    simp [Container.statusFlagsInit, h1, h2, h3, h4, h5]
  unfold Container.statusFlagsFor
  rw [if_neg (by rw [hc]; decide)]

/-- Closed form of `setStatusFlags`: the status is stored and every flag is the truth value of
"the status is mine"; all other fields are kept. -/
theorem setStatusFlags_state (c : Container) (s : Status) :
    (c.setStatusFlags s).State =
      { c.State with
        Status := s
        Running := decide (s = StatusRunning)
        Paused := decide (s = StatusPaused)
        Restarting := decide (s = StatusRestarting)
        Exited := decide (s = StatusExited)
        Dead := decide (s = StatusDead) } := by
  by_cases h1 : s = StatusDead
  · subst h1; rfl
  by_cases h2 : s = StatusRunning
  · subst h2; rfl
  by_cases h3 : s = StatusPaused
  · subst h3; rfl
  by_cases h4 : s = StatusRestarting
  · subst h4; rfl
  by_cases h5 : s = StatusExited
  · subst h5; rfl
  simp only [Container.setStatusFlags, statusFlagsFor_of_not_key s h1 h2 h3 h4 h5,
    foldl_statusFlagsInit, h1, h2, h3, h4, h5, decide_False]

theorem setStatusFlags_ID (c : Container) (s : Status) : (c.setStatusFlags s).ID = c.ID := rfl

/-- A status is one of the five keys of the flag map or none of them. -/
theorem status_key_cases (k : Status) :
    k = StatusDead ∨ k = StatusPaused ∨ k = StatusRunning ∨ k = StatusRestarting ∨
      k = StatusExited ∨
      (k ≠ StatusDead ∧ k ≠ StatusPaused ∧ k ≠ StatusRunning ∧ k ≠ StatusRestarting ∧
        k ≠ StatusExited) := by
  by_cases h1 : k = StatusDead
  · exact Or.inl h1
  by_cases h2 : k = StatusPaused
  · exact Or.inr (Or.inl h2)
  by_cases h3 : k = StatusRunning
  · exact Or.inr (Or.inr (Or.inl h3))
  by_cases h4 : k = StatusRestarting
  · exact Or.inr (Or.inr (Or.inr (Or.inl h4)))
  by_cases h5 : k = StatusExited
  · exact Or.inr (Or.inr (Or.inr (Or.inr (Or.inl h5))))
  exact Or.inr (Or.inr (Or.inr (Or.inr (Or.inr ⟨h1, h2, h3, h4, h5⟩))))

/-- An entry whose key is none of the five statuses writes nothing. -/
theorem assignFlag_of_not_key (st : ContainerState) (k : Status) (v : Bool)
    (h : k ≠ StatusDead ∧ k ≠ StatusPaused ∧ k ≠ StatusRunning ∧ k ≠ StatusRestarting ∧
      k ≠ StatusExited) : Container.assignFlag st (k, v) = st := by
  simp [Container.assignFlag, h.1, h.2.1, h.2.2.1, h.2.2.2.1, h.2.2.2.2]

/-- Two map entries with different keys write different flags, so they can be copied in either
order. -/
theorem assignFlag_comm (st : ContainerState) (a b : Status × Bool) (h : a.1 ≠ b.1) :
    Container.assignFlag (Container.assignFlag st a) b =
      Container.assignFlag (Container.assignFlag st b) a := by
  obtain ⟨ka, va⟩ := a
  obtain ⟨kb, vb⟩ := b
  simp only [ne_eq] at h
  rcases status_key_cases ka with ha | ha | ha | ha | ha | ha <;>
    rcases status_key_cases kb with hb | hb | hb | hb | hb | hb <;>
    first
    | (subst ha; subst hb; exact absurd rfl h)
    | (subst ha; subst hb; rfl)
    | (subst ha; rw [assignFlag_of_not_key _ kb vb hb, assignFlag_of_not_key _ kb vb hb])
    | (subst hb; rw [assignFlag_of_not_key _ ka va ha, assignFlag_of_not_key _ ka va ha])
    | (rw [assignFlag_of_not_key _ ka va ha, assignFlag_of_not_key _ kb vb hb,
        assignFlag_of_not_key _ ka va ha])

/-- The keys of the flag map are pairwise different. -/
theorem statusFlagsFor_keys (s : Status) :
    ∀ x ∈ Container.statusFlagsFor s, ∀ y ∈ Container.statusFlagsFor s, x.1 = y.1 → x = y := by
  by_cases h1 : s = StatusDead
  · subst h1; decide
  by_cases h2 : s = StatusRunning
  · subst h2; decide
  by_cases h3 : s = StatusPaused
  · subst h3; decide
  by_cases h4 : s = StatusRestarting
  · subst h4; decide
  by_cases h5 : s = StatusExited
  · subst h5; decide
  rw [statusFlagsFor_of_not_key s h1 h2 h3 h4 h5]; decide

/-- The range loop of `setStatusFlags` gives the same state in whatever order the map entries
are visited. -/
theorem setStatusFlags_any_order (st : ContainerState) (s : Status) (l : List (Status × Bool))
    (hperm : l.Perm (Container.statusFlagsFor s)) :
    l.foldl Container.assignFlag st = (Container.statusFlagsFor s).foldl Container.assignFlag st := by
  refine hperm.symm.foldl_eq' (fun x hx y hy z => ?_) st |>.symm
  by_cases hxy : x.1 = y.1
  · rw [statusFlagsFor_keys s x hx y hy hxy]
  · exact assignFlag_comm z x y hxy

/-- Every status-setting operation ends in `setStatusFlags`, so its result is synced. -/
theorem apply_synced (c : Container) (op : StatusOp) : FlagsSynced (op.apply c).State := by
  cases op <;>
    simp [StatusOp.apply, Container.SetStatus, Container.SetStatusRunning,
      Container.SetStatusRestarting, Container.SetStatusExited, Container.SetStatusPaused,
      Container.SetStatusUnpaused, Container.SetStatusDead, setStatusFlags_state, FlagsSynced]

/-- The five flag statuses are pairwise different: at most one of the five tests succeeds. -/
theorem flagCount_decide (status : Status) :
    (decide (status = StatusRunning)).toNat + (decide (status = StatusPaused)).toNat +
        (decide (status = StatusRestarting)).toNat + (decide (status = StatusExited)).toNat +
        (decide (status = StatusDead)).toNat ≤ 1 ∧
    ((decide (status = StatusRunning)).toNat + (decide (status = StatusPaused)).toNat +
        (decide (status = StatusRestarting)).toNat + (decide (status = StatusExited)).toNat +
        (decide (status = StatusDead)).toNat = 1 ↔
      status = StatusRunning ∨ status = StatusPaused ∨ status = StatusRestarting ∨
        status = StatusExited ∨ status = StatusDead) := by
  by_cases h1 : status = StatusRunning
  · subst h1; decide
  by_cases h2 : status = StatusPaused
  · subst h2; decide
  by_cases h3 : status = StatusRestarting
  · subst h3; decide
  by_cases h4 : status = StatusExited
  · subst h4; decide
  by_cases h5 : status = StatusDead
  · subst h5; decide
  simp [h1, h2, h3, h4, h5]

/-- The five flag statuses are pairwise different, so synced flags are never two at once. -/
theorem flagCount_of_synced (st : ContainerState) (h : FlagsSynced st) :
    flagCount st ≤ 1 ∧
    (flagCount st = 1 ↔
      st.Status = StatusRunning ∨ st.Status = StatusPaused ∨ st.Status = StatusRestarting ∨
        st.Status = StatusExited ∨ st.Status = StatusDead) := by
  obtain ⟨status, r, p, rs, e, d, _, _, _, _, _, _⟩ := st
  simp only [FlagsSynced] at h
  obtain ⟨hr, hp, hrs, he, hd⟩ := h
  have er : r = decide (status = StatusRunning) := by
    rw [Bool.eq_iff_iff]; simpa using hr
  have ep : p = decide (status = StatusPaused) := by
    rw [Bool.eq_iff_iff]; simpa using hp
  have ers : rs = decide (status = StatusRestarting) := by
    rw [Bool.eq_iff_iff]; simpa using hrs
  have ee : e = decide (status = StatusExited) := by
    rw [Bool.eq_iff_iff]; simpa using he
  have ed : d = decide (status = StatusDead) := by
    rw [Bool.eq_iff_iff]; simpa using hd
  subst er ep ers ee ed
  exact flagCount_decide status

/-- C1. Whatever the container held before, after any status-setting operation (`SetStatus s`
for any status value `s`, `SetStatusRunning`, `SetStatusRestarting`, `SetStatusExited`,
`SetStatusPaused`, `SetStatusUnpaused`, `SetStatusDead`) each of the five flags `Running`,
`Paused`, `Restarting`, `Exited`, `Dead` is true if and only if `Status` has the corresponding
value. -/
theorem C1_status_setters_sync_flags (c : Container) (op : StatusOp) :
    ((op.apply c).State.Running = true ↔ (op.apply c).State.Status = StatusRunning) ∧
    ((op.apply c).State.Paused = true ↔ (op.apply c).State.Status = StatusPaused) ∧
    ((op.apply c).State.Restarting = true ↔ (op.apply c).State.Status = StatusRestarting) ∧
    ((op.apply c).State.Exited = true ↔ (op.apply c).State.Status = StatusExited) ∧
    ((op.apply c).State.Dead = true ↔ (op.apply c).State.Status = StatusDead) :=
  apply_synced c op

/-- C2, as stated, fails: `SetStatus` with the status `created` clears all five flags, so the
resulting state has no flag set instead of exactly one. -/
theorem C2_counterexample :
    flagCount (runStatusOps (containerWithStatus "c1" StatusRunning)
      [StatusOp.SetStatusRunning "t0" 7, StatusOp.SetStatus StatusCreated]).State = 0 ∧
    ¬ flagCount (runStatusOps (containerWithStatus "c1" StatusRunning)
      [StatusOp.SetStatusRunning "t0" 7, StatusOp.SetStatus StatusCreated]).State = 1 := by
  decide

/-- C2, amended. After any non-empty sequence of status-setting operations, started from any
container, every flag is true exactly when `Status` has its value, so at most one flag is set;
exactly one is set if and only if `Status` is one of running, paused, restarting, exited, dead,
and none is set when `Status` is created. -/
theorem C2_flags_after_any_sequence (c : Container) (ops : List StatusOp) (hne : ops ≠ []) :
    FlagsSynced (runStatusOps c ops).State ∧
    flagCount (runStatusOps c ops).State ≤ 1 ∧
    (flagCount (runStatusOps c ops).State = 1 ↔
      (runStatusOps c ops).State.Status = StatusRunning ∨
      (runStatusOps c ops).State.Status = StatusPaused ∨
      (runStatusOps c ops).State.Status = StatusRestarting ∨
      (runStatusOps c ops).State.Status = StatusExited ∨
      (runStatusOps c ops).State.Status = StatusDead) ∧
    ((runStatusOps c ops).State.Status = StatusCreated →
      flagCount (runStatusOps c ops).State = 0) := by
  obtain ⟨init, last, rfl⟩ : ∃ init last, ops = init ++ [last] :=
    ⟨ops.dropLast, ops.getLast hne, (List.dropLast_append_getLast hne).symm⟩
  have hrun : runStatusOps c (init ++ [last]) = last.apply (runStatusOps c init) := by
    simp [runStatusOps, List.foldl_append]
  rw [hrun]
  have hs := apply_synced (runStatusOps c init) last
  have hc := flagCount_of_synced _ hs
  refine ⟨hs, hc.1, hc.2, fun hcr => ?_⟩
  have hnot : ¬ flagCount (last.apply (runStatusOps c init)).State = 1 := by
    rw [hc.2, hcr]; decide
  omega

/-- C2 (amended) at a concrete sequence: pause, then set the status `created`. -/
theorem C2_flags_after_any_sequence_witness :
    flagCount (runStatusOps (containerWithStatus "c1" StatusRunning)
      [StatusOp.SetStatusPaused, StatusOp.SetStatus StatusCreated]).State ≤ 1 :=
  (C2_flags_after_any_sequence (containerWithStatus "c1" StatusRunning)
    [StatusOp.SetStatusPaused, StatusOp.SetStatus StatusCreated] (by decide)).2.1

/-- C3, as stated, fails: for a container whose status is paused but whose `Paused` flag is
unset, `IsPaused` is false and `validateStartContainerStatus` returns nil instead of the
"try unpause" error. -/
theorem C3_counterexample :
    pausedWithoutFlag.State.Status = StatusPaused ∧
    pausedWithoutFlag.validateStartContainerStatus = none := by
  decide

/-- C3, amended. For every container whose own status flag is set (whatever the other fields
hold): if `Status` is paused the start gate returns the error telling the caller to unpause
instead; if `Status` is running it returns an error wrapping `ErrNotModified`; if `Status` is
dead it returns an error whose cause is not `ErrNotModified`. -/
theorem C3_start_gate_rejects (c : Container) (hflag : OwnFlagSet c.State) :
    (c.State.Status = StatusPaused →
      c.validateStartContainerStatus =
        some (.errorf ("cannot start a paused container " ++ c.ID ++ ", try unpause instead"))) ∧
    (c.State.Status = StatusRunning →
      c.validateStartContainerStatus =
        some (.wrapf .ErrNotModified ("container " ++ c.ID ++ " already started"))) ∧
    (c.State.Status = StatusDead →
      ∃ e, c.validateStartContainerStatus = some e ∧ e.IsNotModified = false ∧
        e ≠ GoError.ErrNotModified) := by
  obtain ⟨hp, hr, hd⟩ := hflag
  refine ⟨fun h => ?_, fun h => ?_, fun h => ?_⟩
  · simp [Container.validateStartContainerStatus, Container.IsPaused, h, hp h]
  · have hnp : c.IsPaused = false := by
      simp [Container.IsPaused, h, StatusRunning, StatusPaused]
    simp [Container.validateStartContainerStatus, hnp, Container.IsRunning, h, hr h]
  · have hnp : c.IsPaused = false := by
      simp [Container.IsPaused, h, StatusDead, StatusPaused]
    have hnr : c.IsRunning = false := by
      simp [Container.IsRunning, h, StatusDead, StatusRunning]
    have hnrs : c.IsRestarting = false := by
      simp [Container.IsRestarting, h, StatusDead, StatusRestarting]
    refine ⟨.errorf ("cannot start a dead container " ++ c.ID), ?_, rfl, by simp⟩
    simp [Container.validateStartContainerStatus, hnp, hnr, hnrs, Container.IsDead, h, hd h]

/-- C3 (amended) at a paused container whose `Paused` flag is set. -/
theorem C3_start_gate_rejects_witness :
    (containerWithStatus "c1" StatusCreated).SetStatusPaused.validateStartContainerStatus =
      some (.errorf ("cannot start a paused container " ++ "c1" ++ ", try unpause instead")) :=
  (C3_start_gate_rejects (containerWithStatus "c1" StatusCreated).SetStatusPaused
    (by decide)).1 rfl

/-- C4. For every container whose five flags agree with `Status`, the start gate returns nil if
and only if `Status` is none of paused, running, restarting, dead; in particular it returns nil
for created and for exited; and the error it returns has cause `ErrNotModified` exactly when
`Status` is running. -/
theorem C4_start_gate_permits (c : Container) (hsync : FlagsSynced c.State) :
    (c.validateStartContainerStatus = none ↔
      c.State.Status ≠ StatusPaused ∧ c.State.Status ≠ StatusRunning ∧
        c.State.Status ≠ StatusRestarting ∧ c.State.Status ≠ StatusDead) ∧
    (c.State.Status = StatusCreated → c.validateStartContainerStatus = none) ∧
    (c.State.Status = StatusExited → c.validateStartContainerStatus = none) ∧
    (∀ e, c.validateStartContainerStatus = some e →
      (e.IsNotModified = true ↔ c.State.Status = StatusRunning)) := by
  obtain ⟨hr, hp, hrs, _, hd⟩ := hsync
  have ip : c.IsPaused = decide (c.State.Status = StatusPaused) := by
    rw [Bool.eq_iff_iff]; simp [Container.IsPaused]; exact fun h => hp.2 h
  have ir : c.IsRunning = decide (c.State.Status = StatusRunning) := by
    rw [Bool.eq_iff_iff]; simp [Container.IsRunning]; exact fun h => hr.2 h
  have irs : c.IsRestarting = decide (c.State.Status = StatusRestarting) := by
    rw [Bool.eq_iff_iff]; simp [Container.IsRestarting]; exact fun h => hrs.2 h
  have id : c.IsDead = decide (c.State.Status = StatusDead) := by
    rw [Bool.eq_iff_iff]; simp [Container.IsDead]; exact fun h => hd.2 h
  simp only [Container.validateStartContainerStatus, ip, ir, irs, id]
  by_cases h1 : c.State.Status = StatusPaused
  · simp [h1, GoError.IsNotModified, GoError.Cause, StatusPaused, StatusRunning, StatusCreated,
      StatusExited]
  by_cases h2 : c.State.Status = StatusRunning
  · simp [h2, GoError.IsNotModified, GoError.Cause, StatusPaused, StatusRunning, StatusCreated,
      StatusExited]
  by_cases h3 : c.State.Status = StatusRestarting
  · simp [h3, GoError.IsNotModified, GoError.Cause, StatusPaused, StatusRunning,
      StatusRestarting, StatusCreated, StatusExited]
  by_cases h4 : c.State.Status = StatusDead
  · simp [h4, GoError.IsNotModified, GoError.Cause, StatusPaused, StatusRunning,
      StatusRestarting, StatusDead, StatusCreated, StatusExited]
  simp [h1, h2, h3, h4]

/-- C4 at a freshly created container: the start gate lets it through. -/
theorem C4_start_gate_permits_witness :
    (containerWithStatus "c1" StatusCreated).validateStartContainerStatus = none :=
  (C4_start_gate_permits (containerWithStatus "c1" StatusCreated) (by decide)).2.1 rfl

/-! ### Theorems on the quota-id allocator -/

/-- The loop of `GetNextQuotaID` away from the `uint32` boundary: when `f` is the least id
above `max id QuotaMinID` that is not in use and `f` is a `uint32`, the loop stops at `f` as soon
as the fuel covers the distance. -/
theorem nextQuotaIDLoop_eq_least (QuotaMinID : Nat) (U : List Nat) (f : Nat) (hf32 : f < 2 ^ 32)
    (hfree : f ∉ U) :
    ∀ (fuel id : Nat), max id QuotaMinID < f → (∀ x, max id QuotaMinID < x → x < f → x ∈ U) →
      f - max id QuotaMinID ≤ fuel → nextQuotaIDLoop QuotaMinID U fuel id = some f := by
  intro fuel
  induction fuel with
  | zero => intro id hlt _ hfuel; omega
  | succ n ih =>
    intro id hlt hused hfuel
    have hid1 : (if id < QuotaMinID then QuotaMinID else id) = max id QuotaMinID := by
      split <;> omega
    have hmod : (max id QuotaMinID + 1) % 2 ^ 32 = max id QuotaMinID + 1 :=
      Nat.mod_eq_of_lt (by omega)
    simp only [nextQuotaIDLoop, hid1, hmod]
    by_cases heq : max id QuotaMinID + 1 = f
    · rw [heq, if_neg hfree]
    · have hmem : max id QuotaMinID + 1 ∈ U := hused _ (by omega) (by omega)
      rw [if_pos hmem]
      exact ih (max id QuotaMinID + 1) (by omega) (fun x hx hxf => hused x (by omega) hxf)
        (by omega)

/-- One call of `GetNextQuotaID` on a loaded driver, away from the `uint32` boundary: it returns
the least id above `max lastID QuotaMinID` that is not in use, records it in the map and makes
it the last id. -/
theorem GetNextQuotaID_loaded_eq_least (QuotaMinID : Nat) (load : LoadResult)
    (quota : PrjQuotaDriver) (f fuel : Nat) (hloaded : quota.lastID ≠ 0) (hf32 : f < 2 ^ 32)
    (hfree : f ∉ quota.quotaIDs) (hlt : max quota.lastID QuotaMinID < f)
    (hused : ∀ x, max quota.lastID QuotaMinID < x → x < f → x ∈ quota.quotaIDs)
    (hfuel : f - max quota.lastID QuotaMinID ≤ fuel) :
    GetNextQuotaID QuotaMinID load fuel quota =
      some ((f, none), { quotaIDs := f :: quota.quotaIDs, lastID := f }) := by
  simp only [GetNextQuotaID, if_neg hloaded,
    nextQuotaIDLoop_eq_least QuotaMinID quota.quotaIDs f hf32 hfree fuel quota.lastID hlt hused
      hfuel, List.insert_of_not_mem hfree]

/-- C5, failing run. On a driver whose last id is `4294967294` (one below the `uint32`
maximum) two consecutive calls of `GetNextQuotaID` both succeed and return `4294967295` and then
`0`, for every `QuotaMinID` up to that last id: the increment wraps, so the second value is not
greater than the first (nor at least a positive `QuotaMinID`). -/
theorem C5_two_calls_wrap (QuotaMinID : Nat) (load : LoadResult) (fuel : Nat)
    (hmin : QuotaMinID ≤ 4294967294) :
    GetNextQuotaIDTimes QuotaMinID load (fuel + 1) 2
        { quotaIDs := [4294967294], lastID := 4294967294 } =
      some ([4294967295, 0],
        { quotaIDs := [0, 4294967295, 4294967294], lastID := 0 }) := by
  have h1 : ¬ 4294967294 < QuotaMinID := by omega
  have h2 : ¬ 4294967295 < QuotaMinID := by omega
  simp [GetNextQuotaIDTimes, GetNextQuotaID, nextQuotaIDLoop, h1, h2]

/-- C5 (failing run) with the minimum `16777216` and one unit of fuel per call. -/
theorem C5_two_calls_wrap_witness :
    GetNextQuotaIDTimes 16777216 ⟨[], 0, none⟩ 1 2
        { quotaIDs := [4294967294], lastID := 4294967294 } =
      some ([4294967295, 0],
        { quotaIDs := [0, 4294967295, 4294967294], lastID := 0 }) :=
  C5_two_calls_wrap 16777216 ⟨[], 0, none⟩ 0 (by decide)

/-- C6, as stated, fails: on the loaded driver left behind by the allocation of `4294967295`
(last id `4294967295`, used ids `4294967295` and `4294967294`) `GetNextQuotaID` succeeds and
returns `0`, which is not greater than `max lastID QuotaMinID`; no `uint32` is. (Shown with
`QuotaMinID = 16777216`; the trace is the same for every `QuotaMinID` below `2 ^ 32`.) -/
theorem C6_counterexample :
    GetNextQuotaID 16777216 ⟨[], 0, none⟩ 1
        { quotaIDs := [4294967295, 4294967294], lastID := 4294967295 } =
      some ((0, none), { quotaIDs := [0, 4294967295, 4294967294], lastID := 0 }) ∧
    ¬ max 4294967295 16777216 < 0 := by
  decide

/-- C6, amended. For every loaded allocator state (used ids `U`, last id `L ≠ 0`) in which some
id above `max L QuotaMinID` and below `2 ^ 32` is not in `U`, `GetNextQuotaID` returns, as soon
as the fuel covers the distance, the least integer strictly greater than `max L QuotaMinID` that
is not in `U`, with a nil error; afterwards that id heads the used set, all members of `U` are
still present, and it is the new last id. -/
theorem C6_next_id_is_least_unused (QuotaMinID : Nat) (load : LoadResult)
    (quota : PrjQuotaDriver) (hloaded : quota.lastID ≠ 0)
    (hfree : ∃ x, max quota.lastID QuotaMinID < x ∧ x < 2 ^ 32 ∧ x ∉ quota.quotaIDs) :
    ∃ f, max quota.lastID QuotaMinID < f ∧ f ∉ quota.quotaIDs ∧
      (∀ x, max quota.lastID QuotaMinID < x → x ∉ quota.quotaIDs → f ≤ x) ∧
      ∀ fuel, f - max quota.lastID QuotaMinID ≤ fuel →
        GetNextQuotaID QuotaMinID load fuel quota =
          some ((f, none), { quotaIDs := f :: quota.quotaIDs, lastID := f }) := by
  classical
  have hex : ∃ x, max quota.lastID QuotaMinID < x ∧ x ∉ quota.quotaIDs := by
    obtain ⟨x, h1, _, h3⟩ := hfree
    exact ⟨x, h1, h3⟩
  obtain ⟨x, hx1, hx2, hx3⟩ := hfree
  have hspec := Nat.find_spec hex
  have hmin : ∀ y, max quota.lastID QuotaMinID < y → y ∉ quota.quotaIDs → Nat.find hex ≤ y :=
    fun y h1 h2 => Nat.find_min' hex ⟨h1, h2⟩
  have hf32 : Nat.find hex < 2 ^ 32 := lt_of_le_of_lt (hmin x hx1 hx3) hx2
  refine ⟨Nat.find hex, hspec.1, hspec.2, hmin, fun fuel hfuel => ?_⟩
  refine GetNextQuotaID_loaded_eq_least QuotaMinID load quota _ fuel hloaded hf32 hspec.2
    hspec.1 (fun y h1 h2 => ?_) hfuel
  by_contra hy
  exact absurd (hmin y h1 hy) (by omega)

/-- C6 (amended) on a driver with last id `16777217` and used ids `16777217`, `16777218`:
the next id exists. -/
theorem C6_next_id_is_least_unused_witness :
    ∃ f, max 16777217 16777216 < f ∧ f ∉ [16777217, 16777218] ∧
      (∀ x, max 16777217 16777216 < x → x ∉ [16777217, 16777218] → f ≤ x) ∧
      ∀ fuel, f - max 16777217 16777216 ≤ fuel →
        GetNextQuotaID 16777216 ⟨[], 0, none⟩ fuel ⟨[16777217, 16777218], 16777217⟩ =
          some ((f, none), { quotaIDs := f :: [16777217, 16777218], lastID := f }) :=
  C6_next_id_is_least_unused 16777216 ⟨[], 0, none⟩ ⟨[16777217, 16777218], 16777217⟩
    (by decide) ⟨16777219, by decide, by decide, by decide⟩

/-- C7, failing call. Whenever the last id is the `uint32` maximum `4294967295` and `0` is not
in the used set, `GetNextQuotaID` succeeds and returns the reserved value `0` (the increment
wraps modulo `2 ^ 32`), whatever `QuotaMinID` is. -/
theorem C7_wraps_to_zero (QuotaMinID : Nat) (load : LoadResult) (fuel : Nat) (U : List Nat)
    (hmin : QuotaMinID < 2 ^ 32) (h0 : 0 ∉ U) :
    GetNextQuotaID QuotaMinID load (fuel + 1) { quotaIDs := U, lastID := 4294967295 } =
      some ((0, none), { quotaIDs := 0 :: U, lastID := 0 }) := by
  have h2 : ¬ 4294967295 < QuotaMinID := by omega
  simp [GetNextQuotaID, nextQuotaIDLoop, h2, h0]

/-- C7 (failing call) with the minimum `16777216` and the used set `{16777217, 4294967295}`. -/
theorem C7_wraps_to_zero_witness :
    GetNextQuotaID 16777216 ⟨[], 0, none⟩ 1
        { quotaIDs := [16777217, 4294967295], lastID := 4294967295 } =
      some ((0, none), { quotaIDs := [0, 16777217, 4294967295], lastID := 0 }) :=
  C7_wraps_to_zero 16777216 ⟨[], 0, none⟩ 0 [16777217, 4294967295] (by decide) (by decide)

/-! ### Theorems on `setQuotaID` -/

/-- Reading the stamped id runs `lsattr -p` on the parent and nothing else, and leaves the
allocator alone. -/
theorem GetQuotaIDInFileAttr_world (host : Host) (w : QuotaWorld) (dir : String) :
    (GetQuotaIDInFileAttr host w dir).2 =
      { driver := w.driver, cmds := w.cmds ++ [["lsattr", "-p", host.pathDir dir]] } := by
  unfold GetQuotaIDInFileAttr execRun
  dsimp only
  split <;> rfl

/-- The stamping tail of `setQuotaID` returns the id it was given. -/
theorem setQuotaIDStamp_id (host : Host) (w : QuotaWorld) (dir : String) (id : Nat)
    (mountInfo : MountInfo) : (setQuotaIDStamp host w dir id mountInfo).1.1 = id := by
  unfold setQuotaIDStamp
  split <;> rfl

/-- C8. For every directory that passes the regular-file check: when the id
`GetQuotaIDInFileAttr` reads for it is `q > 0`, `setQuotaID dir 0` returns `q` with a nil error,
the allocator is unchanged and the only command run is the `lsattr -p` of the read (no `chattr`,
no `xfs_quota`); and for every nonzero `qid`, `setQuotaID dir qid` returns the id `qid`. -/
theorem C8_setQuotaID_reuses_id (QuotaMinID : Nat) (host : Host) (fuel : Nat) (w : QuotaWorld)
    (dir : String) (mountInfo : MountInfo) (hreg : host.CheckRegularFile dir = (true, none)) :
    (∀ q, (GetQuotaIDInFileAttr host w dir).1 = q → 0 < q →
      setQuotaID QuotaMinID host fuel w dir 0 mountInfo =
        some ((q, none),
          { driver := w.driver, cmds := w.cmds ++ [["lsattr", "-p", host.pathDir dir]] })) ∧
    (∀ qid, qid ≠ 0 →
      ∃ err w1, setQuotaID QuotaMinID host fuel w dir qid mountInfo = some ((qid, err), w1)) := by
  constructor
  · intro q hq hpos
    have hw := GetQuotaIDInFileAttr_world host w dir
    unfold setQuotaID
    simp only [hreg, Option.isSome_none, Bool.not_true, Bool.or_self, Bool.false_eq_true,
      if_false, if_true]
    rw [show GetQuotaIDInFileAttr host w dir =
      (q, { driver := w.driver, cmds := w.cmds ++ [["lsattr", "-p", host.pathDir dir]] }) from
      Prod.ext hq hw]
    simp [hpos]
  · intro qid hqid
    refine ⟨(setQuotaIDStamp host w dir qid mountInfo).1.2,
      (setQuotaIDStamp host w dir qid mountInfo).2, ?_⟩
    unfold setQuotaID
    simp only [hreg, Option.isSome_none, Bool.not_true, Bool.or_self, Bool.false_eq_true,
      if_false, if_neg hqid]
    congr 1
    exact Prod.ext (Prod.ext (setQuotaIDStamp_id host w dir qid mountInfo) rfl) rfl

/-- C8 on the example host: `/data/app` carries the id `16777256`, which `setQuotaID` with
`qid = 0` returns after a single `lsattr -p /data`, the allocator untouched. -/
theorem C8_setQuotaID_reuses_id_witness :
    setQuotaID 16777216 exampleHost 0 ⟨⟨[], 0⟩, []⟩ "/data/app" 0 ⟨"/data", 2049, "ext4"⟩ =
      some ((16777256, none), { driver := ⟨[], 0⟩, cmds := [["lsattr", "-p", "/data"]] }) :=
  (C8_setQuotaID_reuses_id 16777216 exampleHost 0 ⟨⟨[], 0⟩, []⟩ "/data/app"
    ⟨"/data", 2049, "ext4"⟩ rfl).1 16777256 (by decide) (by decide)

/-! ### Theorems on the snapshot syncer -/

/-- Looking a key up after dropping the entries of another key finds what it found before. -/
theorem find?_filter_ne_key (l : List (String × Snapshot)) (k k1 : String) (hne : k ≠ k1) :
    (l.filter fun kv => kv.1 ≠ k1).find? (fun kv => kv.1 = k) = l.find? fun kv => kv.1 = k := by
  induction l with
  | nil => rfl
  | cons a l ih =>
    by_cases h1 : a.1 = k1
    · have hk : ¬ a.1 = k := fun h => hne (h.symm.trans h1)
      have hf : (a :: l).filter (fun kv => kv.1 ≠ k1) = l.filter fun kv => kv.1 ≠ k1 := by
        rw [List.filter_cons]; simp [h1]
      rw [hf, ih]
      simp only [List.find?_cons, hk, decide_False]
    · have hf : (a :: l).filter (fun kv => kv.1 ≠ k1) = a :: l.filter fun kv => kv.1 ≠ k1 := by
        rw [List.filter_cons]; simp [h1]
      rw [hf]
      by_cases hk : a.1 = k
      · simp only [List.find?_cons, hk, decide_True]
      · simp only [List.find?_cons, hk, decide_False]
        exact ih

theorem Get_Add_self (s : SnapshotStore) (sn : Snapshot) : (s.Add sn).Get sn.Key = .ok sn := by
  simp [SnapshotStore.Add, SnapshotStore.Get, List.find?]

theorem Get_Add_of_ne (s : SnapshotStore) (sn : Snapshot) (k : String) (hne : k ≠ sn.Key) :
    (s.Add sn).Get k = s.Get k := by
  have h1 : ¬ sn.Key = k := fun h => hne h.symm
  simp only [SnapshotStore.Add, SnapshotStore.Get, List.find?, h1, decide_False]
  rw [find?_filter_ne_key _ k sn.Key hne]

theorem Get_Delete_of_ne (s : SnapshotStore) (k k1 : String) (hne : k ≠ k1) :
    (s.Delete k1).Get k = s.Get k := by
  simp only [SnapshotStore.Delete, SnapshotStore.Get]
  rw [find?_filter_ne_key _ k k1 hne]

/-- What `Get` returns is an entry of the map, filed under the key asked for. -/
theorem mem_of_Get (s : SnapshotStore) (k : String) (sn : Snapshot) (h : s.Get k = .ok sn) :
    (k, sn) ∈ s.snapshots := by
  unfold SnapshotStore.Get at h
  split at h
  · rename_i kv hfind
    have hk : kv.1 = k := by simpa using List.find?_some hfind
    have hm := List.mem_of_find?_eq_some hfind
    have hsn : kv.2 = sn := by injection h
    rw [← hk, ← hsn]; exact hm
  · cases h

/-- The only error of `Get` is the wrapped not-found sentinel. -/
theorem Get_error_eq (s : SnapshotStore) (k : String) (e : GoError) (h : s.Get k = .error e) :
    e = .wrapf .ErrNotfound ("snapshot " ++ k) := by
  unfold SnapshotStore.Get at h
  split at h
  · cases h
  · injection h with h; exact h.symm

/-- In a map without repeated keys `Get` returns every entry. -/
theorem Get_of_mem (s : SnapshotStore) (k : String) (sn : Snapshot) (hnd : s.keys.Nodup)
    (h : (k, sn) ∈ s.snapshots) : s.Get k = .ok sn := by
  obtain ⟨l⟩ := s
  simp only [SnapshotStore.keys] at hnd
  simp only at h
  unfold SnapshotStore.Get
  simp only
  induction l with
  | nil => cases h
  | cons a l ih =>
    rw [List.map_cons, List.nodup_cons] at hnd
    rcases List.mem_cons.1 h with h | h
    · subst h; simp [List.find?]
    · have hne : ¬ a.1 = k := by
        intro ha
        exact hnd.1 (ha ▸ List.mem_map_of_mem Prod.fst h)
      simp only [List.find?, hne, decide_False]
      exact ih hnd.2 h

theorem WellFormed_Add (s : SnapshotStore) (sn : Snapshot) (hwf : s.WellFormed) :
    (s.Add sn).WellFormed := by
  obtain ⟨hnd, hkey⟩ := hwf
  refine ⟨?_, ?_⟩
  · simp only [SnapshotStore.keys, SnapshotStore.Add, List.map_cons, List.nodup_cons]
    refine ⟨?_, ?_⟩
    · intro hmem
      obtain ⟨kv, hkv, hk⟩ := List.mem_map.1 hmem
      have := (List.mem_filter.1 hkv).2
      simp [hk] at this
    · exact hnd.sublist ((List.filter_sublist _).map _)
  · intro kv hkv
    rcases List.mem_cons.1 hkv with h | h
    · subst h; rfl
    · exact hkey kv (List.mem_filter.1 h).1

theorem WellFormed_Delete (s : SnapshotStore) (k : String) (hwf : s.WellFormed) :
    (s.Delete k).WellFormed := by
  obtain ⟨hnd, hkey⟩ := hwf
  refine ⟨?_, fun kv hkv => hkey kv (List.mem_filter.1 hkv).1⟩
  simp only [SnapshotStore.keys, SnapshotStore.Delete]
  exact hnd.sublist ((List.filter_sublist _).map _)

theorem refreshOnly_some (store : SnapshotStore) (info : Info) (sn : Snapshot)
    (h : refreshOnly store info = some sn) :
    store.Get info.Name = .ok sn ∧ sn.Kind = info.Kind ∧ sn.Kind ≠ .KindActive := by
  unfold refreshOnly at h
  split at h
  · rename_i sn1 hget
    split at h
    · rename_i hk
      injection h with h
      subst h
      exact ⟨hget, hk.1, hk.2⟩
    · cases h
  · cases h

/-- What one iteration of the first loop does to the store: nothing, or one `Add` of a snapshot
filed under the entry's name and stamped with the current clock reading. -/
theorem syncEntry_store_cases (env : SyncEnv) (i : Nat) (st : SyncState) (info : Info)
    (hwf : st.store.WellFormed) :
    (syncEntry env i st info).store = st.store ∨
    ∃ sn, sn.Key = info.Name ∧ sn.Timestamp = env.now i ∧
      (syncEntry env i st info).store = st.store.Add sn := by
  unfold syncEntry
  cases hr : refreshOnly st.store info with
  | some sn =>
    right
    have hget := (refreshOnly_some _ _ _ hr).1
    have hkey : sn.Key = info.Name := hwf.2 _ (mem_of_Get _ _ _ hget)
    exact ⟨{ sn with Timestamp := env.now i }, hkey, rfl, rfl⟩
  | none =>
    rcases hf : fetchUsage env i info with ⟨res, calls⟩
    cases res with
    | error e => left; rfl
    | ok u => right; exact ⟨_, rfl, rfl, rfl⟩

/-- An iteration whose entry is refreshed always ends in an `Add`. -/
theorem syncEntry_store_of_refreshed (env : SyncEnv) (i : Nat) (st : SyncState) (info : Info)
    (hwf : st.store.WellFormed) (h : Refreshed st.store env i info) :
    ∃ sn, sn.Key = info.Name ∧ sn.Timestamp = env.now i ∧
      (syncEntry env i st info).store = st.store.Add sn := by
  unfold syncEntry
  cases hr : refreshOnly st.store info with
  | some sn =>
    have hget := (refreshOnly_some _ _ _ hr).1
    have hkey : sn.Key = info.Name := hwf.2 _ (mem_of_Get _ _ _ hget)
    exact ⟨{ sn with Timestamp := env.now i }, hkey, rfl, rfl⟩
  | none =>
    rcases h with ⟨sn, hget, hk1, hk2⟩ | ⟨u, hu⟩
    · exfalso
      simp [refreshOnly, hget, hk1, hk2] at hr
      exact hk2 (hk1.trans hr)
    · rcases hf : fetchUsage env i info with ⟨res, calls⟩
      rw [hf] at hu
      simp only at hu
      subst hu
      exact ⟨_, rfl, rfl, rfl⟩

theorem syncEntry_WellFormed (env : SyncEnv) (i : Nat) (st : SyncState) (info : Info)
    (hwf : st.store.WellFormed) : (syncEntry env i st info).store.WellFormed := by
  rcases syncEntry_store_cases env i st info hwf with h | ⟨sn, _, _, h⟩
  · rw [h]; exact hwf
  · rw [h]; exact WellFormed_Add _ _ hwf

/-- An iteration for another name leaves the lookup of `k` as it was. -/
theorem syncEntry_Get_of_ne (env : SyncEnv) (i : Nat) (st : SyncState) (info : Info)
    (k : String) (hwf : st.store.WellFormed) (hne : info.Name ≠ k) :
    (syncEntry env i st info).store.Get k = st.store.Get k := by
  rcases syncEntry_store_cases env i st info hwf with h | ⟨sn, hkey, _, h⟩
  · rw [h]
  · rw [h]; exact Get_Add_of_ne _ _ _ (fun hk => hne (hkey ▸ hk.symm))

/-- Once `k` is stored with a stamp after `start`, the rest of the first loop keeps it so. -/
theorem syncLoop_keeps_fresh (env : SyncEnv) (k : String) (infos : List Info) :
    ∀ (i : Nat) (st : SyncState), (∀ j, j < infos.length → env.start < env.now (i + j)) →
      st.store.WellFormed → (∃ sn, st.store.Get k = .ok sn ∧ env.start < sn.Timestamp) →
      (syncLoop env i infos st).store.WellFormed ∧
        ∃ sn, (syncLoop env i infos st).store.Get k = .ok sn ∧ env.start < sn.Timestamp := by
  induction infos with
  | nil => intro i st _ hwf h; exact ⟨hwf, h⟩
  | cons info infos ih =>
    intro i st hclock hwf h
    have hnow : env.start < env.now i := by
      simpa using hclock 0 (by simp)
    have hclock1 : ∀ j, j < infos.length → env.start < env.now (i + 1 + j) := by
      intro j hj
      have := hclock (j + 1) (by simp; omega)
      rwa [show i + (j + 1) = i + 1 + j by omega] at this
    refine ih (i + 1) _ hclock1 (syncEntry_WellFormed env i st info hwf) ?_
    rcases syncEntry_store_cases env i st info hwf with he | ⟨sn, hkey, hts, he⟩
    · rw [he]; exact h
    · rw [he]
      by_cases hk : k = sn.Key
      · subst hk
        exact ⟨sn, Get_Add_self _ _, hts ▸ hnow⟩
      · rw [Get_Add_of_ne _ _ _ hk]; exact h

/-- The first loop stores `k` with a stamp after `start` when `k` is in the catalog and its
entries are refreshed. -/
theorem syncLoop_makes_fresh (env : SyncEnv) (k : String) (infos : List Info) :
    ∀ (i : Nat) (st : SyncState), (∀ j, j < infos.length → env.start < env.now (i + j)) →
      st.store.WellFormed → k ∈ infos.map Info.Name →
      (∀ j info, infos.get? j = some info → info.Name = k →
        Refreshed st.store env (i + j) info) →
      (syncLoop env i infos st).store.WellFormed ∧
        ∃ sn, (syncLoop env i infos st).store.Get k = .ok sn ∧ env.start < sn.Timestamp := by
  induction infos with
  | nil => intro i st _ _ hk; simp at hk
  | cons info infos ih =>
    intro i st hclock hwf hk href
    have hwf1 := syncEntry_WellFormed env i st info hwf
    have hnow : env.start < env.now i := by
      simpa using hclock 0 (by simp)
    have hclock1 : ∀ j, j < infos.length → env.start < env.now (i + 1 + j) := by
      intro j hj
      have := hclock (j + 1) (by simp; omega)
      rwa [show i + (j + 1) = i + 1 + j by omega] at this
    by_cases hname : info.Name = k
    · obtain ⟨sn, hkey, hts, he⟩ :=
        syncEntry_store_of_refreshed env i st info hwf (by simpa using href 0 info rfl hname)
      refine syncLoop_keeps_fresh env k infos (i + 1) _ hclock1 hwf1 ⟨sn, ?_, hts ▸ hnow⟩
      rw [he, ← hname, ← hkey]
      exact Get_Add_self _ _
    · have hk1 : k ∈ infos.map Info.Name := by
        rw [List.map_cons] at hk
        rcases List.mem_cons.1 hk with h | h
        · exact absurd h.symm hname
        · exact h
      have hget := syncEntry_Get_of_ne env i st info k hwf hname
      refine ih (i + 1) _ hclock1 hwf1 hk1 ?_
      intro j info1 hmem hn
      have := href (j + 1) info1 (by simpa using hmem) hn
      rw [show i + (j + 1) = i + 1 + j by omega] at this
      unfold Refreshed at this ⊢
      rw [hn] at this ⊢
      rw [hget]
      exact this

/-- The second loop leaves the lookup of `k` alone when no listed snapshot of that key is
stale. -/
theorem evictLoop_Get (start : Int) (k : String) (l : List Snapshot) :
    ∀ store : SnapshotStore, (∀ sn ∈ l, ¬ sn.Timestamp > start → sn.Key ≠ k) →
      (evictLoop start l store).Get k = store.Get k := by
  induction l with
  | nil => intro store _; rfl
  | cons sn l ih =>
    intro store h
    unfold evictLoop
    split
    · exact ih store fun sn1 h1 => h sn1 (List.mem_cons_of_mem _ h1)
    · rename_i hts
      rw [ih _ fun sn1 h1 => h sn1 (List.mem_cons_of_mem _ h1)]
      exact Get_Delete_of_ne _ _ _ (fun hk => h sn (List.mem_cons_self _ _) hts hk.symm)

/-- What the second loop leaves in the store was there before, and no listed stale snapshot
has its key. -/
theorem mem_evictLoop (start : Int) (kv : String × Snapshot) (l : List Snapshot) :
    ∀ store : SnapshotStore, kv ∈ (evictLoop start l store).snapshots →
      kv ∈ store.snapshots ∧ ∀ sn ∈ l, ¬ sn.Timestamp > start → sn.Key ≠ kv.1 := by
  induction l with
  | nil => intro store h; exact ⟨h, fun _ hm => by cases hm⟩
  | cons sn l ih =>
    intro store h
    unfold evictLoop at h
    split at h
    · rename_i hts
      obtain ⟨h1, h2⟩ := ih store h
      refine ⟨h1, fun sn1 hm hstale => ?_⟩
      rcases List.mem_cons.1 hm with heq | hm
      · subst heq; exact absurd hts hstale
      · exact h2 sn1 hm hstale
    · obtain ⟨h1, h2⟩ := ih _ h
      have hf := List.mem_filter.1 h1
      refine ⟨hf.1, fun sn1 hm hstale => ?_⟩
      rcases List.mem_cons.1 hm with heq | hm
      · subst heq
        intro hk
        have := hf.2
        simp [hk] at this
      · exact h2 sn1 hm hstale

/-- The first loop keeps the map well formed and adds entries under catalog names only: every
entry afterwards has a catalog name or is one of the old entries with its old stamp. -/
theorem syncLoop_entries (env : SyncEnv) (cat : List String) (infos : List Info) :
    ∀ (i : Nat) (st : SyncState), st.store.WellFormed → (∀ info ∈ infos, info.Name ∈ cat) →
      (∀ kv ∈ st.store.snapshots, kv.1 ∈ cat ∨ kv.2.Timestamp ≤ env.start) →
      (syncLoop env i infos st).store.WellFormed ∧
        ∀ kv ∈ (syncLoop env i infos st).store.snapshots,
          kv.1 ∈ cat ∨ kv.2.Timestamp ≤ env.start := by
  induction infos with
  | nil => intro i st hwf _ h; exact ⟨hwf, h⟩
  | cons info infos ih =>
    intro i st hwf hcat h
    refine ih (i + 1) _ (syncEntry_WellFormed env i st info hwf)
      (fun info1 hm => hcat info1 (List.mem_cons_of_mem _ hm)) ?_
    rcases syncEntry_store_cases env i st info hwf with he | ⟨sn, hkey, _, he⟩
    · rw [he]; exact h
    · rw [he]
      intro kv hkv
      rcases List.mem_cons.1 hkv with heq | hm
      · left
        rw [heq]
        show sn.Key ∈ cat
        rw [hkey]
        exact hcat info (List.mem_cons_self _ _)
      · exact h kv (List.mem_filter.1 hm).1

/-- C9, as stated, fails: the catalog holds the active snapshot `k1`, which is in the store,
but the in-namespace probe answers not-found (its container is gone); the entry is skipped,
keeps its old timestamp and the eviction loop of the same pass deletes it. -/
theorem C9_counterexample :
    exampleStore.WellFormed ∧
    exampleStore.Get "k1" = .ok ⟨"k1", .KindActive, 1024, 2, 10, 50⟩ ∧
    "k1" ∈ exampleSyncEnv.WalkSnapshot.1.map Info.Name ∧
    (Sync exampleSyncEnv exampleStore).1 = none ∧
    (Sync exampleSyncEnv exampleStore).2.store.Get "k1" =
      .error (.wrapf .ErrNotfound "snapshot k1") :=
  ⟨by decide, rfl, by decide, rfl, rfl⟩

/-- C9, amended. A `Sync` pass whose catalog walk succeeds and contains key `k` ends with `k`
in the store, stamped after the pass start (whether or not `k` was stored before, and for any
kind, active included), provided that every clock reading of the pass is later than the pass
start and that each catalog entry of `k` is refreshed when its turn comes: the stored snapshot
has the catalog's kind and that kind is not active, or the usage measurement for the entry
succeeds. -/
theorem C9_refreshed_key_survives (env : SyncEnv) (store : SnapshotStore) (infos : List Info)
    (k : String) (hwf : store.WellFormed) (hwalk : env.WalkSnapshot = (infos, none))
    (hk : k ∈ infos.map Info.Name) (hclock : ∀ i, i < infos.length → env.start < env.now i)
    (hrefresh : ∀ i info, infos.get? i = some info → info.Name = k →
      Refreshed store env i info) :
    (Sync env store).1 = none ∧
    ∃ sn, (Sync env store).2.store.Get k = .ok sn ∧ env.start < sn.Timestamp := by
  obtain ⟨hwf1, sn, hget, hts⟩ :=
    syncLoop_makes_fresh env k infos 0 { store := store, calls := [] }
      (fun j hj => by simpa using hclock j hj) hwf hk
      (fun j info hj hn => by simpa using hrefresh j info hj hn)
  simp only [Sync, hwalk, true_and]
  refine ⟨sn, ?_, hts⟩
  rw [evictLoop_Get env.start k _ _ ?_]
  · exact hget
  · intro sn1 hm hstale hkey
    obtain ⟨kv, hkv, hsnd⟩ := List.mem_map.1 hm
    have hkk : kv.2.Key = kv.1 := hwf1.2 kv hkv
    have hmem :
        (k, sn1) ∈ (syncLoop env 0 infos { store := store, calls := [] }).store.snapshots := by
      have : kv = (k, sn1) := Prod.ext (by rw [← hkk, hsnd]; exact hkey) hsnd
      rw [← this]; exact hkv
    have hget1 := Get_of_mem _ k sn1 hwf1.1 hmem
    rw [hget] at hget1
    injection hget1 with heq
    subst heq
    exact hstale hts

/-- C9 (amended) on the example pass with the container of `k1` running, so that the probe
succeeds: `k1` is still stored after the pass. -/
theorem C9_refreshed_key_survives_witness :
    ∃ sn, (Sync exampleSyncEnvRunning exampleStore).2.store.Get "k1" = .ok sn ∧
      exampleSyncEnvRunning.start < sn.Timestamp :=
  (C9_refreshed_key_survives exampleSyncEnvRunning exampleStore [⟨"k1", .KindActive⟩] "k1"
    (by decide) rfl (by decide) (fun _ _ => show (100 : Int) < 200 by decide)
    (fun i info hm _ => by
      have hinfo : info = ⟨"k1", .KindActive⟩ := by
        cases i with
        | zero => simpa using hm.symm
        | succ n => simp at hm
      subst hinfo
      exact Or.inr ⟨(⟨4096, 0⟩, 42), rfl⟩)).2

/-- C10. For every store (a map filled through `Add`) whose entries all carry a timestamp not
later than the pass start, a `Sync` pass whose catalog walk succeeds returns nil and leaves only
keys of the walked catalog in the store: every entry whose key is absent from the catalog has
been deleted. -/
theorem C10_store_within_catalog (env : SyncEnv) (store : SnapshotStore) (infos : List Info)
    (hwf : store.WellFormed) (hwalk : env.WalkSnapshot = (infos, none))
    (hold : ∀ kv ∈ store.snapshots, kv.2.Timestamp ≤ env.start) :
    (Sync env store).1 = none ∧
    (∀ key, key ∈ (Sync env store).2.store.keys → key ∈ infos.map Info.Name) ∧
    (∀ key, key ∉ infos.map Info.Name →
      (Sync env store).2.store.Get key = .error (.wrapf .ErrNotfound ("snapshot " ++ key))) := by
  obtain ⟨hwf1, hent⟩ :=
    syncLoop_entries env (infos.map Info.Name) infos 0 { store := store, calls := [] } hwf
      (fun info hm => List.mem_map_of_mem _ hm) (fun kv hkv => Or.inr (hold kv hkv))
  have hkeys : ∀ key, key ∈ (Sync env store).2.store.keys → key ∈ infos.map Info.Name := by
    intro key hkey
    simp only [Sync, hwalk, SnapshotStore.keys] at hkey
    obtain ⟨kv, hkv, hfst⟩ := List.mem_map.1 hkey
    obtain ⟨hmem, hnot⟩ := mem_evictLoop env.start kv _ _ hkv
    have hkk : kv.2.Key = kv.1 := hwf1.2 kv hmem
    rcases hent kv hmem with hc | hstale
    · rw [← hfst]; exact hc
    · exact absurd hkk (hnot kv.2 (List.mem_map_of_mem _ hmem) (by omega))
  refine ⟨by simp only [Sync, hwalk], hkeys, fun key hkey => ?_⟩
  cases hget : (Sync env store).2.store.Get key with
  | ok sn =>
    exact absurd (hkeys key (List.mem_map_of_mem Prod.fst (mem_of_Get _ _ _ hget))) hkey
  | error e => rw [Get_error_eq _ _ _ hget]

/-- C10 on the example pass: the stale `k2`, absent from the catalog, is gone afterwards. -/
theorem C10_store_within_catalog_witness :
    (Sync exampleSyncEnvRunning exampleStore).2.store.Get "k2" =
      .error (.wrapf .ErrNotfound ("snapshot " ++ "k2")) :=
  (C10_store_within_catalog exampleSyncEnvRunning exampleStore [⟨"k1", .KindActive⟩]
    (by decide) rfl (by decide)).2.2 "k2" (by decide)

/-! ### Theorems on the mount order -/

theorem charsLess_trans : ∀ (a b c : List Char),
    charsLess a b = true → charsLess b c = true → charsLess a c = true
  | [], [], _ => by simp [charsLess]
  | [], _ :: _, [] => by simp [charsLess]
  | [], _ :: _, _ :: _ => by simp [charsLess]
  | _ :: _, [], _ => by simp [charsLess]
  | _ :: _, _ :: _, [] => by simp [charsLess]
  | x :: xs, y :: ys, z :: zs => by
    intro h1 h2
    simp only [charsLess] at h1 h2 ⊢
    split_ifs at h1 h2 ⊢ <;>
      first
      | rfl
      | omega
      | exact charsLess_trans xs ys zs h1 h2

theorem charsLess_irrefl (a : List Char) : charsLess a a = false := by
  induction a with
  | nil => rfl
  | cons x xs ih => simp [charsLess, ih]

/-- A list of characters is less than each of its proper extensions. -/
theorem charsLess_append (l r : List Char) (hr : r ≠ []) : charsLess l (l ++ r) = true := by
  induction l with
  | nil =>
    cases r with
    | nil => exact absurd rfl hr
    | cons b bs => rfl
  | cons a l ih =>
    simp only [List.cons_append, charsLess, lt_irrefl, if_false]
    exact ih

/-- The clean path of an ancestor sorts before the clean path of a descendant. -/
theorem mountsLess_of_properDescendant (child parent : Mount)
    (h : ProperDescendant child.Destination parent.Destination) :
    mountsLess parent child = true := by
  obtain ⟨rest, hne, hdata, _⟩ := h
  unfold mountsLess stringLess
  rw [hdata]
  exact charsLess_append _ rest hne

theorem mem_stableInsert (x z : Mount) (l : List Mount) :
    z ∈ stableInsert x l ↔ z = x ∨ z ∈ l := by
  induction l with
  | nil => simp [stableInsert]
  | cons y ys ih =>
    unfold stableInsert
    split
    · simp
    · simp only [List.mem_cons, ih]
      tauto

/-- Inserting keeps the list ordered: no element is less than an element before it. -/
theorem stableInsert_pairwise (x : Mount) (l : List Mount)
    (h : l.Pairwise fun a b => mountsLess b a = false) :
    (stableInsert x l).Pairwise fun a b => mountsLess b a = false := by
  induction l with
  | nil => simp [stableInsert]
  | cons y ys ih =>
    rw [List.pairwise_cons] at h
    unfold stableInsert
    split
    · rename_i hxy
      refine List.pairwise_cons.2 ⟨fun z hz => ?_, List.pairwise_cons.2 h⟩
      have hyz : mountsLess z y = false := by
        rcases List.mem_cons.1 hz with hz | hz
        · subst hz
          exact charsLess_irrefl _
        · exact h.1 z hz
      cases hzx : mountsLess z x
      · rfl
      · have := charsLess_trans _ _ _ hzx hxy
        unfold mountsLess stringLess at hyz
        rw [this] at hyz
        cases hyz
    · rename_i hxy
      refine List.pairwise_cons.2 ⟨fun z hz => ?_, ih h.2⟩
      rcases (mem_stableInsert x z ys).1 hz with hz | hz
      · subst hz; simpa using hxy
      · exact h.1 z hz

theorem stableInsert_perm (x : Mount) (l : List Mount) : (stableInsert x l).Perm (x :: l) := by
  induction l with
  | nil => exact List.Perm.refl _
  | cons y ys ih =>
    unfold stableInsert
    split
    · exact List.Perm.refl _
    · exact ((List.Perm.cons y ih).trans (List.Perm.swap x y ys))

/-- The sort returns an ordered rearrangement of its input. -/
theorem sortStable_spec (m : List Mount) :
    (sortStable m).Pairwise (fun a b => mountsLess b a = false) ∧ (sortStable m).Perm m := by
  unfold sortStable
  have key : ∀ (l sorted : List Mount), sorted.Pairwise (fun a b => mountsLess b a = false) →
      (l.foldl (fun sorted x => stableInsert x sorted) sorted).Pairwise
          (fun a b => mountsLess b a = false) ∧
        (l.foldl (fun sorted x => stableInsert x sorted) sorted).Perm (sorted ++ l) := by
    intro l
    induction l with
    | nil => intro sorted h; simpa using h
    | cons x l ih =>
      intro sorted h
      obtain ⟨h1, h2⟩ := ih (stableInsert x sorted) (stableInsert_pairwise x sorted h)
      refine ⟨h1, h2.trans ?_⟩
      refine ((stableInsert_perm x sorted).append_right l).trans ?_
      simpa using (@List.perm_middle _ x sorted l).symm
  simpa using key m [] List.Pairwise.nil

/-- The destination `/etc/resolv.conf` lies strictly below `/etc`, and `sortMounts` puts the
mount of `/etc` first. -/
theorem sortMounts_etc_first :
    ProperDescendant "/etc/resolv.conf" "/etc" ∧
    (sortMounts [⟨"/etc/resolv.conf", "bind", "/run/resolv.conf", ["rbind"]⟩,
      ⟨"/etc", "bind", "/data/etc", ["rbind"]⟩]).map Mount.Destination =
      ["/etc", "/etc/resolv.conf"] :=
  ⟨⟨"/resolv.conf".data, by decide, by decide, Or.inr rfl⟩, by decide⟩

/-- C11. For every list of mounts, `sortMounts` returns a rearrangement of the list in which
no entry whose destination is a proper path descendant of another entry's destination stands
before that ancestor entry. -/
theorem C11_sortMounts_ancestor_first (m : List Mount) :
    (sortMounts m).Perm m ∧
    (sortMounts m).Pairwise fun a b => ¬ ProperDescendant a.Destination b.Destination := by
  obtain ⟨hsorted, hperm⟩ := sortStable_spec m
  refine ⟨hperm, hsorted.imp ?_⟩
  intro a b hab hdesc
  rw [mountsLess_of_properDescendant a b hdesc] at hab
  cases hab

/-! ### Theorems on the disk-usage probe -/

theorem find?_filter_ne_fst {β : Type} (l : List (String × β)) (k k1 : String) (hne : k ≠ k1) :
    (l.filter fun kv => kv.1 ≠ k1).find? (fun kv => kv.1 = k) = l.find? fun kv => kv.1 = k := by
  induction l with
  | nil => rfl
  | cons a l ih =>
    by_cases h1 : a.1 = k1
    · have hk : ¬ a.1 = k := fun h => hne (h.symm.trans h1)
      have hf : (a :: l).filter (fun kv => kv.1 ≠ k1) = l.filter fun kv => kv.1 ≠ k1 := by
        rw [List.filter_cons]; simp [h1]
      rw [hf, ih]
      simp only [List.find?_cons, hk, decide_False]
    · have hf : (a :: l).filter (fun kv => kv.1 ≠ k1) = a :: l.filter fun kv => kv.1 ≠ k1 := by
        rw [List.filter_cons]; simp [h1]
      rw [hf]
      by_cases hk : a.1 = k
      · simp only [List.find?_cons, hk, decide_True]
      · simp only [List.find?_cons, hk, decide_False]
        exact ih

theorem goMapGet_goMapSet_self {β : Type} (m : List (String × β)) (k : String) (v : β) :
    goMapGet (goMapSet m k v) k = some v := by
  simp [goMapGet, goMapSet, List.find?]

theorem goMapGet_goMapSet_of_ne {β : Type} (m : List (String × β)) (k k1 : String) (v : β)
    (hne : k ≠ k1) : goMapGet (goMapSet m k1 v) k = goMapGet m k := by
  have h1 : ¬ k1 = k := fun h => hne h.symm
  simp only [goMapGet, goMapSet, List.find?, h1, decide_False]
  rw [find?_filter_ne_fst _ k k1 hne]

/-- Header fields with another name leave the entry of `k` alone. -/
theorem headerIndexFrom_get_of_absent (k : String) (keys : List String) :
    ∀ (idx : Nat) (m : List (String × Nat)), (∀ key ∈ keys, stringsToLower key ≠ k) →
      goMapGet (headerIndexFrom idx m keys) k = goMapGet m k := by
  induction keys with
  | nil => intro idx m _; rfl
  | cons key keys ih =>
    intro idx m h
    unfold headerIndexFrom
    rw [ih (idx + 1) _ fun key1 h1 => h key1 (List.mem_cons_of_mem _ h1)]
    exact goMapGet_goMapSet_of_ne _ _ _ _ (fun hk => h key (List.mem_cons_self _ _) hk.symm)

/-- The map `hash4Idx` sends a name to the index of the last header field that has this name
in lower case. -/
theorem headerIndexFrom_get_last (k : String) (keys : List String) :
    ∀ (idx : Nat) (m : List (String × Nat)) (i : Nat) (name : String),
      keys.get? i = some name → stringsToLower name = k →
      (∀ j name1, i < j → keys.get? j = some name1 → stringsToLower name1 ≠ k) →
      goMapGet (headerIndexFrom idx m keys) k = some (idx + i) := by
  induction keys with
  | nil => intro idx m i name h; simp at h
  | cons key keys ih =>
    intro idx m i name hget hname hlast
    unfold headerIndexFrom
    cases i with
    | zero =>
      have hkey : key = name := by simpa using hget
      subst hkey
      rw [headerIndexFrom_get_of_absent k keys (idx + 1) _ ?_, hname]
      · exact goMapGet_goMapSet_self _ _ _
      · intro key1 hmem
        obtain ⟨j, hj⟩ := List.get?_of_mem hmem
        exact hlast (j + 1) key1 (Nat.succ_pos j) (by simpa using hj)
    | succ n =>
      rw [ih (idx + 1) _ n name (by simpa using hget) hname
        (fun j name1 hj hg => hlast (j + 1) name1 (by omega) (by simpa using hg))]
      congr 1
      omega

/-- On ASCII text the byte slice that drops the last byte drops the last character. -/
theorem dropLastByte_ascii (pd : List Char) (c : Char) (hc : c.toNat < 128)
    (hpd : ∀ ch ∈ pd, ch.toNat < 128) : dropLastByte (String.mk (pd ++ [c])) = String.mk pd := by
  have hbytes : ∀ l : List Char, (∀ ch ∈ l, ch.toNat < 128) →
      l.flatMap utf8Bytes = l.map Char.toNat := by
    intro l
    induction l with
    | nil => intro _; rfl
    | cons a l ih =>
      intro h
      have ha : a.toNat < 128 := h a (List.mem_cons_self _ _)
      have hl := ih fun ch hch => h ch (List.mem_cons_of_mem _ hch)
      simp only [List.flatMap_cons, List.map_cons, hl]
      simp [utf8Bytes, ha]
  have hall : ∀ ch ∈ pd ++ [c], ch.toNat < 128 := by
    intro ch hch
    rcases List.mem_append.1 hch with h | h
    · exact hpd ch h
    · rw [List.mem_singleton.1 h]; exact hc
  unfold dropLastByte
  simp only [hbytes _ hall, List.map_append, List.map_cons, List.map_nil,
    List.dropLast_concat, List.map_map]
  congr 1
  have hid : (Char.ofNat ∘ Char.toNat) = id := funext fun ch => Char.ofNat_toNat ch
  rw [hid, List.map_id]

/-- Reduction to 64 bits leaves a value alone that fits 64 bits. -/
theorem wrapInt64_of_fits (x : Int) (h1 : -2 ^ 63 ≤ x) (h2 : x < 2 ^ 63) : wrapInt64 x = x := by
  unfold wrapInt64
  rw [Int.emod_eq_of_lt (by omega) (by omega)]
  omega

/-- C12, as stated, fails in two places. A used value whose product with 1024 leaves the range
of `int64` is not returned as `u * 1024`: for `u = 2 ^ 53` the size is `-2 ^ 63`. And the
use% field is cut by one byte, not one character: `42` followed by the three-byte character
`％` is rejected. -/
theorem C12_counterexample :
    parseDfOutput "Used Use%\n9007199254740992 42%" =
      .result { Size := -9223372036854775808, Inodes := 0 } 42 ∧
    (9007199254740992 : Int) * 1024 ≠ -9223372036854775808 ∧
    (parseDfOutput "Used Use%\n4096 42％").isError = true := by
  decide

/-- C12, amended. For every df output of exactly two lines (after trimming) whose header has
a field named `used` and a field named `use%` in lower case (for a repeated name the last field
counts) and whose data row holds in the used column a field that `Atoi` reads as `u` and in the
use% column the ASCII text of an integer `p` followed by one ASCII character: when
`0 ≤ p ≤ 100` the parser returns the size `u * 1024` reduced to 64 bits, which is `u * 1024`
whenever that fits an `int64`, and the used percent `p`; when `p` is outside `[0, 100]` it
returns an error. -/
theorem C12_parse_df_two_lines (res line0 line1 usedName percentName usedField : String)
    (usedIdx percentIdx : Nat) (pd : List Char) (c : Char) (u p : Int)
    (hlines : stringsSplit (stringsTrimSpace res) '\n' = [line0, line1])
    (hused : (stringsFields (stringsTrimSpace line0)).get? usedIdx = some usedName)
    (husedName : stringsToLower usedName = "used")
    (husedLast : ∀ j name, usedIdx < j →
      (stringsFields (stringsTrimSpace line0)).get? j = some name →
      stringsToLower name ≠ "used")
    (hpercent : (stringsFields (stringsTrimSpace line0)).get? percentIdx = some percentName)
    (hpercentName : stringsToLower percentName = "use%")
    (hpercentLast : ∀ j name, percentIdx < j →
      (stringsFields (stringsTrimSpace line0)).get? j = some name →
      stringsToLower name ≠ "use%")
    (hu : (stringsFields (stringsTrimSpace line1)).get? usedIdx = some usedField)
    (hatoi : Atoi usedField = some u)
    (hp : (stringsFields (stringsTrimSpace line1)).get? percentIdx = some (String.mk (pd ++ [c])))
    (hc : c.toNat < 128) (hpd : ∀ ch ∈ pd, ch.toNat < 128)
    (hpatoi : Atoi (String.mk pd) = some p) :
    (0 ≤ p → p ≤ 100 →
      parseDfOutput res = .result { Size := wrapInt64 (u * 1024), Inodes := 0 } p.toNat) ∧
    (-2 ^ 63 ≤ u * 1024 → u * 1024 < 2 ^ 63 → wrapInt64 (u * 1024) = u * 1024) ∧
    (p < 0 ∨ 100 < p → (parseDfOutput res).isError = true) := by
  have hheader : stringsTrimSpace line0 ≠ "" := by
    intro h
    rw [h] at hused
    simp [stringsFields, fieldsScan] at hused
  have h1 := headerIndexFrom_get_last "used" _ 0 [] usedIdx usedName hused husedName husedLast
  have h2 := headerIndexFrom_get_last "use%" _ 0 [] percentIdx percentName hpercent
    hpercentName hpercentLast
  rw [Nat.zero_add] at h1 h2
  have hparse : parseDfOutput res =
      if p < 0 ∨ p > 100 then
        .error (.errorf ("invalid percent data: <nil>\n" ++ stringsTrimSpace res))
      else .result { Size := wrapInt64 (u * 1024), Inodes := 0 } p.toNat := by
    unfold parseDfOutput
    simp only [hlines, if_neg hheader, h1, h2, hu, hatoi, hp, dropLastByte_ascii pd c hc hpd,
      hpatoi]
  refine ⟨fun h0 h100 => ?_, wrapInt64_of_fits _, fun hout => ?_⟩
  · rw [hparse, if_neg (by omega)]
  · rw [hparse, if_pos (by omega)]
    rfl

/-- C12 (amended) on the output `Used Use%` / `4096 42%`: size `4096 * 1024`, 42 percent. -/
theorem C12_parse_df_two_lines_witness :
    parseDfOutput "Used Use%\n4096 42%" = .result { Size := 4096 * 1024, Inodes := 0 } 42 :=
  (C12_parse_df_two_lines "Used Use%\n4096 42%" "Used Use%" "4096 42%" "Used" "Use%" "4096"
    0 1 ['4', '2'] '%' 4096 42 (by decide) (by decide) (by decide)
    (fun j name hj hget => by
      have hj1 : j = 1 ∨ 2 ≤ j := by omega
      rcases hj1 with rfl | hj2
      · have : name = "Use%" := by
          have h : (stringsFields (stringsTrimSpace "Used Use%")).get? 1 = some "Use%" := by
            decide
          rw [h] at hget
          exact (Option.some.inj hget).symm
        subst this
        decide
      · have hlen : (stringsFields (stringsTrimSpace "Used Use%")).length = 2 := by decide
        rw [List.get?_eq_none.2 (by omega)] at hget
        cases hget)
    (by decide) (by decide)
    (fun j name hj hget => by
      have hlen : (stringsFields (stringsTrimSpace "Used Use%")).length = 2 := by decide
      rw [List.get?_eq_none.2 (by omega)] at hget
      cases hget)
    (by decide) (by decide) (by decide) (by decide) (by decide) (by decide)).1
    (by decide) (by decide)

/-- C13, failing input. The header names three columns and the data row has two fields: the
index expression `values[usedPercentIdx]` is out of range and the parser ends in a run-time
failure, neither a usage result nor an error. -/
theorem C13_short_row_index_out_of_range :
    parseDfOutput "Filesystem Used Use%\n/dev/sda1 4096" = .indexOutOfRange := by
  decide

/-! ### Theorems on the quota repair -/

/-- The conversion to `uint32` leaves a value alone that is a `uint32`. -/
theorem toUint32_of_fits (x : Int) (h0 : 0 ≤ x) (h1 : x < 2 ^ 32) : toUint32 x = x.toNat := by
  unfold toUint32
  rw [Int.emod_eq_of_lt h0 h1]

/-- C14, as stated, fails: with the explicit id `16777300`, a size pattern matching `/`, no id
in the configuration and no upper directory recorded, `FixContainerRootfsQuota` returns an error
and calls nothing, although the explicit argument is present. -/
theorem C14_counterexample :
    (FixContainerRootfsQuota 16777216 (exampleRepairHost 0 none)
      (repairContainer "" [(".*", "10g")] "") 16777300).1 =
      some (.errorf ("failed to fix container rootfs quota id, quota id get from label " ++
        "is 0 and upper directory not have quotaid")) ∧
    (FixContainerRootfsQuota 16777216 (exampleRepairHost 0 none)
      (repairContainer "" [(".*", "10g")] "") 16777300).2 = [] := by
  decide

/-- C14, amended. For every container whose size table has a pattern matching `/` with a
non-empty size, whose configuration id is nonzero or whose upper directory is recorded, and for
every accepted `fixedQuota` with no id mismatch: `FixContainerRootfsQuota` reads the id stamped
on the upper directory, then calls `SetDiskQuota(upper, size, id)`, starts
`SetFileAttrRecursive(upper, id)` and returns nil, where `id` is the `uint32` of the explicit
argument when that is not `-1` (and not `0`), else of the configuration id when that is nonzero,
else the stamped id when that is nonzero; when all three are absent it returns an error without
calling `SetDiskQuota`. The `uint32` of an id below `2 ^ 32` is the id itself. -/
theorem C14_rootfs_id_resolution (QuotaMinID : Nat) (host : RepairHost) (c : Container)
    (fixedQuota : Int) (size upper : String)
    (haccept : fixedQuota = -1 ∨ (QuotaMinID : Int) ≤ fixedQuota)
    (hsize : matchSize host "/" (parseDiskQuota host c.Config.DiskQuota) = size)
    (hne : size ≠ "")
    (hupper : (goMapGet c.SnapshotterData "UpperDir").getD "" = upper)
    (hknown : atoiValue c.Config.QuotaID ≠ 0 ∨ upper ≠ "")
    (hnomismatch : ¬ (atoiValue c.Config.QuotaID ≠ 0 ∧
      (host.GetQuotaIDInFileAttr [] upper : Int) ≠ 0 ∧
      (host.GetQuotaIDInFileAttr [] upper : Int) ≠ atoiValue c.Config.QuotaID ∧
      fixedQuota = -1)) :
    (fixedQuota ≠ -1 → fixedQuota ≠ 0 →
      FixContainerRootfsQuota QuotaMinID host c fixedQuota =
        (none, [.GetQuotaIDInFileAttr upper, .SetDiskQuota upper size (toUint32 fixedQuota),
          .SetFileAttrRecursive upper (toUint32 fixedQuota)])) ∧
    (fixedQuota = -1 → atoiValue c.Config.QuotaID ≠ 0 →
      FixContainerRootfsQuota QuotaMinID host c fixedQuota =
        (none, [.GetQuotaIDInFileAttr upper,
          .SetDiskQuota upper size (toUint32 (atoiValue c.Config.QuotaID)),
          .SetFileAttrRecursive upper (toUint32 (atoiValue c.Config.QuotaID))])) ∧
    (fixedQuota = -1 → atoiValue c.Config.QuotaID = 0 →
      host.GetQuotaIDInFileAttr [] upper ≠ 0 →
      FixContainerRootfsQuota QuotaMinID host c fixedQuota =
        (none, [.GetQuotaIDInFileAttr upper,
          .SetDiskQuota upper size (toUint32 (host.GetQuotaIDInFileAttr [] upper)),
          .SetFileAttrRecursive upper (toUint32 (host.GetQuotaIDInFileAttr [] upper))])) ∧
    (fixedQuota = -1 → atoiValue c.Config.QuotaID = 0 →
      host.GetQuotaIDInFileAttr [] upper = 0 →
      (FixContainerRootfsQuota QuotaMinID host c fixedQuota).1.isSome = true ∧
      (FixContainerRootfsQuota QuotaMinID host c fixedQuota).2 =
        [.GetQuotaIDInFileAttr upper]) ∧
    (∀ x : Int, 0 ≤ x → x < 2 ^ 32 → toUint32 x = x.toNat) := by
  have hval : ¬ (fixedQuota ≠ -1 ∧ fixedQuota < (QuotaMinID : Int)) := by
    rintro ⟨h1, h2⟩
    rcases haccept with h | h
    · exact h1 h
    · omega
  have hguard : ¬ (atoiValue c.Config.QuotaID = 0 ∧ upper = "") := by
    rintro ⟨h1, h2⟩
    rcases hknown with h | h
    · exact h h1
    · exact h h2
  refine ⟨fun h1 h0 => ?_, fun h1 hl => ?_, fun h1 hl he => ?_, fun h1 hl he => ?_,
    toUint32_of_fits⟩
  · simp only [FixContainerRootfsQuota, if_neg hval, hsize, if_neg hne, hupper, if_neg hguard,
      if_neg hnomismatch, if_neg h1, if_neg h0]
  · simp only [FixContainerRootfsQuota, if_neg hval, hsize, if_neg hne, hupper, if_neg hguard,
      if_neg hnomismatch, if_pos h1, if_neg hl]
  · have he1 : ¬ ((host.GetQuotaIDInFileAttr [] upper : Int) = 0) := by
      intro h; exact he (by exact_mod_cast h)
    have hu : upper ≠ "" := by
      rcases hknown with h | h
      · exact absurd hl h
      · exact h
    subst h1
    simp [FixContainerRootfsQuota, hsize, hne, hupper, hl, hu, he1]
  · have he1 : (host.GetQuotaIDInFileAttr [] upper : Int) = 0 := by exact_mod_cast he
    have hu : upper ≠ "" := by
      rcases hknown with h | h
      · exact absurd hl h
      · exact h
    subst h1
    simp [FixContainerRootfsQuota, hsize, hne, hupper, hl, hu, he1]

/-- C14 (amended) with `fixedQuota = -1`, configuration id `4002` and nothing stamped on the
upper directory: `SetDiskQuota("/upper", "10g", 4002)` is called and nil returned. -/
theorem C14_rootfs_id_resolution_witness :
    FixContainerRootfsQuota 16777216 (exampleRepairHost 0 none)
        (repairContainer "4002" [(".*", "10g")] "/upper") (-1) =
      (none, [.GetQuotaIDInFileAttr "/upper", .SetDiskQuota "/upper" "10g" 4002,
        .SetFileAttrRecursive "/upper" 4002]) :=
  (C14_rootfs_id_resolution 16777216 (exampleRepairHost 0 none)
    (repairContainer "4002" [(".*", "10g")] "/upper") (-1) "10g" "/upper"
    (Or.inl rfl) (by decide) (by decide) (by decide) (Or.inl (by decide)) (by decide)).2.1
    rfl (by decide)

/-- C15, as stated, fails in its second half: with configuration id `4002`, stamped id `4003`
and the explicit id `16777300`, but no size pattern matching `/`, `FixContainerRootfsQuota`
returns an error and the explicit id is not applied. -/
theorem C15_counterexample :
    (FixContainerRootfsQuota 16777216 (exampleRepairHost 4003 none)
      (repairContainer "4002" [] "/upper") 16777300).1 =
      some (.errorf "failed to fix container quota, can not get quota limit") ∧
    (FixContainerRootfsQuota 16777216 (exampleRepairHost 4003 none)
      (repairContainer "4002" [] "/upper") 16777300).2 = [] := by
  decide

/-- C15, amended. For every container whose configuration id and stamped id on the upper
directory are both nonzero and different: with `fixedQuota = -1` `FixContainerRootfsQuota`
returns an error and calls neither `SetDiskQuota` nor `SetFileAttrRecursive` (at most the read
of the stamped id); with an explicit `fixedQuota` that is at least `QuotaMinID` and not zero,
and a size pattern matching `/` with a non-empty size, it returns nil after
`SetDiskQuota(upper, size, id)` and the start of `SetFileAttrRecursive(upper, id)`, where `id`
is the `uint32` of `fixedQuota`, which is `fixedQuota` itself when that is below `2 ^ 32`. -/
theorem C15_rootfs_id_mismatch (QuotaMinID : Nat) (host : RepairHost) (c : Container)
    (upper : String)
    (hupper : (goMapGet c.SnapshotterData "UpperDir").getD "" = upper)
    (hlabel : atoiValue c.Config.QuotaID ≠ 0)
    (hexist : host.GetQuotaIDInFileAttr [] upper ≠ 0)
    (hdiff : (host.GetQuotaIDInFileAttr [] upper : Int) ≠ atoiValue c.Config.QuotaID) :
    ((FixContainerRootfsQuota QuotaMinID host c (-1)).1.isSome = true ∧
      ∀ call ∈ (FixContainerRootfsQuota QuotaMinID host c (-1)).2,
        call = .GetQuotaIDInFileAttr upper) ∧
    (∀ (fixedQuota : Int) (size : String), (QuotaMinID : Int) ≤ fixedQuota → fixedQuota ≠ 0 →
      matchSize host "/" (parseDiskQuota host c.Config.DiskQuota) = size → size ≠ "" →
      FixContainerRootfsQuota QuotaMinID host c fixedQuota =
        (none, [.GetQuotaIDInFileAttr upper, .SetDiskQuota upper size (toUint32 fixedQuota),
          .SetFileAttrRecursive upper (toUint32 fixedQuota)]) ∧
      (0 ≤ fixedQuota → fixedQuota < 2 ^ 32 → toUint32 fixedQuota = fixedQuota.toNat)) := by
  have hexist1 : ¬ ((host.GetQuotaIDInFileAttr [] upper : Int) = 0) := by
    intro h; exact hexist (by exact_mod_cast h)
  constructor
  · by_cases hs : matchSize host "/" (parseDiskQuota host c.Config.DiskQuota) = ""
    · simp [FixContainerRootfsQuota, hs]
    · simp [FixContainerRootfsQuota, hs, hupper, hlabel, hexist1, hdiff]
  · intro fixedQuota size hge h0 hsize hne
    refine ⟨?_, toUint32_of_fits fixedQuota⟩
    by_cases h1 : fixedQuota = -1
    · subst h1
      have hval : ¬ ((-1 : Int) ≠ -1 ∧ (-1 : Int) < (QuotaMinID : Int)) := fun h => h.1 rfl
      omega
    · have hval : ¬ (fixedQuota ≠ -1 ∧ fixedQuota < (QuotaMinID : Int)) := by
        rintro ⟨_, h2⟩; omega
      simp [FixContainerRootfsQuota, hge, hsize, hne, hupper, hlabel, h1, h0]

/-- C15 (amended) with configuration id `4002` and stamped id `4003`: the repair with
`fixedQuota = -1` fails. -/
theorem C15_rootfs_id_mismatch_witness :
    (FixContainerRootfsQuota 16777216 (exampleRepairHost 4003 none)
      (repairContainer "4002" [(".*", "10g")] "/upper") (-1)).1.isSome = true :=
  (C15_rootfs_id_mismatch 16777216 (exampleRepairHost 4003 none)
    (repairContainer "4002" [(".*", "10g")] "/upper") "/upper"
    (by decide) (by decide) (by decide) (by decide)).1.1

/-- Every error of `FixContainerQuota` is returned before any call is made. -/
theorem FixContainerQuota_nil_or_no_calls (host : RepairHost) (c : Container)
    (fixedQuota : Int) :
    (FixContainerQuota host c fixedQuota).1 = none ∨
      (FixContainerQuota host c fixedQuota).2 = [] := by
  unfold FixContainerQuota
  by_cases h1 : fixedQuota ≠ -1
  · right; simp only [if_pos h1]
  simp only [if_neg h1]
  by_cases h2 : (parseDiskQuota host c.Config.DiskQuota).length > 1
  · right; simp only [if_pos h2]
  simp only [if_neg h2]
  cases Atoi c.Config.QuotaID with
  | none => right; rfl
  | some quotaid =>
    by_cases h3 : quotaid = 0
    · right; simp only [if_pos h3]
    simp only [if_neg h3]
    rcases host.getDiskQuotaMountPoints c false with ⟨allMounts, _ | err⟩
    · left; rfl
    · right; rfl

/-- C16, as stated, fails: when `SetDiskQuota` fails in `FixContainerRootfsQuota` the failure
is logged and the operation returns nil. -/
theorem C16_counterexample :
    ((exampleRepairHost 0 (some (.errorf "failed to enforce quota"))).SetDiskQuota
      [.GetQuotaIDInFileAttr "/upper"] "/upper" "10g" 4002).isSome = true ∧
    FixContainerRootfsQuota 16777216
        (exampleRepairHost 0 (some (.errorf "failed to enforce quota")))
        (repairContainer "4002" [(".*", "10g")] "/upper") (-1) =
      (none, [.GetQuotaIDInFileAttr "/upper", .SetDiskQuota "/upper" "10g" 4002,
        .SetFileAttrRecursive "/upper" 4002]) := by
  decide

/-- C16, amended. For each of the three repair operations, a run in which `SetDiskQuota` is
called returns nil to its caller whatever `SetDiskQuota` answers: its failure is only logged.
(The errors the operations do return are all returned before the first such call.) -/
theorem C16_repair_returns_nil_after_SetDiskQuota (QuotaMinID : Nat) (host : RepairHost)
    (c : Container) (fixedQuota : Int) (op : RepairOp) (dir size : String) (quotaID : Nat)
    (hcall : RepairCall.SetDiskQuota dir size quotaID ∈
      (op.run QuotaMinID host c fixedQuota).2) :
    (op.run QuotaMinID host c fixedQuota).1 = none := by
  cases op with
  | container =>
    simp only [RepairOp.run] at hcall ⊢
    rcases FixContainerQuota_nil_or_no_calls host c fixedQuota with h | h
    · exact h
    · rw [h] at hcall; cases hcall
  | rootfs =>
    simp only [RepairOp.run] at hcall ⊢
    unfold FixContainerRootfsQuota at hcall ⊢
    dsimp only at hcall ⊢
    split_ifs at hcall ⊢ <;> first | rfl | (simp at hcall)
  | volumes =>
    simp only [RepairOp.run] at hcall ⊢
    unfold FixContainerVolumesQuota at hcall ⊢
    dsimp only at hcall ⊢
    split_ifs at hcall ⊢ <;> first | rfl | (simp at hcall)

/-- C16 (amended) on the volumes repair with a failing `SetDiskQuota`: the call is made and
nil is returned. -/
theorem C16_repair_returns_nil_after_SetDiskQuota_witness :
    (RepairOp.volumes.run 16777216
      (exampleRepairHost 0 (some (.errorf "failed to enforce quota")))
      (repairContainer "4002" [(".*", "10g")] "/upper") (-1)).1 = none :=
  C16_repair_returns_nil_after_SetDiskQuota 16777216
    (exampleRepairHost 0 (some (.errorf "failed to enforce quota")))
    (repairContainer "4002" [(".*", "10g")] "/upper") (-1) RepairOp.volumes
    "/data/vol1" "10g" 4002 (by decide)

/-- C17. For every update request and container, `fixQuotaProcess` returns an error and makes
no call at all (to no repair operation and to no function of the quota package) whenever one of
the three target ids is nonzero, not `-1` and below `QuotaMinID`, or the label `DiskQuota` of
the container is missing or empty. -/
theorem C17_fixQuotaProcess_rejects (QuotaMinID : Nat) (host : RepairHost) (c : Container)
    (config : UpdateConfig)
    (hbad :
      (config.FixQuotaContainer ≠ 0 ∧ config.FixQuotaContainer ≠ -1 ∧
        config.FixQuotaContainer < (QuotaMinID : Int)) ∨
      (config.FixQuotaRootfs ≠ 0 ∧ config.FixQuotaRootfs ≠ -1 ∧
        config.FixQuotaRootfs < (QuotaMinID : Int)) ∨
      (config.FixQuotaVolumes ≠ 0 ∧ config.FixQuotaVolumes ≠ -1 ∧
        config.FixQuotaVolumes < (QuotaMinID : Int)) ∨
      goMapGet c.Config.Labels "DiskQuota" = none ∨
      goMapGet c.Config.Labels "DiskQuota" = some "") :
    (fixQuotaProcess QuotaMinID host c config).1.isSome = true ∧
    (fixQuotaProcess QuotaMinID host c config).2 = [] := by
  unfold fixQuotaProcess
  dsimp only
  by_cases h1 : config.FixQuotaContainer ≠ 0 ∧ config.FixQuotaContainer ≠ -1 ∧
      config.FixQuotaContainer < (QuotaMinID : Int)
  · rw [if_pos h1]; exact ⟨rfl, rfl⟩
  rw [if_neg h1]
  by_cases h2 : config.FixQuotaRootfs ≠ 0 ∧ config.FixQuotaRootfs ≠ -1 ∧
      config.FixQuotaRootfs < (QuotaMinID : Int)
  · rw [if_pos h2]; exact ⟨rfl, rfl⟩
  rw [if_neg h2]
  by_cases h3 : config.FixQuotaVolumes ≠ 0 ∧ config.FixQuotaVolumes ≠ -1 ∧
      config.FixQuotaVolumes < (QuotaMinID : Int)
  · rw [if_pos h3]; exact ⟨rfl, rfl⟩
  rw [if_neg h3]
  rcases hbad with h | h | h | h | h
  · exact absurd h h1
  · exact absurd h h2
  · exact absurd h h3
  · rw [h]; exact ⟨rfl, rfl⟩
  · rw [h]; exact ⟨rfl, rfl⟩

/-- C17 on a rootfs repair with the target id `5`, which is below the minimum `16777216`. -/
theorem C17_fixQuotaProcess_rejects_witness :
    (fixQuotaProcess 16777216 (exampleRepairHost 0 none)
      (repairContainer "4002" [(".*", "10g")] "/upper") ⟨0, 5, 0⟩).1.isSome = true ∧
    (fixQuotaProcess 16777216 (exampleRepairHost 0 none)
      (repairContainer "4002" [(".*", "10g")] "/upper") ⟨0, 5, 0⟩).2 = [] :=
  C17_fixQuotaProcess_rejects 16777216 (exampleRepairHost 0 none)
    (repairContainer "4002" [(".*", "10g")] "/upper") ⟨0, 5, 0⟩
    (Or.inr (Or.inl (by decide)))

/-! ### Theorems on the mountpoint lookup -/

/-- C18, failing call. On a non-xfs filesystem whose mountpoint is found with project quota
on, when `quotaon` fails and its stderr does not contain ` File exists`, `EnforceQuota` returns
a nil error together with a `MountInfo` whose mountpoint is empty: the statement that builds
the error wraps `err`, the nil error of `getDevID`, instead of the error of `quotaon`. When the
stderr contains ` File exists` it returns nil and the mountpoint. -/
theorem C18_quotaon_failure_returns_nil (host : Host) (w : QuotaWorld) (dir : String)
    (devID : Nat) (mountPoint fsType : String)
    (hdev : host.getDevID dir = (devID, none))
    (hcheck : CheckMountpoint host devID = (mountPoint, true, fsType))
    (hmp : mountPoint ≠ "") (hfs : fsType ≠ xfsFS)
    (hfail : (host.Run w.cmds ["quotaon", "-P", mountPoint]).err.isSome = true) :
    (stringsContains (host.Run w.cmds ["quotaon", "-P", mountPoint]).stderr " File exists" =
        false →
      EnforceQuota host w dir =
        ((some { MountPoint := "", DeviceID := devID, FsType := fsType }, none),
          { w with cmds := w.cmds ++ [["quotaon", "-P", mountPoint]] })) ∧
    (stringsContains (host.Run w.cmds ["quotaon", "-P", mountPoint]).stderr " File exists" =
        true →
      EnforceQuota host w dir =
        ((some { MountPoint := mountPoint, DeviceID := devID, FsType := fsType }, none),
          { w with cmds := w.cmds ++ [["quotaon", "-P", mountPoint]] })) := by
  obtain ⟨e, he⟩ := Option.isSome_iff_exists.1 hfail
  constructor
  · intro hc
    simp [EnforceQuota, hdev, hcheck, hmp, enforceQuotaOn, hfs, execRun, he, hc, Wrapf]
  · intro hc
    simp [EnforceQuota, hdev, hcheck, hmp, enforceQuotaOn, hfs, execRun, he, hc]

/-- C18 (failing call) on an ext4 filesystem mounted at `/home` with project quota on, where
`quotaon` fails with `permission denied`: nil error, empty mountpoint. -/
theorem C18_quotaon_failure_returns_nil_witness :
    EnforceQuota
        (mountHost "/dev/sdb1 /home ext4 rw,relatime,prjquota 0 0" "quotaon: permission denied")
        ⟨⟨[], 0⟩, []⟩ "/home/pouch" =
      ((some { MountPoint := "", DeviceID := 2049, FsType := "ext4" }, none),
        { driver := ⟨[], 0⟩, cmds := [["quotaon", "-P", "/home"]] }) :=
  (C18_quotaon_failure_returns_nil
    (mountHost "/dev/sdb1 /home ext4 rw,relatime,prjquota 0 0" "quotaon: permission denied")
    ⟨⟨[], 0⟩, []⟩ "/home/pouch" 2049 "/home" "ext4" rfl (by decide) (by decide) (by decide)
    (by decide)).1 (by decide)

/-- C20, failing input. The table lists device `2049` first at `/home/pouch` with `prjquota`
and then at the shorter `/home` without it: `CheckMountpoint` selects `/home` and still returns
the flag true, which the earlier line set; the option list of the selected line does not
contain `prjquota`. -/
theorem C20_stale_quota_flag :
    CheckMountpoint
        (mountHost ("/dev/sdb1 /home/pouch ext4 rw,relatime,prjquota,data=ordered 0 0\n" ++
          "/dev/sdb1 /home ext4 rw,relatime,data=ordered 0 0") "") 2049 =
      ("/home", true, "ext4") ∧
    lineHasPrjquota "/dev/sdb1 /home ext4 rw,relatime,data=ordered 0 0" = false := by
  decide

/-- C21. `SetStatusRunning(pid)`, run on any container while the formatted clock reading `now`
is non-empty, leaves a state whose `Status` is running, whose `Running` flag is set, whose
`Pid` is `pid`, whose `ExitCode` is `0` and whose `StartedAt` is that non-empty reading;
`FinishedAt`, `Error` and `OOMKilled` are those of the prior state. -/
theorem C21_SetStatusRunning_effect (c : Container) (now : String) (pid : Int)
    (hnow : now ≠ "") :
    (c.SetStatusRunning now pid).State.Status = StatusRunning ∧
    (c.SetStatusRunning now pid).State.Running = true ∧
    (c.SetStatusRunning now pid).State.Pid = pid ∧
    (c.SetStatusRunning now pid).State.ExitCode = 0 ∧
    (c.SetStatusRunning now pid).State.StartedAt = now ∧
    (c.SetStatusRunning now pid).State.StartedAt ≠ "" ∧
    (c.SetStatusRunning now pid).State.FinishedAt = c.State.FinishedAt ∧
    (c.SetStatusRunning now pid).State.Error = c.State.Error ∧
    (c.SetStatusRunning now pid).State.OOMKilled = c.State.OOMKilled := by
  refine ⟨?_, ?_, ?_, ?_, ?_, ?_, ?_, ?_, ?_⟩ <;>
    simp [Container.SetStatusRunning, setStatusFlags_state, hnow]

/-- C21 on a container that exited with code `137` after an out-of-memory kill and is started
again with pid `4242`: the exit code returns to `0`, the finishing time, the error text and the
out-of-memory mark stay. -/
theorem C21_SetStatusRunning_effect_witness :
    (((containerWithStatus "c1" StatusCreated).SetStatusOOM).SetStatusExited
        "2019-01-01T00:00:00Z" 137 "killed").State.ExitCode = 137 ∧
    ((((containerWithStatus "c1" StatusCreated).SetStatusOOM).SetStatusExited
        "2019-01-01T00:00:00Z" 137 "killed").SetStatusRunning
        "2019-01-02T00:00:00Z" 4242).State =
      { Status := StatusRunning, Running := true, Paused := false, Restarting := false,
        Exited := false, Dead := false, Pid := 4242, ExitCode := 0,
        StartedAt := "2019-01-02T00:00:00Z", FinishedAt := "2019-01-01T00:00:00Z",
        Error := "killed", OOMKilled := true } ∧
    ((((containerWithStatus "c1" StatusCreated).SetStatusOOM).SetStatusExited
        "2019-01-01T00:00:00Z" 137 "killed").SetStatusRunning
        "2019-01-02T00:00:00Z" 4242).State.StartedAt ≠ "" :=
  ⟨by decide, by decide,
    (C21_SetStatusRunning_effect
      (((containerWithStatus "c1" StatusCreated).SetStatusOOM).SetStatusExited
        "2019-01-01T00:00:00Z" 137 "killed") "2019-01-02T00:00:00Z" 4242 (by decide)).2.2.2.2.2.1⟩

/-- C22. `SetStatusOOM` sets `OOMKilled` and the error text `OOMKilled` and leaves the status,
the five flags, `Pid`, `ExitCode`, `StartedAt` and `FinishedAt` (and the identity) as they
were, so each of the seven status predicates answers after the call what it answered before. -/
theorem C22_SetStatusOOM_frame (c : Container) :
    c.SetStatusOOM.State.OOMKilled = true ∧
    c.SetStatusOOM.State.Error = "OOMKilled" ∧
    c.SetStatusOOM.State =
      { c.State with OOMKilled := true, Error := "OOMKilled" } ∧
    c.SetStatusOOM.State.Status = c.State.Status ∧
    c.SetStatusOOM.State.Running = c.State.Running ∧
    c.SetStatusOOM.State.Paused = c.State.Paused ∧
    c.SetStatusOOM.State.Restarting = c.State.Restarting ∧
    c.SetStatusOOM.State.Exited = c.State.Exited ∧
    c.SetStatusOOM.State.Dead = c.State.Dead ∧
    c.SetStatusOOM.State.Pid = c.State.Pid ∧
    c.SetStatusOOM.State.ExitCode = c.State.ExitCode ∧
    c.SetStatusOOM.State.StartedAt = c.State.StartedAt ∧
    c.SetStatusOOM.State.FinishedAt = c.State.FinishedAt ∧
    c.SetStatusOOM.ID = c.ID ∧
    c.SetStatusOOM.IsRunning = c.IsRunning ∧
    c.SetStatusOOM.IsPaused = c.IsPaused ∧
    c.SetStatusOOM.IsRunningOrPaused = c.IsRunningOrPaused ∧
    c.SetStatusOOM.IsExited = c.IsExited ∧
    c.SetStatusOOM.IsRestarting = c.IsRestarting ∧
    c.SetStatusOOM.IsCreated = c.IsCreated ∧
    c.SetStatusOOM.IsDead = c.IsDead ∧
    c.SetStatusOOM.GetStatus = c.GetStatus :=
  ⟨rfl, rfl, rfl, rfl, rfl, rfl, rfl, rfl, rfl, rfl, rfl, rfl, rfl, rfl, rfl, rfl, rfl, rfl,
    rfl, rfl, rfl, rfl⟩

/-! ### Theorems on sequences of store operations -/

theorem Get_Delete_self (s : SnapshotStore) (k : String) :
    (s.Delete k).Get k = .error (.wrapf .ErrNotfound ("snapshot " ++ k)) := by
  have h : (s.snapshots.filter fun kv => kv.1 ≠ k).find? (fun kv => kv.1 = k) = none := by
    rw [List.find?_eq_none]
    intro kv hkv
    have := (List.mem_filter.1 hkv).2
    simpa using this
  simp only [SnapshotStore.Delete, SnapshotStore.Get, h]

theorem runStoreOps_append (s : SnapshotStore) (l1 l2 : List StoreOp) :
    runStoreOps s (l1 ++ l2) = runStoreOps (runStoreOps s l1) l2 := by
  simp [runStoreOps, List.foldl_append]

/-- Operations that do not touch `k` leave what `Get k` returns. -/
theorem runStoreOps_Get_untouched (ops : List StoreOp) (k : String) :
    ∀ s : SnapshotStore, (∀ op ∈ ops, op.touches k = false) →
      (runStoreOps s ops).Get k = s.Get k := by
  induction ops with
  | nil => intro s _; rfl
  | cons op ops ih =>
    intro s h
    have hop := h op (List.mem_cons_self _ _)
    have hrest : ∀ o ∈ ops, o.touches k = false := fun o ho => h o (List.mem_cons_of_mem _ ho)
    show (runStoreOps (op.apply s) ops).Get k = s.Get k
    rw [ih _ hrest]
    cases op with
    | Add sn =>
      have hne : k ≠ sn.Key := by
        intro hk
        simp [StoreOp.touches, hk] at hop
      exact Get_Add_of_ne s sn k hne
    | Delete key =>
      have hne : k ≠ key := by
        intro hk
        simp [StoreOp.touches, hk] at hop
      exact Get_Delete_of_ne s k key hne

/-- A store filled from the empty one through `Add` and `Delete` is well formed. -/
theorem runStoreOps_WellFormed (ops : List StoreOp) :
    ∀ s : SnapshotStore, s.WellFormed → (runStoreOps s ops).WellFormed := by
  induction ops with
  | nil => intro s h; exact h
  | cons op ops ih =>
    intro s h
    show (runStoreOps (op.apply s) ops).WellFormed
    apply ih
    cases op with
    | Add sn => exact WellFormed_Add s sn h
    | Delete key => exact WellFormed_Delete s key h

/-- In a well-formed store the listed snapshots are the stored ones, one per key. -/
theorem List_of_WellFormed (s : SnapshotStore) (hwf : s.WellFormed) :
    (s.List.map Snapshot.Key).Nodup ∧ ∀ sn, sn ∈ s.List ↔ s.Get sn.Key = .ok sn := by
  obtain ⟨hnd, hkey⟩ := hwf
  have hmap : s.List.map Snapshot.Key = s.keys := by
    simp only [SnapshotStore.List, SnapshotStore.keys, List.map_map]
    apply List.map_congr_left
    intro kv hkv
    exact hkey kv hkv
  refine ⟨hmap ▸ hnd, fun sn => ⟨fun h => ?_, fun h => ?_⟩⟩
  · obtain ⟨kv, hkv, hsn⟩ := List.mem_map.1 h
    have hk := hkey kv hkv
    apply Get_of_mem s sn.Key sn hnd
    rw [← hsn, hk]
    exact hkv
  · exact List.mem_map.2 ⟨(sn.Key, sn), mem_of_Get s sn.Key sn h, rfl⟩

/-- C23. Run any sequence of `Add` and `Delete` operations on a new store and take any key
`k`. When the sequence holds an `Add` of a snapshot with key `k` that no later `Add` of that
key and no later `Delete(k)` follows, `Get(k)` returns that snapshot; when no operation of the
sequence is an `Add` with key `k` or a `Delete(k)`, or the last such operation is `Delete(k)`,
`Get(k)` returns the error that wraps `ErrNotfound`. On every store an `Add` and a `Delete` of
another key leave what `Get(k)` returns. `List` holds no two entries of one key, and holds a
snapshot exactly when `Get` of its key returns it. -/
theorem C23_store_operations (ops : List StoreOp) (k : String) :
    (∀ pre sn post, ops = pre ++ StoreOp.Add sn :: post → sn.Key = k →
        (∀ op ∈ post, op.touches k = false) →
        (runStoreOps SnapshotStore.NewSnapshotStore ops).Get k = .ok sn) ∧
    ((∀ op ∈ ops, op.touches k = false) →
        (runStoreOps SnapshotStore.NewSnapshotStore ops).Get k =
          .error (.wrapf .ErrNotfound ("snapshot " ++ k))) ∧
    (∀ pre post, ops = pre ++ StoreOp.Delete k :: post →
        (∀ op ∈ post, op.touches k = false) →
        (runStoreOps SnapshotStore.NewSnapshotStore ops).Get k =
          .error (.wrapf .ErrNotfound ("snapshot " ++ k))) ∧
    (GoError.wrapf .ErrNotfound ("snapshot " ++ k)).IsNotfound = true ∧
    (∀ (s : SnapshotStore) (sn : Snapshot), k ≠ sn.Key → (s.Add sn).Get k = s.Get k) ∧
    (∀ (s : SnapshotStore) (key : String), k ≠ key → (s.Delete key).Get k = s.Get k) ∧
    ((runStoreOps SnapshotStore.NewSnapshotStore ops).List.map Snapshot.Key).Nodup ∧
    (∀ sn, sn ∈ (runStoreOps SnapshotStore.NewSnapshotStore ops).List ↔
      (runStoreOps SnapshotStore.NewSnapshotStore ops).Get sn.Key = .ok sn) := by
  have hwf : (runStoreOps SnapshotStore.NewSnapshotStore ops).WellFormed :=
    runStoreOps_WellFormed ops _ (by decide)
  refine ⟨?_, ?_, ?_, rfl, fun s sn h => Get_Add_of_ne s sn k h,
    fun s key h => Get_Delete_of_ne s k key h, (List_of_WellFormed _ hwf).1,
    (List_of_WellFormed _ hwf).2⟩
  · intro pre sn post hops hk hpost
    subst hops
    rw [runStoreOps_append]
    show (runStoreOps ((runStoreOps _ pre).Add sn) post).Get k = _
    rw [runStoreOps_Get_untouched post k _ hpost, ← hk]
    exact Get_Add_self _ sn
  · intro hnone
    rw [runStoreOps_Get_untouched ops k _ hnone]
    rfl
  · intro pre post hops hpost
    subst hops
    rw [runStoreOps_append]
    show (runStoreOps ((runStoreOps _ pre).Delete k) post).Get k = _
    rw [runStoreOps_Get_untouched post k _ hpost]
    exact Get_Delete_self _ k

/-- C23 on the sequence add `a` (size 1), add `b`, add `a` (size 2), delete `b`: `Get` returns
the second snapshot of `a`. -/
theorem C23_store_operations_witness :
    (runStoreOps SnapshotStore.NewSnapshotStore
      [.Add ⟨"a", .KindCommitted, 1, 0, 0, 0⟩, .Add ⟨"b", .KindView, 5, 0, 0, 0⟩,
       .Add ⟨"a", .KindCommitted, 2, 0, 0, 0⟩, .Delete "b"]).Get "a" =
      .ok ⟨"a", .KindCommitted, 2, 0, 0, 0⟩ :=
  (C23_store_operations
    [.Add ⟨"a", .KindCommitted, 1, 0, 0, 0⟩, .Add ⟨"b", .KindView, 5, 0, 0, 0⟩,
     .Add ⟨"a", .KindCommitted, 2, 0, 0, 0⟩, .Delete "b"] "a").1
    [.Add ⟨"a", .KindCommitted, 1, 0, 0, 0⟩, .Add ⟨"b", .KindView, 5, 0, 0, 0⟩]
    ⟨"a", .KindCommitted, 2, 0, 0, 0⟩ [.Delete "b"] rfl rfl (by decide)

/-! ### Theorems on the refresh-only branch of `Sync` -/

/-- The calls of a usage measurement name the entry measured, or are probes by pid. -/
theorem fetchUsage_calls (env : SyncEnv) (i : Nat) (info : Info) (k : String)
    (hne : info.Name ≠ k) : ∀ call ∈ (fetchUsage env i info).2, call.forKey k = false := by
  have hf : ∀ call ∈ (FetchActiveOverlaySnapshotDiskUsage env i info.Name).2,
      call.forKey k = false := by
    intro call hc
    unfold FetchActiveOverlaySnapshotDiskUsage at hc
    cases hpid : env.ContainerPID i info.Name with
    | error e => simp [hpid] at hc; subst hc; simp [ProbeCall.forKey, hne]
    | ok pid =>
      cases hst : env.ContainerStatus i info.Name with
      | error e =>
        simp [hpid, hst] at hc
        rcases hc with hc | hc <;> subst hc <;> simp [ProbeCall.forKey, hne]
      | ok status =>
        simp only [hpid, hst] at hc
        split at hc
        · simp at hc
          rcases hc with hc | hc <;> subst hc <;> simp [ProbeCall.forKey, hne]
        · simp at hc
          rcases hc with hc | hc | hc <;> subst hc <;> simp [ProbeCall.forKey, hne]
  have hg : ∀ call ∈ (match env.GetSnapshotUsage i info.Name with
      | .error err => ((.error err : Except GoError (Usage × Nat)), [ProbeCall.GetSnapshotUsage info.Name])
      | .ok usage => (.ok (usage, 0), [.GetSnapshotUsage info.Name])).2,
      call.forKey k = false := by
    intro call hc
    cases hu : env.GetSnapshotUsage i info.Name with
    | error e => simp [hu] at hc; subst hc; simp [ProbeCall.forKey, hne]
    | ok u => simp [hu] at hc; subst hc; simp [ProbeCall.forKey, hne]
  intro call hc
  unfold fetchUsage at hc
  split at hc
  · split at hc
    · apply hf call
      cases hfo : FetchActiveOverlaySnapshotDiskUsage env i info.Name with
      | mk r calls =>
        rw [hfo] at hc
        cases r with
        | error e => simpa using hc
        | ok u => simpa using hc
    · exact hg call hc
  · exact hg call hc

/-- An iteration for another name logs no call about `k`. -/
theorem syncEntry_calls_of_ne (env : SyncEnv) (i : Nat) (st : SyncState) (info : Info)
    (k : String) (hne : info.Name ≠ k) :
    ∀ call ∈ (syncEntry env i st info).calls, call ∈ st.calls ∨ call.forKey k = false := by
  intro call hc
  unfold syncEntry at hc
  cases hr : refreshOnly st.store info with
  | some sn => rw [hr] at hc; exact Or.inl hc
  | none =>
    rw [hr] at hc
    cases hfu : fetchUsage env i info with
    | mk r calls =>
      have hcalls := fetchUsage_calls env i info k hne
      rw [hfu] at hc hcalls
      cases r with
      | error e =>
        rcases List.mem_append.1 hc with h | h
        · exact Or.inl h
        · exact Or.inr (hcalls call h)
      | ok u =>
        rcases List.mem_append.1 hc with h | h
        · exact Or.inl h
        · exact Or.inr (hcalls call h)

/-- The refresh-only iteration: the stored snapshot is filed again with the new clock reading,
nothing else changes and nothing is logged. -/
theorem syncEntry_of_refreshOnly (env : SyncEnv) (i : Nat) (st : SyncState) (info : Info)
    (sn : Snapshot) (hget : st.store.Get info.Name = .ok sn) (hkind : sn.Kind = info.Kind)
    (hactive : sn.Kind ≠ .KindActive) :
    syncEntry env i st info =
      { st with store := st.store.Add { sn with Timestamp := env.now i } } := by
  have hr : refreshOnly st.store info = some sn := by
    unfold refreshOnly
    rw [hget]
    exact if_pos ⟨hkind, hactive⟩
  simp only [syncEntry, hr]

theorem syncLoop_append (env : SyncEnv) (l1 l2 : List Info) :
    ∀ (i : Nat) (st : SyncState),
      syncLoop env i (l1 ++ l2) st = syncLoop env (i + l1.length) l2 (syncLoop env i l1 st) := by
  induction l1 with
  | nil => intro i st; rfl
  | cons a l1 ih =>
    intro i st
    show syncLoop env (i + 1) (l1 ++ l2) (syncEntry env i st a) = _
    rw [ih]
    simp only [List.length_cons, syncLoop]
    rw [show i + 1 + l1.length = i + (l1.length + 1) by omega]

/-- The first loop over a catalog whose entries of key `k` all have the kind of the stored
snapshot of `k`, which is not active: the snapshot keeps every field but its stamp, the stamp
is the start value or the reading of an iteration for `k`, and no call about `k` is logged. -/
theorem syncLoop_refreshOnly (env : SyncEnv) (k : String) (sn : Snapshot)
    (hactive : sn.Kind ≠ .KindActive) (infos : List Info) :
    ∀ (i : Nat) (st : SyncState) (ts : Int), st.store.WellFormed →
      st.store.Get k = .ok { sn with Timestamp := ts } →
      (∀ info ∈ infos, info.Name = k → info.Kind = sn.Kind) →
      (syncLoop env i infos st).store.WellFormed ∧
      (∀ call ∈ (syncLoop env i infos st).calls, call ∈ st.calls ∨ call.forKey k = false) ∧
      (((∀ info ∈ infos, info.Name ≠ k) ∧
          (syncLoop env i infos st).store.Get k = .ok { sn with Timestamp := ts }) ∨
        ∃ j info, infos.get? j = some info ∧ info.Name = k ∧
          (syncLoop env i infos st).store.Get k =
            .ok { sn with Timestamp := env.now (i + j) }) := by
  induction infos with
  | nil =>
    intro i st ts hwf hget _
    exact ⟨hwf, fun call hc => Or.inl hc, Or.inl ⟨fun _ h => absurd h (List.not_mem_nil _), hget⟩⟩
  | cons a infos ih =>
    intro i st ts hwf hget hkind
    have hkind1 : ∀ info ∈ infos, info.Name = k → info.Kind = sn.Kind :=
      fun info hm => hkind info (List.mem_cons_of_mem _ hm)
    have hwf1 := syncEntry_WellFormed env i st a hwf
    by_cases ha : a.Name = k
    · have hstep := syncEntry_of_refreshOnly env i st a { sn with Timestamp := ts }
        (ha ▸ hget) (hkind a (List.mem_cons_self _ _) ha).symm hactive
      have hkey : sn.Key = k := by
        have := hwf.2 _ (mem_of_Get _ _ _ hget)
        exact this
      have hget1 : (syncEntry env i st a).store.Get k =
          .ok { sn with Timestamp := env.now i } := by
        rw [hstep, ← hkey]
        exact Get_Add_self st.store { sn with Timestamp := env.now i }
      obtain ⟨hwf2, hcalls, hres⟩ := ih (i + 1) _ (env.now i) hwf1 hget1 hkind1
      refine ⟨hwf2, ?_, Or.inr ?_⟩
      · intro call hc
        rcases hcalls call hc with h | h
        · rw [hstep] at h; exact Or.inl h
        · exact Or.inr h
      · rcases hres with ⟨_, hg⟩ | ⟨j, info, hj, hn, hg⟩
        · exact ⟨0, a, rfl, ha, by simpa using hg⟩
        · exact ⟨j + 1, info, by simpa using hj, hn,
            by rw [show i + (j + 1) = i + 1 + j by omega]; exact hg⟩
    · have hget1 : (syncEntry env i st a).store.Get k = .ok { sn with Timestamp := ts } := by
        rw [syncEntry_Get_of_ne env i st a k hwf ha]; exact hget
      obtain ⟨hwf2, hcalls, hres⟩ := ih (i + 1) _ ts hwf1 hget1 hkind1
      refine ⟨hwf2, ?_, ?_⟩
      · intro call hc
        rcases hcalls call hc with h | h
        · exact syncEntry_calls_of_ne env i st a k ha call h
        · exact Or.inr h
      · rcases hres with ⟨hno, hg⟩ | ⟨j, info, hj, hn, hg⟩
        · refine Or.inl ⟨?_, hg⟩
          intro info hm
          rcases List.mem_cons.1 hm with h | h
          · subst h; exact ha
          · exact hno info h
        · exact Or.inr ⟨j + 1, info, by simpa using hj, hn,
            by rw [show i + (j + 1) = i + 1 + j by omega]; exact hg⟩

/-- C24, as stated, fails. The committed snapshot `k2` is stored and in the catalog, but the
clock reading taken for it equals the reading taken at the start of the pass: the refreshed
entry is not newer than the start, and the eviction loop of the same pass deletes it. -/
theorem C24_counterexample :
    exampleStore.WellFormed ∧
    exampleStore.Get "k2" = .ok ⟨"k2", .KindCommitted, 2048, 5, 0, 50⟩ ∧
    exampleSyncEnvStill.WalkSnapshot = ([⟨"k2", .KindCommitted⟩], none) ∧
    exampleSyncEnvStill.start = 100 ∧ exampleSyncEnvStill.now 0 = 100 ∧
    (Sync exampleSyncEnvStill exampleStore).1 = none ∧
    (Sync exampleSyncEnvStill exampleStore).2.store.Get "k2" =
      .error (.wrapf .ErrNotfound "snapshot k2") :=
  ⟨by decide, rfl, rfl, rfl, rfl, rfl, rfl⟩

/-- C24, amended. Let the store (a map filled through `Add`) hold under key `k` a snapshot
whose kind is not active, let the catalog walk succeed and contain `k`, and let every catalog
entry of `k` have the kind of the stored snapshot (in a catalog that lists a key once: let the
entry of `k` have it). Then the pass returns nil, logs no usage query and no container lookup
of the in-namespace probe for `k`, and the iteration of an entry of `k` logs no call at all.
When the clock reading taken for each entry of `k` is later than the reading taken at the
start of the pass, the pass leaves under `k` the stored snapshot with a new `Timestamp` (the
reading taken for an entry of `k`) and the `Key`, `Kind`, `Size`, `Inodes` and `UsagePercent`
it had. When the reading taken for each entry of `k` is not later than the start reading, the
eviction loop of the same pass deletes the entry: `Get(k)` returns the not-found error. -/
theorem C24_refresh_only_changes_timestamp (env : SyncEnv) (store : SnapshotStore)
    (infos : List Info) (k : String) (sn : Snapshot) (hwf : store.WellFormed)
    (hwalk : env.WalkSnapshot = (infos, none)) (hk : k ∈ infos.map Info.Name)
    (hget : store.Get k = .ok sn) (hactive : sn.Kind ≠ .KindActive)
    (hkind : ∀ info ∈ infos, info.Name = k → info.Kind = sn.Kind) :
    (Sync env store).1 = none ∧
    ((∀ i info, infos.get? i = some info → info.Name = k → env.start < env.now i) →
      ∃ i info, infos.get? i = some info ∧ info.Name = k ∧
        (Sync env store).2.store.Get k = .ok { sn with Timestamp := env.now i }) ∧
    ((∀ i info, infos.get? i = some info → info.Name = k → env.now i ≤ env.start) →
      (Sync env store).2.store.Get k = .error (.wrapf .ErrNotfound ("snapshot " ++ k))) ∧
    (∀ call ∈ (Sync env store).2.calls, call.forKey k = false) ∧
    (∀ i info, infos.get? i = some info → info.Name = k →
      (syncLoop env 0 (infos.take (i + 1)) { store := store, calls := [] }).calls =
        (syncLoop env 0 (infos.take i) { store := store, calls := [] }).calls) := by
  obtain ⟨hwf1, hcalls, hres⟩ :=
    syncLoop_refreshOnly env k sn hactive infos 0 { store := store, calls := [] } sn.Timestamp
      hwf hget hkind
  have herr : (Sync env store).1 = none := by
    simp only [Sync, hwalk]
  have hstore : (Sync env store).2.store = evictLoop env.start
      (syncLoop env 0 infos { store := store, calls := [] }).store.List
      (syncLoop env 0 infos { store := store, calls := [] }).store := by
    simp only [Sync, hwalk]
  have hlog : (Sync env store).2.calls =
      (syncLoop env 0 infos { store := store, calls := [] }).calls := by
    simp only [Sync, hwalk]
  have hlast : ∃ j info, infos.get? j = some info ∧ info.Name = k ∧
      (syncLoop env 0 infos { store := store, calls := [] }).store.Get k =
        .ok { sn with Timestamp := env.now j } := by
    rcases hres with ⟨hno, _⟩ | ⟨j, info, hj, hn, hg⟩
    · obtain ⟨info, hm, hname⟩ := List.mem_map.1 hk
      exact absurd hname (hno info hm)
    · rw [Nat.zero_add] at hg
      exact ⟨j, info, hj, hn, hg⟩
  have hkey : sn.Key = k := hwf.2 _ (mem_of_Get _ _ _ hget)
  rw [hstore, hlog]
  refine ⟨herr, ?_, ?_, ?_, ?_⟩
  · intro hclock
    obtain ⟨j, info, hj, hn, hg⟩ := hlast
    refine ⟨j, info, hj, hn, ?_⟩
    rw [evictLoop_Get env.start k _ _ ?_]
    · exact hg
    · intro sn1 hm hstale hkey1
      have h1 := ((List_of_WellFormed _ hwf1).2 sn1).1 hm
      rw [hkey1, hg] at h1
      injection h1 with h1
      apply hstale
      rw [← h1]
      exact hclock j info hj hn
  · intro hstill
    obtain ⟨j, info, hj, hn, hg⟩ := hlast
    have hlisted : ({ sn with Timestamp := env.now j } : Snapshot) ∈
        (syncLoop env 0 infos { store := store, calls := [] }).store.List := by
      apply ((List_of_WellFormed _ hwf1).2 _).2
      have hg1 := hg
      rw [← hkey] at hg1
      exact hg1
    cases hafter : (evictLoop env.start
        (syncLoop env 0 infos { store := store, calls := [] }).store.List
        (syncLoop env 0 infos { store := store, calls := [] }).store).Get k with
    | error e => rw [Get_error_eq _ _ _ hafter]
    | ok sn2 =>
      have hm := mem_of_Get _ _ _ hafter
      have hne := (mem_evictLoop env.start (k, sn2) _ _ hm).2 _ hlisted
        (fun hgt => absurd (hstill j info hj hn) (not_le.2 hgt))
      exact absurd hkey hne
  · intro call hc
    rcases hcalls call hc with h | h
    · cases h
    · exact h
  · intro i info hi hn
    have hlt : i < infos.length := by
      by_contra hge
      rw [List.get?_eq_none.2 (by omega)] at hi
      cases hi
    have htake : infos.take (i + 1) = infos.take i ++ [info] := by
      rw [List.take_succ, ← List.get?_eq_getElem?, hi]; rfl
    have hkind2 : ∀ info ∈ infos.take i, info.Name = k → info.Kind = sn.Kind :=
      fun info hm => hkind info (List.mem_of_mem_take hm)
    obtain ⟨hwf2, _, hres2⟩ :=
      syncLoop_refreshOnly env k sn hactive (infos.take i) 0 { store := store, calls := [] }
        sn.Timestamp hwf hget hkind2
    have hmem : info ∈ infos := List.get?_mem hi
    rw [htake, syncLoop_append]
    show (syncEntry env _ _ info).calls = _
    have hts : ∃ ts, (syncLoop env 0 (infos.take i) { store := store, calls := [] }).store.Get
        info.Name = .ok { sn with Timestamp := ts } := by
      rw [hn]
      rcases hres2 with ⟨_, hg⟩ | ⟨j, _, _, _, hg⟩
      · exact ⟨_, hg⟩
      · exact ⟨_, hg⟩
    obtain ⟨ts, hts⟩ := hts
    rw [syncEntry_of_refreshOnly env _ _ info { sn with Timestamp := ts } hts
      (hkind info hmem hn).symm hactive]

/-- C24 (amended) on the store of the examples. A pass over the catalog of the committed
snapshot `k2` and the active snapshot `k1`, with readings later than the start: `k2` keeps its
fields and is stamped `200`, and the only calls are those of the probe for `k1`. A pass over
the catalog of `k2` whose clock stands still: `k2` is deleted. -/
theorem C24_refresh_only_changes_timestamp_witness :
    (Sync exampleSyncEnvBoth exampleStore).2.store.Get "k2" =
      .ok ⟨"k2", .KindCommitted, 2048, 5, 0, 200⟩ ∧
    (∃ i info, ([⟨"k2", .KindCommitted⟩, ⟨"k1", .KindActive⟩] : List Info).get? i = some info ∧
      info.Name = "k2" ∧
      (Sync exampleSyncEnvBoth exampleStore).2.store.Get "k2" =
        .ok { (⟨"k2", .KindCommitted, 2048, 5, 0, 50⟩ : Snapshot) with
              Timestamp := exampleSyncEnvBoth.now i }) ∧
    (Sync exampleSyncEnvBoth exampleStore).2.calls =
      [.ContainerPID "k1", .ContainerStatus "k1", .doDiskUsageByNsenter 4242] ∧
    (∀ call ∈ (Sync exampleSyncEnvBoth exampleStore).2.calls, call.forKey "k2" = false) ∧
    (Sync exampleSyncEnvStill exampleStore).2.store.Get "k2" =
      .error (.wrapf .ErrNotfound ("snapshot " ++ "k2")) :=
  ⟨rfl,
    (C24_refresh_only_changes_timestamp exampleSyncEnvBoth exampleStore
      [⟨"k2", .KindCommitted⟩, ⟨"k1", .KindActive⟩] "k2" ⟨"k2", .KindCommitted, 2048, 5, 0, 50⟩
      (by decide) rfl (by decide) rfl (by decide) (by decide)).2.1
      (fun _ _ _ _ => show (100 : Int) < 200 by decide),
    rfl,
    (C24_refresh_only_changes_timestamp exampleSyncEnvBoth exampleStore
      [⟨"k2", .KindCommitted⟩, ⟨"k1", .KindActive⟩] "k2" ⟨"k2", .KindCommitted, 2048, 5, 0, 50⟩
      (by decide) rfl (by decide) rfl (by decide) (by decide)).2.2.2.1,
    (C24_refresh_only_changes_timestamp exampleSyncEnvStill exampleStore
      [⟨"k2", .KindCommitted⟩] "k2" ⟨"k2", .KindCommitted, 2048, 5, 0, 50⟩
      (by decide) rfl (by decide) rfl (by decide) (by decide)).2.2.1
      (fun _ _ _ _ => show (100 : Int) ≤ 100 by decide)⟩

/-! ### Theorems on the container plugin helpers -/

theorem foldl_append_singleton {α β : Type} (f : α → β) (l : List α) :
    ∀ acc : List β, l.foldl (fun res a => res ++ [f a]) acc = acc ++ l.map f := by
  induction l with
  | nil => intro acc; simp
  | cons a l ih => intro acc; simp [ih]

/-- The key set built by the first loop of `UniqueStringSlice`, started from any map without
repeated keys: no key twice, and the keys are those of the start map and the list. -/
theorem uniqueKeySet_fold (s : List String) :
    ∀ h : List (String × Unit), (h.map Prod.fst).Nodup →
      ((s.foldl (fun h x => goMapSet h x ()) h).map Prod.fst).Nodup ∧
      ∀ x, x ∈ (s.foldl (fun h x => goMapSet h x ()) h).map Prod.fst ↔
        x ∈ h.map Prod.fst ∨ x ∈ s := by
  induction s with
  | nil => intro h hnd; exact ⟨hnd, fun x => by simp⟩
  | cons a s ih =>
    intro h hnd
    have hnd1 : ((goMapSet h a ()).map Prod.fst).Nodup := by
      simp only [goMapSet, List.map_cons, List.nodup_cons]
      refine ⟨?_, hnd.sublist ((List.filter_sublist _).map _)⟩
      intro hm
      obtain ⟨kv, hkv, hk⟩ := List.mem_map.1 hm
      have := (List.mem_filter.1 hkv).2
      simp [hk] at this
    obtain ⟨h1, h2⟩ := ih (goMapSet h a ()) hnd1
    refine ⟨h1, fun x => ?_⟩
    rw [List.foldl_cons, h2 x]
    simp only [goMapSet, List.map_cons, List.mem_cons, List.mem_map, List.mem_filter]
    constructor
    · rintro ((hx | ⟨kv, ⟨hkv, _⟩, hk⟩) | hx)
      · exact Or.inr (Or.inl hx)
      · exact Or.inl ⟨kv, hkv, hk⟩
      · exact Or.inr (Or.inr hx)
    · rintro (⟨kv, hkv, hk⟩ | hx | hx)
      · by_cases hxa : x = a
        · exact Or.inl (Or.inl hxa)
        · refine Or.inl (Or.inr ⟨kv, ⟨hkv, ?_⟩, hk⟩)
          simp [hk, hxa]
      · exact Or.inl (Or.inl hx)
      · exact Or.inr hx

theorem UniqueStringSlice_spec (s : List String) :
    (UniqueStringSlice s).Nodup ∧ ∀ x, x ∈ UniqueStringSlice s ↔ x ∈ s := by
  have h := uniqueKeySet_fold s [] List.nodup_nil
  have hk : UniqueStringSlice s = (uniqueKeySet s).map Prod.fst := by
    simp [UniqueStringSlice, foldl_append_singleton]
  rw [hk]
  exact ⟨h.1, fun x => by simpa using h.2 x⟩

/-- C25. Whatever the order in which Go ranges over the map (`res` is any reordering of the
modelled result), the list `UniqueStringSlice(s)` returns holds no element twice, holds exactly
the elements of `s`, is a reordering of the distinct elements of `s`, and so has as many
elements as `s` has distinct ones. -/
theorem C25_UniqueStringSlice_distinct (s res : List String)
    (hperm : res.Perm (UniqueStringSlice s)) :
    res.Nodup ∧ (∀ x, x ∈ res ↔ x ∈ s) ∧ res.Perm s.dedup ∧ res.length = s.dedup.length := by
  obtain ⟨hnd, hmem⟩ := UniqueStringSlice_spec s
  have h1 : res.Nodup := hperm.nodup_iff.2 hnd
  have h2 : ∀ x, x ∈ res ↔ x ∈ s := fun x => (hperm.mem_iff).trans (hmem x)
  have h3 : res.Perm s.dedup :=
    (List.perm_ext_iff_of_nodup h1 (List.nodup_dedup s)).2
      (fun x => (h2 x).trans List.mem_dedup.symm)
  exact ⟨h1, h2, h3, h3.length_eq⟩

/-- C25 on the list of the test: the result is a reordering of `1`, `2`, `3`. -/
theorem C25_UniqueStringSlice_distinct_witness :
    (UniqueStringSlice ["3", "1", "2", "1", "2"]).Perm ["1", "2", "3"] ∧
    (UniqueStringSlice ["3", "1", "2", "1", "2"]).length = 3 :=
  ⟨((C25_UniqueStringSlice_distinct ["3", "1", "2", "1", "2"]
      (UniqueStringSlice ["3", "1", "2", "1", "2"]) (List.Perm.refl _)).2.2.1).trans
      (by decide),
    by decide⟩

/-- The Go library function `strings.Contains` holds exactly when the text splits around an
occurrence of the substring. -/
theorem stringsContains_iff (s substr : String) :
    stringsContains s substr = true ↔ ∃ pre post, s.data = pre ++ substr.data ++ post := by
  simp only [stringsContains, List.any_eq_true, List.mem_tails]
  constructor
  · rintro ⟨tail, htail, hpre⟩
    obtain ⟨pre, hpre1⟩ := htail
    obtain ⟨post, hpost⟩ := List.isPrefixOf_iff_prefix.1 hpre
    exact ⟨pre, post, by rw [← hpre1, ← hpost, List.append_assoc]⟩
  · rintro ⟨pre, post, h⟩
    refine ⟨substr.data ++ post, ⟨pre, by rw [h, List.append_assoc]⟩, ?_⟩
    exact List.isPrefixOf_iff_prefix.2 ⟨post, rfl⟩

/-- C26. `addEnvironment` returns the entries of `env` in which none of the three marker texts
occurs, in their order, followed by the image entry, the id entry and the runtime entry; on the
empty list it returns these three entries. -/
theorem C26_addEnvironment_result (image id runtime : String) (env : List String) :
    addEnvironment image id runtime env =
      env.filter (fun v =>
          !(stringsContains v "pouch_container_image=" ||
            stringsContains v "pouch_container_id=" ||
            stringsContains v "ali_runtime_type")) ++
        ["pouch_container_image=" ++ image, "pouch_container_id=" ++ id,
          "ali_runtime_type=" ++ runtime] ∧
    addEnvironment image id runtime [] =
      ["pouch_container_image=" ++ image, "pouch_container_id=" ++ id,
        "ali_runtime_type=" ++ runtime] ∧
    (∀ v, v ∈ env.filter (fun v =>
          !(stringsContains v "pouch_container_image=" ||
            stringsContains v "pouch_container_id=" ||
            stringsContains v "ali_runtime_type")) ↔
        v ∈ env ∧
        (¬ ∃ pre post, v.data = pre ++ "pouch_container_image=".data ++ post) ∧
        (¬ ∃ pre post, v.data = pre ++ "pouch_container_id=".data ++ post) ∧
        ¬ ∃ pre post, v.data = pre ++ "ali_runtime_type".data ++ post) := by
  have hfold : ∀ (l acc : List String),
      l.foldl
        (fun res v =>
          if stringsContains v "pouch_container_image=" ||
              stringsContains v "pouch_container_id=" ||
              stringsContains v "ali_runtime_type" then res
          else res ++ [v]) acc =
      acc ++ l.filter (fun v =>
          !(stringsContains v "pouch_container_image=" ||
            stringsContains v "pouch_container_id=" ||
            stringsContains v "ali_runtime_type")) := by
    intro l
    induction l with
    | nil => intro acc; simp
    | cons a l ih =>
      intro acc
      rw [List.foldl_cons, ih, List.filter_cons]
      by_cases ha : (stringsContains a "pouch_container_image=" ||
          stringsContains a "pouch_container_id=" ||
          stringsContains a "ali_runtime_type") = true
      · simp only [ha, if_true, Bool.not_true, Bool.false_eq_true, if_false]
      · simp only [ha, if_false, Bool.not_eq_true] at ha ⊢
        simp only [ha, Bool.not_false, if_true, Bool.false_eq_true, if_false,
          List.append_assoc, List.singleton_append]
  refine ⟨?_, rfl, fun v => ?_⟩
  · simp only [addEnvironment, hfold, List.nil_append, List.append_assoc, List.singleton_append]
  · rw [List.mem_filter, ← stringsContains_iff, ← stringsContains_iff, ← stringsContains_iff]
    simp only [Bool.not_eq_true', Bool.or_eq_false_iff, Bool.not_eq_true, and_assoc]

/-- C29, failing input. The size table holds the patterns `.*` and `/`, which both match `/`,
with the sizes `10g` and `20g`. A run that ranges over the map with `.*` first applies `10g`
to the upper directory, a run that meets `/` first applies `20g`: the size depends on the order
in which Go happens to range over the map. -/
theorem C29_size_depends_on_map_order :
    [(".*", "10g"), ("/", "20g")].Perm [("/", "20g"), (".*", "10g")] ∧
    FixContainerRootfsQuota 16777216 (exampleRepairHost 0 none)
        (repairContainer "16777217" [(".*", "10g"), ("/", "20g")] "/upper") (-1) =
      (none, [.GetQuotaIDInFileAttr "/upper", .SetDiskQuota "/upper" "10g" 16777217,
        .SetFileAttrRecursive "/upper" 16777217]) ∧
    FixContainerRootfsQuota 16777216 (exampleRepairHost 0 none)
        (repairContainer "16777217" [("/", "20g"), (".*", "10g")] "/upper") (-1) =
      (none, [.GetQuotaIDInFileAttr "/upper", .SetDiskQuota "/upper" "20g" 16777217,
        .SetFileAttrRecursive "/upper" 16777217]) ∧
    (FixContainerVolumesQuota 16777216 (exampleRepairHost 0 none)
        (repairContainer "16777217" [(".*", "10g"), ("/", "20g")] "/upper") (-1)).1 =
      some (.errorf "failed to fix container quota with DiskQuota") := by
  refine ⟨by decide, by decide, by decide, by decide⟩

/-- C30, failing input. The explicit id `4294967296` (2^32) passes the validation against the
minimum `16777216` and is not `0`, but its conversion to 32 bits is `0`: both repair operations
hand the quota id `0` to `SetDiskQuota` and `SetFileAttrRecursive`. With `4294967297` they
hand over `1`, an id below the minimum. -/
theorem C30_fixedQuota_truncated :
    ¬ ((4294967296 : Int) ≠ -1 ∧ (4294967296 : Int) < ((16777216 : Nat) : Int)) ∧
    FixContainerRootfsQuota 16777216 (exampleRepairHost 0 none)
        (repairContainer "16777217" [(".*", "10g")] "/upper") 4294967296 =
      (none, [.GetQuotaIDInFileAttr "/upper", .SetDiskQuota "/upper" "10g" 0,
        .SetFileAttrRecursive "/upper" 0]) ∧
    FixContainerVolumesQuota 16777216 (exampleRepairHost 0 none)
        (repairContainer "16777217" [(".*", "10g")] "/upper") 4294967296 =
      (none, [.SetDiskQuota "/data/vol1" "10g" 0, .SetFileAttrRecursive "/data/vol1" 0]) ∧
    FixContainerRootfsQuota 16777216 (exampleRepairHost 0 none)
        (repairContainer "16777217" [(".*", "10g")] "/upper") 4294967297 =
      (none, [.GetQuotaIDInFileAttr "/upper", .SetDiskQuota "/upper" "10g" 1,
        .SetFileAttrRecursive "/upper" 1]) ∧
    FixContainerVolumesQuota 16777216 (exampleRepairHost 0 none)
        (repairContainer "16777217" [(".*", "10g")] "/upper") 4294967297 =
      (none, [.SetDiskQuota "/data/vol1" "10g" 1, .SetFileAttrRecursive "/data/vol1" 1]) := by
  refine ⟨by decide, by decide, by decide, by decide, by decide⟩

/-! ### Theorems on `mergeContainerMount` -/

theorem trySetupNetworkMount_fst (mp : MountPoint) (c : Container) :
    (trySetupNetworkMount mp c).1 = isNetworkFile mp.Destination := by
  unfold trySetupNetworkMount isNetworkFile
  by_cases h1 : mp.Destination = "/etc/hostname"
  · simp [h1]
  by_cases h2 : mp.Destination = "/etc/hosts"
  · simp [h2]
  by_cases h3 : mp.Destination = "/etc/resolv.conf"
  · simp [h3]
  simp [h1, h2, h3]

theorem trySetupNetworkMount_Config (mp : MountPoint) (c : Container) :
    (trySetupNetworkMount mp c).2.Config = c.Config := by
  unfold trySetupNetworkMount
  split_ifs <;> rfl

/-- A successful iteration leaves the configuration of the container. -/
theorem mergeMountPoint_Config (st st1 : MergeState) (mp : MountPoint)
    (h : mergeMountPoint st mp = .ok st1) : st1.c.Config = st.c.Config := by
  have hc := trySetupNetworkMount_Config mp st.c
  unfold mergeMountPoint at h
  cases htry : trySetupNetworkMount mp st.c with
  | mk b c =>
    rw [htry] at h hc
    cases b with
    | true =>
      injection h with h
      rw [← h]; exact hc
    | false =>
      simp only at h
      split at h
      · cases h
      · injection h with h
        rw [← h]; exact hc

theorem mergeLoop_Config (mps : List MountPoint) :
    ∀ st : MergeState, (mergeLoop mps st).2.c.Config = st.c.Config := by
  induction mps with
  | nil => intro st; rfl
  | cons a mps ih =>
    intro st
    cases hstep : mergeMountPoint st a with
    | error e => simp only [mergeLoop, hstep]
    | ok st1 =>
      simp only [mergeLoop, hstep]
      rw [ih st1, mergeMountPoint_Config st st1 a hstep]

/-- What one iteration of the loop does to the mount list. -/
theorem mergeMountPoint_cases (st : MergeState) (mp : MountPoint) :
    (isNetworkFile mp.Destination = true ∧
      ∃ st1, mergeMountPoint st mp = .ok st1 ∧ st1.mounts = st.mounts) ∨
    (isNetworkFile mp.Destination = false ∧
      mp.Destination ∈ st.mounts.map Mount.Destination ∧
      mergeMountPoint st mp = .error (.errorf ("duplicate mount point: " ++ mp.Destination))) ∨
    (isNetworkFile mp.Destination = false ∧
      mp.Destination ∉ st.mounts.map Mount.Destination ∧
      ∃ st1 m, mergeMountPoint st mp = .ok st1 ∧ st1.mounts = st.mounts ++ [m] ∧
        m.Destination = mp.Destination) := by
  have hfst := trySetupNetworkMount_fst mp st.c
  unfold mergeMountPoint
  cases htry : trySetupNetworkMount mp st.c with
  | mk b c =>
    rw [htry] at hfst
    cases b with
    | true => exact Or.inl ⟨hfst.symm, _, rfl, rfl⟩
    | false =>
      right
      by_cases hdup : st.mounts.any (fun sm => sm.Destination = mp.Destination) = true
      · left
        refine ⟨hfst.symm, ?_, ?_⟩
        · obtain ⟨sm, hsm, heq⟩ := List.any_eq_true.1 hdup
          exact List.mem_map.2 ⟨sm, hsm, by simpa using heq⟩
        · simp only [hdup, if_true]
      · right
        refine ⟨hfst.symm, ?_, ?_⟩
        · intro hm
          obtain ⟨sm, hsm, heq⟩ := List.mem_map.1 hm
          exact hdup (List.any_eq_true.2 ⟨sm, hsm, by simpa using heq⟩)
        · simp only [hdup, if_false]
          exact ⟨_, _, rfl, rfl, rfl⟩

/-- The loop fails exactly on a duplicate destination, then with the duplicate-mount-point
error; when it succeeds from a list of distinct destinations it ends with one. -/
theorem mergeLoop_spec (mps : List MountPoint) :
    ∀ st : MergeState,
      ((∃ err, (mergeLoop mps st).1 = some err) ↔ HasDuplicateDestination st.mounts mps) ∧
      (∀ err, (mergeLoop mps st).1 = some err →
        ∃ mp ∈ mps, err = .errorf ("duplicate mount point: " ++ mp.Destination)) ∧
      ((mergeLoop mps st).1 = none → (st.mounts.map Mount.Destination).Nodup →
        ((mergeLoop mps st).2.mounts.map Mount.Destination).Nodup) := by
  induction mps with
  | nil =>
    intro st
    refine ⟨⟨?_, ?_⟩, ?_, fun _ hnd => hnd⟩
    · rintro ⟨err, h⟩
      cases h
    · rintro ⟨pre, mp, post, h, _⟩
      exact absurd h (by simp)
    · intro err h
      cases h
  | cons a mps ih =>
    intro st
    rcases mergeMountPoint_cases st a with ⟨hnet, st1, hstep, hm⟩ | ⟨hnet, hin, hstep⟩ |
      ⟨hnet, hnotin, st1, m, hstep, hm, hdest⟩
    · -- a network file: skipped
      have hloop : mergeLoop (a :: mps) st = mergeLoop mps st1 := by
        simp only [mergeLoop, hstep]
      obtain ⟨h1, h2, h3⟩ := ih st1
      rw [hloop]
      refine ⟨h1.trans ?_, ?_, ?_⟩
      · rw [hm]
        constructor
        · rintro ⟨pre, mp, post, hmps, hn, hd⟩
          refine ⟨a :: pre, mp, post, by rw [hmps]; rfl, hn, ?_⟩
          rcases hd with hd | ⟨mp1, hmp1, hn1, hd1⟩
          · exact Or.inl hd
          · exact Or.inr ⟨mp1, List.mem_cons_of_mem _ hmp1, hn1, hd1⟩
        · rintro ⟨pre, mp, post, hmps, hn, hd⟩
          cases pre with
          | nil =>
            simp only [List.nil_append, List.cons.injEq] at hmps
            rw [← hmps.1, hnet] at hn
            cases hn
          | cons b pre =>
            simp only [List.cons_append, List.cons.injEq] at hmps
            refine ⟨pre, mp, post, hmps.2, hn, ?_⟩
            rcases hd with hd | ⟨mp1, hmp1, hn1, hd1⟩
            · exact Or.inl hd
            · rcases List.mem_cons.1 hmp1 with hb | hb
              · rw [hb, ← hmps.1, hnet] at hn1
                cases hn1
              · exact Or.inr ⟨mp1, hb, hn1, hd1⟩
      · intro err herr
        obtain ⟨mp, hmp, he⟩ := h2 err herr
        exact ⟨mp, List.mem_cons_of_mem _ hmp, he⟩
      · intro hnone hnd
        exact h3 hnone (hm ▸ hnd)
    · -- a duplicate: the loop returns the error
      have hloop : mergeLoop (a :: mps) st =
          (some (.errorf ("duplicate mount point: " ++ a.Destination)), st) := by
        simp only [mergeLoop, hstep]
      rw [hloop]
      refine ⟨⟨fun _ => ⟨[], a, mps, rfl, hnet, Or.inl hin⟩, fun _ => ⟨_, rfl⟩⟩, ?_, ?_⟩
      · intro err herr
        injection herr with herr
        exact ⟨a, List.mem_cons_self _ _, herr.symm⟩
      · intro h; cases h
    · -- a new destination: appended
      have hloop : mergeLoop (a :: mps) st = mergeLoop mps st1 := by
        simp only [mergeLoop, hstep]
      obtain ⟨h1, h2, h3⟩ := ih st1
      have hdests : st1.mounts.map Mount.Destination =
          st.mounts.map Mount.Destination ++ [a.Destination] := by
        rw [hm, List.map_append, List.map_singleton, hdest]
      rw [hloop]
      refine ⟨h1.trans ?_, ?_, ?_⟩
      · rw [HasDuplicateDestination, HasDuplicateDestination, hdests]
        constructor
        · rintro ⟨pre, mp, post, hmps, hn, hd⟩
          refine ⟨a :: pre, mp, post, by rw [hmps]; rfl, hn, ?_⟩
          rcases hd with hd | ⟨mp1, hmp1, hn1, hd1⟩
          · rcases List.mem_append.1 hd with hd | hd
            · exact Or.inl hd
            · exact Or.inr ⟨a, List.mem_cons_self _ _, hnet,
                (List.mem_singleton.1 hd).symm⟩
          · exact Or.inr ⟨mp1, List.mem_cons_of_mem _ hmp1, hn1, hd1⟩
        · rintro ⟨pre, mp, post, hmps, hn, hd⟩
          cases pre with
          | nil =>
            simp only [List.nil_append, List.cons.injEq] at hmps
            rcases hd with hd | ⟨mp1, hmp1, _⟩
            · rw [← hmps.1] at hd
              exact absurd hd hnotin
            · cases hmp1
          | cons b pre =>
            simp only [List.cons_append, List.cons.injEq] at hmps
            refine ⟨pre, mp, post, hmps.2, hn, ?_⟩
            rcases hd with hd | ⟨mp1, hmp1, hn1, hd1⟩
            · exact Or.inl (List.mem_append_left _ hd)
            · rcases List.mem_cons.1 hmp1 with hb | hb
              · left
                rw [← hd1, hb, hmps.1]
                exact List.mem_append_right _ (List.mem_singleton_self _)
              · exact Or.inr ⟨mp1, hb, hn1, hd1⟩
      · intro err herr
        obtain ⟨mp, hmp, he⟩ := h2 err herr
        exact ⟨mp, List.mem_cons_of_mem _ hmp, he⟩
      · intro hnone hnd
        apply h3 hnone
        rw [hdests]
        exact List.Nodup.append hnd (List.nodup_singleton _)
          (by
            intro x hx1 hx2
            rw [List.mem_singleton.1 hx2] at hx1
            exact hnotin hx1)

/-- C28. `mergeContainerMount` returns an error exactly when some mount of the container whose
destination is none of `/etc/hostname`, `/etc/hosts`, `/etc/resolv.conf` has the destination of
an entry of the initial list or of an earlier such mount of the container, and every error it
returns is the duplicate-mount-point error for a mount of the container. Consequently, when it
succeeds on an initial list with pairwise distinct destinations while the network files are
disabled, the destinations of the returned list are pairwise distinct. -/
theorem C28_mergeContainerMount_duplicate (statOK : String → Bool) (mounts : List Mount)
    (c : Container) (rootfsPropagation : String) :
    ((∃ err, (mergeContainerMount statOK mounts c rootfsPropagation).1 = .error err) ↔
      HasDuplicateDestination mounts c.Mounts) ∧
    (∀ err, (mergeContainerMount statOK mounts c rootfsPropagation).1 = .error err →
      ∃ mp ∈ c.Mounts, err = .errorf ("duplicate mount point: " ++ mp.Destination)) ∧
    (∀ merged, (mergeContainerMount statOK mounts c rootfsPropagation).1 = .ok merged →
      (mounts.map Mount.Destination).Nodup → c.Config.DisableNetworkFiles = true →
      (merged.map Mount.Destination).Nodup) := by
  obtain ⟨h1, h2, h3⟩ := mergeLoop_spec c.Mounts
    { mounts := mounts, c := c, RootfsPropagation := rootfsPropagation }
  have hcfg := mergeLoop_Config c.Mounts
    { mounts := mounts, c := c, RootfsPropagation := rootfsPropagation }
  unfold mergeContainerMount
  cases hloop : mergeLoop c.Mounts
      { mounts := mounts, c := c, RootfsPropagation := rootfsPropagation } with
  | mk e st =>
    rw [hloop] at h1 h2 h3 hcfg
    cases e with
    | some err =>
      refine ⟨⟨fun _ => h1.1 ⟨err, rfl⟩, fun _ => ⟨err, rfl⟩⟩, ?_, ?_⟩
      · intro err1 herr
        injection herr with herr
        exact h2 err1 (by rw [herr])
      · intro merged hm
        cases hm
    | none =>
      refine ⟨⟨?_, ?_⟩, ?_, ?_⟩
      · rintro ⟨err, herr⟩
        simp only at herr
        split at herr <;> cases herr
      · intro hdup
        obtain ⟨err, herr⟩ := h1.2 hdup
        cases herr
      · intro err herr
        simp only at herr
        split at herr <;> cases herr
      · intro merged hm hnd hdis
        have hdis1 : st.c.Config.DisableNetworkFiles = true := by
          rw [show st.c.Config = c.Config from hcfg]; exact hdis
        simp only [hdis1, Bool.not_true, Bool.false_eq_true, if_false] at hm
        injection hm with hm
        rw [← hm]
        exact h3 rfl hnd

/-- C28 on a container whose mounts go to `/data`, `/etc/hosts` and again `/data`, merged into
an initial list that holds `/proc`: the call returns the duplicate-mount-point error. -/
theorem C28_mergeContainerMount_duplicate_witness :
    (mergeContainerMount (fun _ => true) [⟨"/proc", "proc", "proc", []⟩]
      { (containerWithStatus "c1" StatusCreated) with
        Mounts := [{ Source := "/a", Destination := "/data" },
                   { Source := "/h", Destination := "/etc/hosts" },
                   { Source := "/b", Destination := "/data" }] } "").1 =
      .error (.errorf "duplicate mount point: /data") ∧
    ∃ err, (mergeContainerMount (fun _ => true) [⟨"/proc", "proc", "proc", []⟩]
      { (containerWithStatus "c1" StatusCreated) with
        Mounts := [{ Source := "/a", Destination := "/data" },
                   { Source := "/h", Destination := "/etc/hosts" },
                   { Source := "/b", Destination := "/data" }] } "").1 = .error err :=
  ⟨rfl,
    (C28_mergeContainerMount_duplicate (fun _ => true) [⟨"/proc", "proc", "proc", []⟩]
      { (containerWithStatus "c1" StatusCreated) with
        Mounts := [{ Source := "/a", Destination := "/data" },
                   { Source := "/h", Destination := "/etc/hosts" },
                   { Source := "/b", Destination := "/data" }] } "").1.2
      ⟨[{ Source := "/a", Destination := "/data" },
         { Source := "/h", Destination := "/etc/hosts" }],
        { Source := "/b", Destination := "/data" }, [], rfl, by decide,
        Or.inr ⟨{ Source := "/a", Destination := "/data" }, by decide, by decide, rfl⟩⟩⟩

/-! ### Theorems on the pattern matchers -/

theorem mem_reClass (p : Char → Bool) (l r : List Char) :
    r ∈ reClass p l ↔ ∃ c, p c = true ∧ l = c :: r := by
  cases l with
  | nil => simp [reClass]
  | cons c l =>
    by_cases hp : p c = true
    · simp only [reClass, hp, if_true, List.mem_singleton, List.cons.injEq]
      constructor
      · rintro rfl; exact ⟨c, hp, rfl, rfl⟩
      · rintro ⟨d, _, _, h⟩; exact h.symm
    · simp only [reClass, hp, Bool.false_eq_true, if_false, List.not_mem_nil, false_iff]
      rintro ⟨d, hd, h⟩
      simp only [List.cons.injEq] at h
      rw [← h.1] at hd
      exact hp hd

theorem mem_reChar (c : Char) (l r : List Char) : r ∈ reChar c l ↔ l = c :: r := by
  rw [reChar, mem_reClass]
  constructor
  · rintro ⟨d, hd, h⟩
    have : d = c := by simpa using hd
    rw [h, this]
  · intro h; exact ⟨c, by simp, h⟩

theorem mem_reSeq (a b : Matcher) (l r : List Char) :
    r ∈ reSeq a b l ↔ ∃ m, m ∈ a l ∧ r ∈ b m := by
  simp [reSeq, List.mem_flatMap]

theorem mem_reAlt (a b : Matcher) (l r : List Char) :
    r ∈ reAlt a b l ↔ r ∈ a l ∨ r ∈ b l := by
  simp [reAlt]

theorem mem_reOpt (a : Matcher) (l r : List Char) : r ∈ reOpt a l ↔ r ∈ a l ∨ r = l := by
  simp [reOpt]

theorem mem_reLit (s : String) (l r : List Char) : r ∈ reLit s l ↔ l = s.data ++ r := by
  unfold reLit
  by_cases h : s.data.isPrefixOf l = true
  · obtain ⟨t, ht⟩ := List.isPrefixOf_iff_prefix.1 h
    subst ht
    rw [if_pos h, List.drop_left, List.mem_singleton, List.append_cancel_left_eq]
    exact eq_comm
  · rw [if_neg h]
    simp only [List.not_mem_nil, false_iff]
    intro hl
    exact h (List.isPrefixOf_iff_prefix.2 ⟨r, hl.symm⟩)

theorem mem_reStarFuel_self (a : Matcher) (n : Nat) (l : List Char) : l ∈ reStarFuel a n l := by
  cases n <;> simp [reStarFuel]

theorem mem_reStarFuel_step (a : Matcher) (n : Nat) (l m r : List Char) (hm : m ∈ a l)
    (hr : r ∈ reStarFuel a n m) : r ∈ reStarFuel a (n + 1) l := by
  simp only [reStarFuel, List.mem_append, List.mem_flatMap]
  exact Or.inl ⟨m, hm, hr⟩

/-- A run of characters of a class is matched by the repetition of the class. -/
theorem reStarFuel_class (p : Char → Bool) (r : List Char) (w : List Char) :
    ∀ n, w.length ≤ n → (∀ c ∈ w, p c = true) → r ∈ reStarFuel (reClass p) n (w ++ r) := by
  induction w with
  | nil => intro n _ _; exact mem_reStarFuel_self _ _ _
  | cons c w ih =>
    intro n hn hw
    cases n with
    | zero => simp at hn
    | succ n =>
      refine mem_reStarFuel_step _ n _ (w ++ r) r ?_ ?_
      · exact (mem_reClass p _ _).2 ⟨c, hw c (List.mem_cons_self _ _), rfl⟩
      · exact ih n (by simpa using hn) (fun d hd => hw d (List.mem_cons_of_mem _ hd))

theorem reStar_class (p : Char → Bool) (w r : List Char) (hw : ∀ c ∈ w, p c = true) :
    r ∈ reStar (reClass p) (w ++ r) :=
  reStarFuel_class p r w _ (by simp) hw

theorem rePlus_class (p : Char → Bool) (w r : List Char) (hw : ∀ c ∈ w, p c = true)
    (hne : w ≠ []) : r ∈ rePlus (reClass p) (w ++ r) := by
  cases w with
  | nil => exact absurd rfl hne
  | cons c w =>
    rw [rePlus, mem_reSeq]
    exact ⟨w ++ r, (mem_reClass p _ _).2 ⟨c, hw c (List.mem_cons_self _ _), rfl⟩,
      reStar_class p w r (fun d hd => hw d (List.mem_cons_of_mem _ hd))⟩

theorem reDigit_iff (c : Char) : reDigit c = true ↔ 48 ≤ c.toNat ∧ c.toNat ≤ 57 := by
  simp [reDigit, charIn]

theorem charIn_iff (lo hi c : Char) :
    charIn lo hi c = true ↔ lo.toNat ≤ c.toNat ∧ c.toNat ≤ hi.toNat := by
  simp [charIn]

theorem char_eq_of_toNat (c d : Char) (h : c.toNat = d.toNat) : c = d := by
  apply Char.ext
  apply UInt32.ext
  exact h

/-- The octet pattern matches every decimal octet. -/
theorem octetPattern_complete (o r : List Char) (ho : isOctet o = true) :
    r ∈ octetPattern (o ++ r) := by
  simp only [isOctet, Bool.and_eq_true, decide_eq_true_eq, List.all_eq_true] at ho
  obtain ⟨⟨⟨hlen1, hlen3⟩, hdig⟩, hval⟩ := ho
  match o, hlen1, hlen3, hdig, hval with
  | [a], _, _, hdig, _ =>
    have ha := hdig a (by simp)
    simp only [octetPattern, mem_reAlt, mem_reSeq, mem_reOpt, mem_reClass, mem_reChar]
    right; right
    exact ⟨a :: r, Or.inr rfl, r, ⟨a, ha, rfl⟩, Or.inr rfl⟩
  | [a, b], _, _, hdig, _ =>
    have ha := hdig a (by simp)
    have hb := hdig b (by simp)
    simp only [octetPattern, mem_reAlt, mem_reSeq, mem_reOpt, mem_reClass, mem_reChar]
    right; right
    exact ⟨a :: b :: r, Or.inr rfl, b :: r, ⟨a, ha, rfl⟩, Or.inl ⟨b, hb, rfl⟩⟩
  | [a, b, c], _, _, hdig, hval =>
    have ha := (reDigit_iff a).1 (hdig a (by simp))
    have hb := (reDigit_iff b).1 (hdig b (by simp))
    have hc := (reDigit_iff c).1 (hdig c (by simp))
    simp only [List.foldl_cons, List.foldl_nil, Nat.zero_mul, Nat.zero_add] at hval
    simp only [octetPattern, mem_reAlt, mem_reSeq, mem_reOpt, mem_reClass, mem_reChar]
    by_cases h01 : a.toNat ≤ 49
    · right; right
      exact ⟨b :: c :: r, Or.inl ⟨a, (charIn_iff _ _ _).2 ⟨ha.1, h01⟩, rfl⟩, c :: r,
        ⟨b, (reDigit_iff b).2 hb, rfl⟩, Or.inl ⟨c, (reDigit_iff c).2 hc, rfl⟩⟩
    · have ha2 : a = '2' := char_eq_of_toNat _ _ (by show a.toNat = 50; omega)
      subst ha2
      by_cases hb4 : b.toNat ≤ 52
      · left
        exact ⟨b :: c :: r, rfl, c :: r, ⟨b, (charIn_iff _ _ _).2 ⟨hb.1, hb4⟩, rfl⟩,
          ⟨c, (reDigit_iff c).2 hc, rfl⟩⟩
      · right; left
        have hb5 : b = '5' := char_eq_of_toNat _ _ (by
          show b.toNat = 53
          have : ('2' : Char).toNat = 50 := rfl
          omega)
        subst hb5
        refine ⟨'5' :: c :: r, rfl, c :: r, rfl, ⟨c, (charIn_iff _ _ _).2 ⟨hc.1, ?_⟩, rfl⟩⟩
        show c.toNat ≤ 53
        have h2 : ('2' : Char).toNat = 50 := rfl
        have h5 : ('5' : Char).toNat = 53 := rfl
        omega

theorem reDigit_all_of_valid_n (r : Route) (h : r.valid = true) :
    r.n ≠ [] ∧ ∀ c ∈ r.n, reDigit c = true := by
  simp only [Route.valid, Bool.and_eq_true, Bool.not_eq_true', List.isEmpty_eq_false,
    List.all_eq_true] at h
  exact ⟨h.1.2, h.2⟩

theorem isOctet_of_valid (r : Route) (h : r.valid = true) :
    isOctet r.o1 = true ∧ isOctet r.o2 = true ∧ isOctet r.o3 = true ∧ isOctet r.o4 = true := by
  simp only [Route.valid, Bool.and_eq_true] at h
  exact ⟨h.1.1.1.1.1, h.1.1.1.1.2, h.1.1.1.2, h.1.1.2⟩

/-- The entry pattern matches every quoted valid entry. -/
theorem entryPattern_complete (e : Route) (r : List Char) (he : e.valid = true) :
    r ∈ entryPattern (quoted e.text ++ r) := by
  obtain ⟨h1, h2, h3, h4⟩ := isOctet_of_valid e he
  obtain ⟨hn, hd⟩ := reDigit_all_of_valid_n e he
  have hshape : quoted e.text ++ r =
      '"' :: (e.o1 ++ '.' :: (e.o2 ++ '.' :: (e.o3 ++ '.' :: (e.o4 ++ '/' ::
        (e.n ++ '"' :: r))))) := by
    simp [quoted, Route.text, List.append_assoc]
  rw [hshape]
  unfold entryPattern
  refine (mem_reSeq _ _ _ _).2 ⟨_, (mem_reChar _ _ _).2 rfl, ?_⟩
  refine (mem_reSeq _ _ _ _).2 ⟨_, (mem_reSeq _ _ _ _).2
    ⟨_, octetPattern_complete e.o1 _ h1, (mem_reChar _ _ _).2 rfl⟩, ?_⟩
  refine (mem_reSeq _ _ _ _).2 ⟨_, (mem_reSeq _ _ _ _).2
    ⟨_, octetPattern_complete e.o2 _ h2, (mem_reChar _ _ _).2 rfl⟩, ?_⟩
  refine (mem_reSeq _ _ _ _).2 ⟨_, (mem_reSeq _ _ _ _).2
    ⟨_, octetPattern_complete e.o3 _ h3, (mem_reChar _ _ _).2 rfl⟩, ?_⟩
  refine (mem_reSeq _ _ _ _).2 ⟨_, octetPattern_complete e.o4 _ h4, ?_⟩
  refine (mem_reSeq _ _ _ _).2 ⟨_, (mem_reChar _ _ _).2 rfl, ?_⟩
  exact (mem_reSeq _ _ _ _).2 ⟨_, rePlus_class reDigit e.n _ hd hn, (mem_reChar _ _ _).2 rfl⟩

/-- One repetition of the entries pattern: an entry, blanks, a comma, blanks. -/
theorem entryGroup_comma (e : Route) (wa wb r : List Char) (he : e.valid = true)
    (ha : ∀ c ∈ wa, reSpace c = true) (hb : ∀ c ∈ wb, reSpace c = true) :
    r ∈ reSeq entryPattern (reSeq (reStar (reClass reSpace))
        (reSeq (reOpt (reChar ',')) (reStar (reClass reSpace))))
      (quoted e.text ++ (wa ++ ',' :: wb) ++ r) := by
  have hshape : quoted e.text ++ (wa ++ ',' :: wb) ++ r =
      quoted e.text ++ (wa ++ (',' :: (wb ++ r))) := by
    simp [List.append_assoc]
  rw [hshape]
  refine (mem_reSeq _ _ _ _).2 ⟨_, entryPattern_complete e _ he, ?_⟩
  refine (mem_reSeq _ _ _ _).2 ⟨_, reStar_class reSpace wa _ ha, ?_⟩
  refine (mem_reSeq _ _ _ _).2 ⟨wb ++ r, (mem_reOpt _ _ _).2 (Or.inl ((mem_reChar _ _ _).2 rfl)),
    ?_⟩
  exact reStar_class reSpace wb r hb

/-- The last repetition of the entries pattern: an entry and blanks. -/
theorem entryGroup_last (e : Route) (w r : List Char) (he : e.valid = true)
    (hw : ∀ c ∈ w, reSpace c = true) :
    r ∈ reSeq entryPattern (reSeq (reStar (reClass reSpace))
        (reSeq (reOpt (reChar ',')) (reStar (reClass reSpace))))
      (quoted e.text ++ (w ++ r)) := by
  refine (mem_reSeq _ _ _ _).2 ⟨_, entryPattern_complete e _ he, ?_⟩
  refine (mem_reSeq _ _ _ _).2 ⟨_, reStar_class reSpace w _ hw, ?_⟩
  refine (mem_reSeq _ _ _ _).2 ⟨r, (mem_reOpt _ _ _).2 (Or.inr rfl), ?_⟩
  exact reStar_class reSpace [] r (fun _ h => absurd h (List.not_mem_nil _))

theorem initText_length (init : List (Route × List Char × List Char)) :
    init.length ≤ (RoutesLayout.initText init).length := by
  induction init with
  | nil => simp [RoutesLayout.initText]
  | cons a init ih =>
    simp only [RoutesLayout.initText, List.flatMap_cons, List.length_append,
      List.length_cons, quoted] at ih ⊢
    omega

/-- The repetition of the entry group matches a well-formed list. -/
theorem entries_complete (last : Route) (wEnd r : List Char) (hlast : last.valid = true)
    (hEnd : ∀ c ∈ wEnd, reSpace c = true) (init : List (Route × List Char × List Char)) :
    ∀ n, init.length + 1 ≤ n →
      (∀ item ∈ init, item.1.valid = true ∧ (∀ c ∈ item.2.1, reSpace c = true) ∧
        ∀ c ∈ item.2.2, reSpace c = true) →
      r ∈ reStarFuel (reSeq entryPattern (reSeq (reStar (reClass reSpace))
          (reSeq (reOpt (reChar ',')) (reStar (reClass reSpace))))) n
        (RoutesLayout.initText init ++ (quoted last.text ++ (wEnd ++ r))) := by
  induction init with
  | nil =>
    intro n hn _
    cases n with
    | zero => simp at hn
    | succ n =>
      exact mem_reStarFuel_step _ n _ r r (entryGroup_last last wEnd r hlast hEnd)
        (mem_reStarFuel_self _ _ _)
  | cons a init ih =>
    intro n hn hinit
    cases n with
    | zero => simp at hn
    | succ n =>
      obtain ⟨hv, ha, hb⟩ := hinit a (List.mem_cons_self _ _)
      have hshape : RoutesLayout.initText (a :: init) ++ (quoted last.text ++ (wEnd ++ r)) =
          quoted a.1.text ++ (a.2.1 ++ ',' :: a.2.2) ++
            (RoutesLayout.initText init ++ (quoted last.text ++ (wEnd ++ r))) := by
        simp [RoutesLayout.initText, List.append_assoc]
      rw [hshape]
      exact mem_reStarFuel_step _ n _ _ r (entryGroup_comma a.1 a.2.1 a.2.2 _ hv ha hb)
        (ih n (by simpa using hn) (fun item hi => hinit item (List.mem_cons_of_mem _ hi)))

/-- The pattern matches a well-formed assignment, up to its closing bracket. -/
theorem odpsRegStr_complete (x : RoutesLayout) (hwf : x.WellFormed) :
    x.post ∈ odpsRegStr (x.assignment ++ x.post) := by
  obtain ⟨h1, h2, h3, hEnd, hinit, hlast⟩ := hwf
  have hshape : x.assignment ++ x.post =
      "routes".data ++ (x.w1 ++ '=' :: (x.w2 ++ '[' :: (x.w3 ++
        (RoutesLayout.initText x.init ++ (quoted x.last.text ++ (x.wEnd ++ (']' :: x.post))))))) := by
    simp [RoutesLayout.assignment, RoutesLayout.listText, List.append_assoc]
  rw [hshape]
  unfold odpsRegStr odpsRegBody
  refine (mem_reSeq _ _ _ _).2 ⟨']' :: x.post, ?_, (mem_reChar _ _ _).2 rfl⟩
  refine (mem_reSeq _ _ _ _).2 ⟨_, (mem_reLit _ _ _).2 rfl, ?_⟩
  refine (mem_reSeq _ _ _ _).2 ⟨_, reStar_class reSpace x.w1 _ h1, ?_⟩
  refine (mem_reSeq _ _ _ _).2 ⟨_, (mem_reChar _ _ _).2 rfl, ?_⟩
  refine (mem_reSeq _ _ _ _).2 ⟨_, reStar_class reSpace x.w2 _ h2, ?_⟩
  refine (mem_reSeq _ _ _ _).2 ⟨_, (mem_reChar _ _ _).2 rfl, ?_⟩
  refine (mem_reSeq _ _ _ _).2 ⟨_, reStar_class reSpace x.w3 _ h3, ?_⟩
  refine (mem_reSeq _ _ _ _).2 ⟨']' :: x.post, ?_,
    reStar_class reSpace [] _ (fun _ h => absurd h (List.not_mem_nil _))⟩
  -- the entries: the first repetition, then the repetition of the rest
  unfold entriesPattern rePlus
  cases hi : x.init with
  | nil =>
    refine (mem_reSeq _ _ _ _).2 ⟨']' :: x.post, ?_, mem_reStarFuel_self _ _ _⟩
    exact entryGroup_last x.last x.wEnd _ hlast hEnd
  | cons a init =>
    rw [hi] at hinit
    obtain ⟨hv, ha, hb⟩ := hinit a (List.mem_cons_self _ _)
    have hshape2 : RoutesLayout.initText (a :: init) ++
          (quoted x.last.text ++ (x.wEnd ++ ']' :: x.post)) =
        quoted a.1.text ++ (a.2.1 ++ ',' :: a.2.2) ++
          (RoutesLayout.initText init ++ (quoted x.last.text ++ (x.wEnd ++ ']' :: x.post))) := by
      simp [RoutesLayout.initText, List.append_assoc]
    rw [hshape2]
    refine (mem_reSeq _ _ _ _).2 ⟨_, entryGroup_comma a.1 a.2.1 a.2.2 _ hv ha hb, ?_⟩
    apply entries_complete x.last x.wEnd _ hlast hEnd init _ ?_
      (fun item hi => hinit item (List.mem_cons_of_mem _ hi))
    have := initText_length init
    simp only [List.length_append, quoted, List.length_cons]
    omega

theorem consumes_reClass (p : Char → Bool) (P : Char → Prop) (h : ∀ c, p c = true → P c) :
    Consumes (reClass p) P := by
  intro l r hr
  obtain ⟨c, hc, hl⟩ := (mem_reClass p l r).1 hr
  refine ⟨[c], hl, fun d hd => ?_⟩
  rw [List.mem_singleton.1 hd]
  exact h c hc

theorem consumes_reChar (c : Char) (P : Char → Prop) (h : P c) : Consumes (reChar c) P :=
  consumes_reClass _ P (fun d hd => by
    have : d = c := by simpa using hd
    rw [this]; exact h)

theorem consumes_reLit (s : String) (P : Char → Prop) (h : ∀ c ∈ s.data, P c) :
    Consumes (reLit s) P := by
  intro l r hr
  exact ⟨s.data, (mem_reLit s l r).1 hr, h⟩

theorem consumes_reSeq (a b : Matcher) (P : Char → Prop) (ha : Consumes a P)
    (hb : Consumes b P) : Consumes (reSeq a b) P := by
  intro l r hr
  obtain ⟨m, hm, hr1⟩ := (mem_reSeq a b l r).1 hr
  obtain ⟨w1, hl, hw1⟩ := ha l m hm
  obtain ⟨w2, hm2, hw2⟩ := hb m r hr1
  refine ⟨w1 ++ w2, by rw [hl, hm2, List.append_assoc], fun c hc => ?_⟩
  rcases List.mem_append.1 hc with h | h
  · exact hw1 c h
  · exact hw2 c h

theorem consumes_reAlt (a b : Matcher) (P : Char → Prop) (ha : Consumes a P)
    (hb : Consumes b P) : Consumes (reAlt a b) P := by
  intro l r hr
  rcases (mem_reAlt a b l r).1 hr with h | h
  · exact ha l r h
  · exact hb l r h

theorem consumes_reOpt (a : Matcher) (P : Char → Prop) (ha : Consumes a P) :
    Consumes (reOpt a) P := by
  intro l r hr
  rcases (mem_reOpt a l r).1 hr with h | h
  · exact ha l r h
  · exact ⟨[], by rw [h]; rfl, fun c hc => absurd hc (List.not_mem_nil _)⟩

theorem consumes_reStarFuel (a : Matcher) (P : Char → Prop) (ha : Consumes a P) :
    ∀ n, Consumes (reStarFuel a n) P := by
  intro n
  induction n with
  | zero =>
    intro l r hr
    simp only [reStarFuel, List.mem_singleton] at hr
    exact ⟨[], by rw [hr]; rfl, fun c hc => absurd hc (List.not_mem_nil _)⟩
  | succ n ih =>
    intro l r hr
    simp only [reStarFuel, List.mem_append, List.mem_flatMap, List.mem_singleton] at hr
    rcases hr with ⟨m, hm, hr1⟩ | hr
    · obtain ⟨w1, hl, hw1⟩ := ha l m hm
      obtain ⟨w2, hm2, hw2⟩ := ih m r hr1
      refine ⟨w1 ++ w2, by rw [hl, hm2, List.append_assoc], fun c hc => ?_⟩
      rcases List.mem_append.1 hc with h | h
      · exact hw1 c h
      · exact hw2 c h
    · exact ⟨[], by rw [hr]; rfl, fun c hc => absurd hc (List.not_mem_nil _)⟩

theorem consumes_reStar (a : Matcher) (P : Char → Prop) (ha : Consumes a P) :
    Consumes (reStar a) P :=
  fun l r hr => consumes_reStarFuel a P ha l.length l r hr

theorem consumes_rePlus (a : Matcher) (P : Char → Prop) (ha : Consumes a P) :
    Consumes (rePlus a) P :=
  consumes_reSeq a _ P ha (consumes_reStar a P ha)

theorem reDigit_ne_bracket (c : Char) (h : reDigit c = true) : c ≠ ']' := by
  rintro rfl
  revert h
  decide

theorem charIn_digit (lo hi : Char) (hlo : 48 ≤ lo.toNat) (hhi : hi.toNat ≤ 57) (c : Char)
    (h : charIn lo hi c = true) : reDigit c = true := by
  rw [charIn_iff] at h
  rw [reDigit_iff]
  omega

theorem reSpace_cases (c : Char) (h : reSpace c = true) :
    c = '\t' ∨ c = '\n' ∨ c = '\x0c' ∨ c = '\r' ∨ c = ' ' := by
  simpa [reSpace, or_assoc] using h

theorem reSpace_ne_bracket (c : Char) (h : reSpace c = true) : c ≠ ']' := by
  rcases reSpace_cases c h with rfl | rfl | rfl | rfl | rfl <;> decide

theorem consumes_octetPattern : Consumes octetPattern (fun c => c ≠ ']') := by
  have hd : Consumes (reClass reDigit) (fun c => c ≠ ']') :=
    consumes_reClass _ _ reDigit_ne_bracket
  have hc : ∀ lo hi : Char, 48 ≤ lo.toNat → hi.toNat ≤ 57 →
      Consumes (reClass (charIn lo hi)) (fun c => c ≠ ']') :=
    fun lo hi hlo hhi =>
      consumes_reClass _ _ (fun c h => reDigit_ne_bracket c (charIn_digit lo hi hlo hhi c h))
  unfold octetPattern
  refine consumes_reAlt _ _ _ ?_ (consumes_reAlt _ _ _ ?_ ?_)
  · exact consumes_reSeq _ _ _ (consumes_reChar _ _ (by decide))
      (consumes_reSeq _ _ _ (hc _ _ (by decide) (by decide)) hd)
  · exact consumes_reSeq _ _ _ (consumes_reChar _ _ (by decide))
      (consumes_reSeq _ _ _ (consumes_reChar _ _ (by decide)) (hc _ _ (by decide) (by decide)))
  · exact consumes_reSeq _ _ _ (consumes_reOpt _ _ (hc _ _ (by decide) (by decide)))
      (consumes_reSeq _ _ _ hd (consumes_reOpt _ _ hd))

theorem consumes_entryPattern : Consumes entryPattern (fun c => c ≠ ']') := by
  have hd : Consumes (reClass reDigit) (fun c => c ≠ ']') :=
    consumes_reClass _ _ reDigit_ne_bracket
  have hod : Consumes (reSeq octetPattern (reChar '.')) (fun c => c ≠ ']') :=
    consumes_reSeq _ _ _ consumes_octetPattern (consumes_reChar _ _ (by decide))
  unfold entryPattern
  exact consumes_reSeq _ _ _ (consumes_reChar _ _ (by decide))
    (consumes_reSeq _ _ _ hod (consumes_reSeq _ _ _ hod (consumes_reSeq _ _ _ hod
      (consumes_reSeq _ _ _ consumes_octetPattern
        (consumes_reSeq _ _ _ (consumes_reChar _ _ (by decide))
          (consumes_reSeq _ _ _ (consumes_rePlus _ _ hd) (consumes_reChar _ _ (by decide))))))))

/-- The pattern consumes no closing bracket before its last character. -/
theorem consumes_odpsRegBody : Consumes odpsRegBody (fun c => c ≠ ']') := by
  have hs : Consumes (reStar (reClass reSpace)) (fun c => c ≠ ']') :=
    consumes_reStar _ _ (consumes_reClass _ _ reSpace_ne_bracket)
  unfold odpsRegBody entriesPattern
  exact consumes_reSeq _ _ _ (consumes_reLit _ _ (by decide))
    (consumes_reSeq _ _ _ hs (consumes_reSeq _ _ _ (consumes_reChar _ _ (by decide))
      (consumes_reSeq _ _ _ hs (consumes_reSeq _ _ _ (consumes_reChar _ _ (by decide))
        (consumes_reSeq _ _ _ hs (consumes_reSeq _ _ _
          (consumes_rePlus _ _ (consumes_reSeq _ _ _ consumes_entryPattern
            (consumes_reSeq _ _ _ hs (consumes_reSeq _ _ _
              (consumes_reOpt _ _ (consumes_reChar _ _ (by decide))) hs))))
          hs))))))

/-- A text splits at its first occurrence of a character in one way only. -/
theorem first_occurrence_unique (c : Char) (w1 : List Char) :
    ∀ (w2 r1 r2 : List Char), w1 ++ c :: r1 = w2 ++ c :: r2 → c ∉ w1 → c ∉ w2 →
      w1 = w2 ∧ r1 = r2 := by
  induction w1 with
  | nil =>
    intro w2 r1 r2 h _ h2
    cases w2 with
    | nil => simp at h; exact ⟨rfl, h⟩
    | cons d w2 =>
      simp only [List.nil_append, List.cons_append, List.cons.injEq] at h
      exact absurd (h.1 ▸ List.mem_cons_self _ _) h2
  | cons a w1 ih =>
    intro w2 r1 r2 h h1 h2
    cases w2 with
    | nil =>
      simp only [List.nil_append, List.cons_append, List.cons.injEq] at h
      exact absurd (h.1 ▸ List.mem_cons_self _ _) h1
    | cons d w2 =>
      simp only [List.cons_append, List.cons.injEq] at h
      obtain ⟨hw, hr⟩ := ih w2 r1 r2 h.2 (fun hm => h1 (List.mem_cons_of_mem _ hm))
        (fun hm => h2 (List.mem_cons_of_mem _ hm))
      exact ⟨by rw [h.1, hw], hr⟩

/-- Every match of the pattern ends with the first closing bracket of the text it starts in. -/
theorem odpsRegStr_sound (l r : List Char) (h : r ∈ odpsRegStr l) :
    ∃ w, l = w ++ ']' :: r ∧ ']' ∉ w := by
  obtain ⟨m, hm, hr⟩ := (mem_reSeq _ _ l r).1 h
  obtain ⟨w, hl, hw⟩ := consumes_odpsRegBody l m hm
  rw [(mem_reChar _ _ _).1 hr] at hl
  exact ⟨w, hl, fun hmem => hw _ hmem rfl⟩

/-- The characters of a valid entry are digits, dots and the slash, and there is one at
least. -/
theorem Route.text_chars (r : Route) (h : r.valid = true) :
    r.text ≠ [] ∧ ∀ c ∈ r.text, reDigit c = true ∨ c = '.' ∨ c = '/' := by
  obtain ⟨h1, h2, h3, h4⟩ := isOctet_of_valid r h
  obtain ⟨_, hd⟩ := reDigit_all_of_valid_n r h
  have hoct : ∀ o, isOctet o = true → ∀ c ∈ o, reDigit c = true := by
    intro o ho
    simp only [isOctet, Bool.and_eq_true, List.all_eq_true] at ho
    exact ho.1.2
  refine ⟨by simp [Route.text], fun c hc => ?_⟩
  simp only [Route.text, List.mem_append, List.mem_cons] at hc
  rcases hc with hc | rfl | hc | rfl | hc | rfl | hc | rfl | hc
  · exact Or.inl (hoct _ h1 c hc)
  · exact Or.inr (Or.inl rfl)
  · exact Or.inl (hoct _ h2 c hc)
  · exact Or.inr (Or.inl rfl)
  · exact Or.inl (hoct _ h3 c hc)
  · exact Or.inr (Or.inl rfl)
  · exact Or.inl (hoct _ h4 c hc)
  · exact Or.inr (Or.inr rfl)
  · exact Or.inl (hd c hc)

/-- A digit, a dot or a slash is none of the characters the call cuts at, and no blank. -/
theorem entry_char_plain (c : Char) (h : reDigit c = true ∨ c = '.' ∨ c = '/') :
    c ≠ ']' ∧ c ≠ '[' ∧ c ≠ ',' ∧ c ≠ '"' ∧ isSpace c = false := by
  rcases h with h | rfl | rfl
  · refine ⟨?_, ?_, ?_, ?_, ?_⟩
    · exact reDigit_ne_bracket c h
    · rintro rfl; revert h; decide
    · rintro rfl; revert h; decide
    · rintro rfl; revert h; decide
    · rw [reDigit_iff] at h
      simp only [isSpace, Bool.or_eq_false_iff, Bool.and_eq_false_iff, decide_eq_false_iff_not,
        beq_eq_false_iff_ne, ne_eq]
      omega
  · decide
  · decide

theorem reSpace_isSpace (c : Char) (h : reSpace c = true) : isSpace c = true := by
  rcases reSpace_cases c h with rfl | rfl | rfl | rfl | rfl <;> decide

/-- A blank of the pattern is none of the characters the call cuts at. -/
theorem reSpace_plain (c : Char) (h : reSpace c = true) :
    c ≠ ']' ∧ c ≠ '[' ∧ c ≠ ',' ∧ c ≠ '"' := by
  rcases reSpace_cases c h with rfl | rfl | rfl | rfl | rfl <;> decide

theorem FindStringSubmatch_of_match (re : Matcher) (l r : List Char) (rs : List (List Char))
    (h : re l = r :: rs) : FindStringSubmatch re l = some (l.take (l.length - r.length)) := by
  cases l with
  | nil => simp [FindStringSubmatch, h]
  | cons c l => simp only [FindStringSubmatch, h]

theorem FindStringSubmatch_skip (re : Matcher) (rest : List Char) (pre : List Char)
    (h : ∀ s ∈ pre.tails, s ≠ [] → re (s ++ rest) = []) :
    FindStringSubmatch re (pre ++ rest) = FindStringSubmatch re rest := by
  induction pre with
  | nil => rfl
  | cons c pre ih =>
    have h0 : re ((c :: pre) ++ rest) = [] :=
      h (c :: pre) (by simp) (by simp)
    have h1 : FindStringSubmatch re ((c :: pre) ++ rest) = FindStringSubmatch re (pre ++ rest) := by
      show FindStringSubmatch re (c :: (pre ++ rest)) = _
      rw [FindStringSubmatch]
      rw [show c :: (pre ++ rest) = (c :: pre) ++ rest from rfl, h0]
    rw [h1]
    apply ih
    intro s hs hne
    exact h s (by simp only [List.tails, List.mem_cons]; exact Or.inr hs) hne

theorem FindStringSubmatch_none (re : Matcher) (l : List Char)
    (h : ∀ s ∈ l.tails, re s = []) : FindStringSubmatch re l = none := by
  induction l with
  | nil =>
    have := h [] (by simp)
    simp [FindStringSubmatch, this]
  | cons c l ih =>
    have h0 := h (c :: l) (by simp)
    rw [FindStringSubmatch, h0]
    exact ih (fun s hs => h s (by simp only [List.tails, List.mem_cons]; exact Or.inr hs))

/-- The characters between the brackets of a well-formed assignment: no bracket among them. -/
theorem listText_chars (x : RoutesLayout) (hwf : x.WellFormed) :
    ∀ c ∈ x.listText, c ≠ ']' ∧ c ≠ '[' := by
  obtain ⟨_, _, _, _, hinit, hlast⟩ := hwf
  have hq : ∀ r : Route, r.valid = true → ∀ c ∈ quoted r.text, c ≠ ']' ∧ c ≠ '[' := by
    intro r hr c hc
    simp only [quoted, List.mem_cons, List.mem_append, List.mem_singleton,
      List.not_mem_nil, or_false] at hc
    rcases hc with rfl | hc | rfl
    · decide
    · have := entry_char_plain c ((Route.text_chars r hr).2 c hc)
      exact ⟨this.1, this.2.1⟩
    · decide
  intro c hc
  simp only [RoutesLayout.listText, RoutesLayout.initText, List.mem_append,
    List.mem_flatMap, List.mem_cons] at hc
  rcases hc with ⟨item, hitem, hc⟩ | hc
  · obtain ⟨hv, ha, hb⟩ := hinit item hitem
    rcases hc with hc | hc | rfl | hc
    · exact hq item.1 hv c hc
    · have := reSpace_plain c (ha c hc); exact ⟨this.1, this.2.1⟩
    · decide
    · have := reSpace_plain c (hb c hc); exact ⟨this.1, this.2.1⟩
  · exact hq x.last hlast c hc

/-- The part of a well-formed assignment before its opening bracket holds no bracket. -/
theorem assignment_head_chars (x : RoutesLayout) (hwf : x.WellFormed) :
    ∀ c ∈ "routes".data ++ (x.w1 ++ '=' :: x.w2), c ≠ ']' ∧ c ≠ '[' := by
  obtain ⟨h1, h2, _⟩ := hwf
  intro c hc
  have hword : ∀ c ∈ "routes".data, c ≠ ']' ∧ c ≠ '[' := by decide
  rcases List.mem_append.1 hc with hc | hc
  · exact hword c hc
  rcases List.mem_append.1 hc with hc | hc
  · have := reSpace_plain c (h1 c hc); exact ⟨this.1, this.2.1⟩
  rcases List.mem_cons.1 hc with rfl | hc
  · decide
  · have := reSpace_plain c (h2 c hc); exact ⟨this.1, this.2.1⟩

/-- The part of a well-formed assignment between its brackets holds no closing bracket. -/
theorem assignment_inner_chars (x : RoutesLayout) (hwf : x.WellFormed) :
    ∀ c ∈ x.w3 ++ (x.listText ++ x.wEnd), c ≠ ']' := by
  have hl := listText_chars x hwf
  obtain ⟨_, _, h3, hEnd, _⟩ := hwf
  intro c hc
  simp only [List.mem_append] at hc
  rcases hc with hc | hc | hc
  · exact (reSpace_plain c (h3 c hc)).1
  · exact (hl c hc).1
  · exact (reSpace_plain c (hEnd c hc)).1

theorem assignment_shape (x : RoutesLayout) :
    x.assignment =
      ("routes".data ++ (x.w1 ++ '=' :: x.w2)) ++ '[' :: ((x.w3 ++ (x.listText ++ x.wEnd)) ++
        [']']) := by
  simp [RoutesLayout.assignment, List.append_assoc]

/-- The leftmost match of the pattern in a well-formed text is the assignment. -/
theorem FindStringSubmatch_layout (x : RoutesLayout) (hwf : x.WellFormed) (hleft : x.Leftmost) :
    FindStringSubmatch odpsRegStr x.text = some x.assignment := by
  rw [RoutesLayout.text, FindStringSubmatch_skip odpsRegStr _ x.pre hleft]
  have hmem := odpsRegStr_complete x hwf
  cases hre : odpsRegStr (x.assignment ++ x.post) with
  | nil => rw [hre] at hmem; cases hmem
  | cons r rs =>
    rw [FindStringSubmatch_of_match _ _ r rs hre]
    obtain ⟨w, hw, hnot⟩ := odpsRegStr_sound _ r (by rw [hre]; exact List.mem_cons_self _ _)
    have hA : x.assignment ++ x.post =
        (("routes".data ++ (x.w1 ++ '=' :: x.w2)) ++ '[' :: (x.w3 ++ (x.listText ++ x.wEnd))) ++
          ']' :: x.post := by
      rw [assignment_shape]; simp [List.append_assoc]
    have hnotA : ']' ∉ ("routes".data ++ (x.w1 ++ '=' :: x.w2)) ++
        '[' :: (x.w3 ++ (x.listText ++ x.wEnd)) := by
      intro hm
      rcases List.mem_append.1 hm with h | h
      · exact (assignment_head_chars x hwf _ h).1 rfl
      · rcases List.mem_cons.1 h with h | h
        · revert h; decide
        · exact assignment_inner_chars x hwf _ h rfl
    have huniq := first_occurrence_unique ']' _ _ _ _ (hA.symm.trans hw) hnotA hnot
    rw [← huniq.2]
    simp

theorem stringsIndex_first (c : Char) (w r : List Char) (h : c ∉ w) :
    stringsIndex (w ++ c :: r) c = w.length := by
  have hmem : c ∈ w ++ c :: r := by simp
  have htake : ∀ w : List Char, c ∉ w → (w ++ c :: r).takeWhile (fun d => d ≠ c) = w := by
    intro w
    induction w with
    | nil => intro _; simp [List.takeWhile]
    | cons a w ih =>
      intro h
      have ha : a ≠ c := fun hac => h (hac ▸ List.mem_cons_self _ _)
      rw [List.cons_append, List.takeWhile_cons_of_pos (by simpa using ha),
        ih (fun hm => h (List.mem_cons_of_mem _ hm))]
  simp only [stringsIndex, hmem, if_true, htake w h]

theorem dropWhile_append_all (p : Char → Bool) (w l : List Char) (hw : ∀ c ∈ w, p c = true) :
    (w ++ l).dropWhile p = l.dropWhile p := by
  induction w with
  | nil => rfl
  | cons a w ih =>
    rw [List.cons_append, List.dropWhile_cons_of_pos (hw a (List.mem_cons_self _ _))]
    exact ih (fun c hc => hw c (List.mem_cons_of_mem _ hc))

/-- Stripping a class of characters from both ends of a text that is wrapped in such
characters and neither starts nor ends with one gives the text. -/
theorem trim_wrapped (p : Char → Bool) (w1 w2 m : List Char) (a b : Char)
    (h1 : ∀ c ∈ w1, p c = true) (h2 : ∀ c ∈ w2, p c = true) (ha : p a = false)
    (hb : p b = false) :
    (((w1 ++ ((a :: (m ++ [b])) ++ w2)).dropWhile p).reverse.dropWhile p).reverse =
      a :: (m ++ [b]) := by
  rw [dropWhile_append_all p w1 _ h1]
  rw [List.cons_append, List.dropWhile_cons_of_neg (by simp [ha])]
  have hrev : (a :: (m ++ [b] ++ w2)).reverse = w2.reverse ++ (b :: (m.reverse ++ [a])) := by
    simp [List.reverse_append]
  rw [hrev, dropWhile_append_all p _ _ (fun c hc => h2 c (List.mem_reverse.1 hc))]
  rw [List.dropWhile_cons_of_neg (by simp [hb])]
  simp [List.reverse_append]

theorem splitChars_no_sep (sep : Char) (p : List Char) (h : sep ∉ p) :
    splitChars sep p = [p] := by
  induction p with
  | nil => rfl
  | cons a p ih =>
    have ha : a ≠ sep := fun hac => h (hac ▸ List.mem_cons_self _ _)
    simp only [splitChars, ha, if_false, ih (fun hm => h (List.mem_cons_of_mem _ hm))]

theorem splitChars_append_sep (sep : Char) (l : List Char) (p : List Char) (h : sep ∉ p) :
    splitChars sep (p ++ sep :: l) = p :: splitChars sep l := by
  induction p with
  | nil => simp [splitChars]
  | cons a p ih =>
    have ha : a ≠ sep := fun hac => h (hac ▸ List.mem_cons_self _ _)
    rw [List.cons_append, splitChars, if_neg ha, ih (fun hm => h (List.mem_cons_of_mem _ hm))]

/-- What the call makes of one piece of the list: the blanks and the quotes around a valid
entry are stripped. -/
theorem trim_piece (e : Route) (wa wb : List Char) (he : e.valid = true)
    (ha : ∀ c ∈ wa, reSpace c = true) (hb : ∀ c ∈ wb, reSpace c = true) :
    stringsTrim (stringsTrimSpace (String.mk (wb ++ (quoted e.text ++ wa)))) "\"" =
      String.mk e.text := by
  obtain ⟨hne, hchars⟩ := Route.text_chars e he
  have h1 : stringsTrimSpace (String.mk (wb ++ (quoted e.text ++ wa))) =
      String.mk (quoted e.text) := by
    simp only [stringsTrimSpace, quoted]
    rw [trim_wrapped isSpace wb wa e.text '"' '"' (fun c hc => reSpace_isSpace c (hb c hc))
      (fun c hc => reSpace_isSpace c (ha c hc)) (by decide) (by decide)]
  rw [h1]
  have hq : ∀ c ∈ e.text, (fun c => "\"".data.contains c) c = false := by
    intro c hc
    have := (entry_char_plain c (hchars c hc)).2.2.2.1
    simp [this]
  -- the entry is not empty: it has a first and a last character, and neither is a quote
  obtain ⟨a, m, hm⟩ : ∃ a m, e.text = a :: m := by
    cases h : e.text with
    | nil => exact absurd h hne
    | cons a m => exact ⟨a, m, rfl⟩
  have hlast : ∃ m1 b, e.text = m1 ++ [b] := by
    have := List.eq_nil_or_concat e.text
    rcases this with h | ⟨m1, b, h⟩
    · exact absurd h hne
    · exact ⟨m1, b, by simpa using h⟩
  obtain ⟨m1, b, hm1⟩ := hlast
  have hfa : (fun c => "\"".data.contains c) a = false := hq a (by rw [hm]; simp)
  have hfb : (fun c => "\"".data.contains c) b = false := hq b (by rw [hm1]; simp)
  simp only [stringsTrim, quoted]
  congr 1
  have hd1 : ('"' :: (e.text ++ ['"'])).dropWhile (fun c => "\"".data.contains c) =
      e.text ++ ['"'] := by
    rw [List.dropWhile_cons_of_pos (by decide), hm, List.cons_append,
      List.dropWhile_cons_of_neg (by simpa using hfa)]
  rw [hd1]
  have hd2 : (e.text ++ ['"']).reverse.dropWhile (fun c => "\"".data.contains c) =
      e.text.reverse := by
    rw [List.reverse_append, List.reverse_singleton, List.singleton_append,
      List.dropWhile_cons_of_pos (by decide), hm1, List.reverse_append, List.reverse_singleton,
      List.singleton_append, List.dropWhile_cons_of_neg (by simpa using hfb)]
  rw [hd2, List.reverse_reverse]

/-- The pieces between the commas of a well-formed list, each stripped, are the entries. -/
theorem routes_of_pieces (last : Route) (hlast : last.valid = true)
    (init : List (Route × List Char × List Char)) :
    ∀ wb : List Char, (∀ c ∈ wb, reSpace c = true) →
      (∀ item ∈ init, item.1.valid = true ∧ (∀ c ∈ item.2.1, reSpace c = true) ∧
        ∀ c ∈ item.2.2, reSpace c = true) →
      (splitChars ',' (wb ++ (RoutesLayout.initText init ++ quoted last.text))).map
          (fun piece => stringsTrim (stringsTrimSpace (String.mk piece)) "\"") =
        init.map (fun item => String.mk item.1.text) ++ [String.mk last.text] := by
  have hquoted : ∀ e : Route, e.valid = true → ',' ∉ quoted e.text := by
    intro e he hm
    simp only [quoted, List.mem_cons, List.mem_append, List.mem_singleton,
      List.not_mem_nil, or_false] at hm
    rcases hm with h | h | h
    · revert h; decide
    · exact (entry_char_plain _ ((Route.text_chars e he).2 _ h)).2.2.1 rfl
    · revert h; decide
  induction init with
  | nil =>
    intro wb hwb _
    have hno : ',' ∉ wb ++ quoted last.text := by
      intro hm
      rcases List.mem_append.1 hm with h | h
      · exact (reSpace_plain _ (hwb _ h)).2.2.1 rfl
      · exact hquoted last hlast h
    simp only [RoutesLayout.initText, List.flatMap_nil, List.nil_append,
      splitChars_no_sep ',' _ hno, List.map_cons, List.map_nil]
    have := trim_piece last [] wb hlast (fun _ h => absurd h (List.not_mem_nil _)) hwb
    simp only [List.append_nil] at this
    rw [this]
  | cons a init ih =>
    intro wb hwb hinit
    obtain ⟨hv, ha, hb⟩ := hinit a (List.mem_cons_self _ _)
    have hshape : wb ++ (RoutesLayout.initText (a :: init) ++ quoted last.text) =
        (wb ++ (quoted a.1.text ++ a.2.1)) ++
          ',' :: (a.2.2 ++ (RoutesLayout.initText init ++ quoted last.text)) := by
      simp [RoutesLayout.initText, List.append_assoc]
    have hno : ',' ∉ wb ++ (quoted a.1.text ++ a.2.1) := by
      intro hm
      rcases List.mem_append.1 hm with h | h
      · exact (reSpace_plain _ (hwb _ h)).2.2.1 rfl
      · rcases List.mem_append.1 h with h | h
        · exact hquoted a.1 hv h
        · exact (reSpace_plain _ (ha _ h)).2.2.1 rfl
    rw [hshape, splitChars_append_sep ',' _ _ hno, List.map_cons,
      ih a.2.2 hb (fun item hi => hinit item (List.mem_cons_of_mem _ hi)),
      trim_piece a.1 a.2.1 wb hv ha hwb]
    rfl

/-- The text between the brackets starts and ends with a quote. -/
theorem listText_shape (x : RoutesLayout) : ∃ m, x.listText = '"' :: (m ++ ['"']) := by
  cases hi : x.init with
  | nil =>
    exact ⟨x.last.text, by simp [RoutesLayout.listText, RoutesLayout.initText, hi, quoted]⟩
  | cons a init =>
    refine ⟨a.1.text ++ ['"'] ++ (a.2.1 ++ ',' :: a.2.2) ++ RoutesLayout.initText init ++
      '"' :: x.last.text, ?_⟩
    simp [RoutesLayout.listText, RoutesLayout.initText, hi, quoted, List.append_assoc]

/-- What the call makes of the matched text of a well-formed assignment. -/
theorem getRoutes_of_assignment (x : RoutesLayout) (hwf : x.WellFormed)
    (hfind : FindStringSubmatch odpsRegStr x.text = some x.assignment) :
    getRoutesFromStr (String.mk x.text) = .result x.entries := by
  have hhead := assignment_head_chars x hwf
  have hinner := assignment_inner_chars x hwf
  have hl : stringsIndex x.assignment '[' =
      (("routes".data ++ (x.w1 ++ '=' :: x.w2)).length : Int) := by
    rw [assignment_shape]
    exact stringsIndex_first '[' _ _ (fun hm => (hhead _ hm).2 rfl)
  have hshape2 : x.assignment =
      (("routes".data ++ (x.w1 ++ '=' :: x.w2)) ++ '[' :: (x.w3 ++ (x.listText ++ x.wEnd))) ++
        ']' :: [] := by
    rw [assignment_shape]; simp [List.append_assoc]
  have hr : stringsIndex x.assignment ']' =
      ((("routes".data ++ (x.w1 ++ '=' :: x.w2)) ++
        '[' :: (x.w3 ++ (x.listText ++ x.wEnd))).length : Int) := by
    rw [hshape2]
    refine stringsIndex_first ']' _ _ (fun hm => ?_)
    rcases List.mem_append.1 hm with h | h
    · exact (hhead _ h).1 rfl
    · rcases List.mem_cons.1 h with h | h
      · revert h; decide
      · exact hinner _ h rfl
  obtain ⟨_, _, h3, hEnd, hinit, hlast⟩ := hwf
  obtain ⟨m, hm⟩ := listText_shape x
  unfold getRoutesFromStr
  simp only [hfind, hl, hr]
  have hnonneg : ¬ (((("routes".data ++ (x.w1 ++ '=' :: x.w2)).length : Int) < 0 ∨
      ((("routes".data ++ (x.w1 ++ '=' :: x.w2)) ++
        '[' :: (x.w3 ++ (x.listText ++ x.wEnd))).length : Int) < 0)) := by
    omega
  have horder : ¬ (((("routes".data ++ (x.w1 ++ '=' :: x.w2)) ++
        '[' :: (x.w3 ++ (x.listText ++ x.wEnd))).length : Int) <
      (("routes".data ++ (x.w1 ++ '=' :: x.w2)).length : Int) + 1) := by
    simp only [List.length_append, List.length_cons]
    omega
  rw [if_neg hnonneg, if_neg horder]
  have hslice : (x.assignment.drop
        ((("routes".data ++ (x.w1 ++ '=' :: x.w2)).length : Int) + 1).toNat).take
        (((("routes".data ++ (x.w1 ++ '=' :: x.w2)) ++
          '[' :: (x.w3 ++ (x.listText ++ x.wEnd))).length : Int) -
          ((("routes".data ++ (x.w1 ++ '=' :: x.w2)).length : Int) + 1)).toNat =
      x.w3 ++ (x.listText ++ x.wEnd) := by
    have e1 : ((("routes".data ++ (x.w1 ++ '=' :: x.w2)).length : Int) + 1).toNat =
        ("routes".data ++ (x.w1 ++ '=' :: x.w2) ++ ['[']).length := by
      simp only [List.length_append, List.length_cons, List.length_nil]
      omega
    have e2 : (((("routes".data ++ (x.w1 ++ '=' :: x.w2)) ++
          '[' :: (x.w3 ++ (x.listText ++ x.wEnd))).length : Int) -
          ((("routes".data ++ (x.w1 ++ '=' :: x.w2)).length : Int) + 1)).toNat =
        (x.w3 ++ (x.listText ++ x.wEnd)).length := by
      simp only [List.length_append, List.length_cons]
      omega
    rw [e1, e2]
    have e3 : x.assignment = ("routes".data ++ (x.w1 ++ '=' :: x.w2) ++ ['[']) ++
        ((x.w3 ++ (x.listText ++ x.wEnd)) ++ [']']) := by
      rw [assignment_shape]; simp [List.append_assoc]
    rw [e3, List.drop_left, List.take_left]
  simp only [hslice]
  have htrim : stringsTrimSpace (String.mk (x.w3 ++ (x.listText ++ x.wEnd))) =
      String.mk x.listText := by
    simp only [stringsTrimSpace, hm]
    rw [trim_wrapped isSpace x.w3 x.wEnd m '"' '"' (fun c hc => reSpace_isSpace c (h3 c hc))
      (fun c hc => reSpace_isSpace c (hEnd c hc)) (by decide) (by decide)]
  rw [htrim]
  simp only [stringsSplit, List.map_map]
  have := routes_of_pieces x.last hlast x.init [] (fun _ h => absurd h (List.not_mem_nil _)) hinit
  simp only [List.nil_append] at this
  simp only [RoutesLayout.listText, RoutesLayout.entries]
  rw [← this]
  rfl

/-- C27, as stated, fails. A list whose entries are separated by a blank instead of a comma,
and a list with a comma after its last entry, are no assignments of the described form, yet the
pattern (whose comma is optional) matches them and the call returns without error: in the first
case one text that is no CIDR string, in the second case an empty entry after the real one. And
an assignment of the described form whose blank is a vertical tab, which `strings.TrimSpace`
takes for white space but the class `\s` of the pattern does not, is answered with an error. -/
theorem C27_counterexample :
    getRoutesFromStr "routes = [\"1.1.1.1/8\" \"2.2.2.2/8\"]" =
      .result ["1.1.1.1/8\" \"2.2.2.2/8"] ∧
    getRoutesFromStr "routes = [\"1.1.1.1/8\",]" = .result ["1.1.1.1/8", ""] ∧
    isSpace '\x0b' = true ∧
    getRoutesFromStr "routes = [\x0b\"1.1.1.1/8\"]" =
      .error (.errorf "failed to match regexp") := by
  refine ⟨by decide, by decide, by decide, by decide⟩

/-- C27, amended. Let a text hold an assignment `routes = [ "e", ..., "e" ]` of one or more
quoted entries, each an IPv4 address of four decimal octets followed by a slash and one or more
digits, with exactly one comma between two entries and none after the last, and with any runs
of tabs, newlines, form feeds, carriage returns and spaces after the word, after the equals
sign, around the commas and inside the brackets; let the pattern have no match that starts
before the assignment. Then `getRoutesFromStr` returns, without error, exactly the entries,
unquoted and in their order. And for every input in which the pattern has no match at all it
returns the error of the failed match. -/
theorem C27_getRoutesFromStr_entries (x : RoutesLayout) (input : String) :
    (x.WellFormed → x.Leftmost → getRoutesFromStr (String.mk x.text) = .result x.entries) ∧
    ((∀ s ∈ input.data.tails, odpsRegStr s = []) →
      getRoutesFromStr input = .error (.errorf "failed to match regexp")) := by
  refine ⟨fun hwf hleft => ?_, fun hno => ?_⟩
  · exact getRoutes_of_assignment x hwf (FindStringSubmatch_layout x hwf hleft)
  · simp only [getRoutesFromStr, FindStringSubmatch_none odpsRegStr input.data hno]

/-- C27 (amended) on an assignment of two entries on two lines, and on a text without the
word `routes`. -/
theorem C27_getRoutesFromStr_entries_witness :
    String.mk exampleRoutesLayout.text =
      "x = 1\nroutes = [\n  \"10.0.0.0/8\" ,\n  \"192.168.1.255/24\"\n]\nclass" ∧
    getRoutesFromStr (String.mk exampleRoutesLayout.text) =
      .result ["10.0.0.0/8", "192.168.1.255/24"] ∧
    getRoutesFromStr "route = []" = .error (.errorf "failed to match regexp") :=
  ⟨by decide,
    (C27_getRoutesFromStr_entries exampleRoutesLayout "route = []").1 (by decide) (by decide),
    (C27_getRoutesFromStr_entries exampleRoutesLayout "route = []").2 (by decide)⟩

end Pouch
